import Mathlib

/-!
# go-fzapi: directory-tree cache and upload sequencing

A shallow embedding of the lookup functions of `fzapi.go` (`FzFindFile`,
`sepPrjFolder`, `FzFindFolder`, `CanUpload`), of the strategy selection in
`cmd/fzc/main.go` (`syncFolder`) and of the chunk loop of `FzPlUpload`, of the
request methods (`FzLogin`, `FzLogout`, `FzReload`, `FzDeleteFile`, `FzDownload`,
`FzUpload`, `FzPlUpload`, `FzSendMB`, `MbImportCSV`) with `ParseXMLResp` and the
package buffer `gBody`, of the stored password (`SaveFzcConfig`, `LoadFzcConfig`),
of `loadMbConf` and of the archive search of `fzarchive.go`, followed by theorems
about them.

Go strings are embedded as `String`; `==` on strings is exact equality.
Go slices of pointers obtained from `xml.Unmarshal` hold no nil element and are
embedded as lists of values.
-/

namespace Fzapi

/-! ## Data model (`fzapi.go`, lines 41-92) -/

/-- The struct `XMLFile`. -/
structure XMLFile where
  DrmFlag : String := ""
  Key : String := ""
  Name : String := ""
  Owner : String := ""
  PdfFlag : String := ""
  Size : String := ""
  TimeStamp : String := ""
  deriving DecidableEq, Repr, Inhabited

/-- The struct `XMLFolder`; `XMLFolder{}` is the default value. -/
structure XMLFolder where
  Name : String := ""
  Access : String := ""
  ID : String := ""
  Limit : String := ""
  FileList : List XMLFile := []
  deriving DecidableEq, Repr, Inhabited

/-- The struct `XMLProject`. -/
structure XMLProject where
  Name : String := ""
  FolderList : List XMLFolder := []
  deriving DecidableEq, Repr, Inhabited

/-- The struct `XMLFileZen`: the decoded response, holding the cached tree. -/
structure XMLFileZen where
  Res : String := ""
  ProjectList : List XMLProject := []
  SystemMailAddr : String := ""
  UserMailAddr : String := ""
  ValidKey : String := ""
  Version : String := ""
  deriving DecidableEq, Repr, Inhabited

/-- The struct `FzAPI`, restricted to the fields that are plain data.
`FzSession` keeps the cookie value; `LastResp` is the pointer `*XMLFileZen`, with
`none` for nil (no response stored yet) and `some resp` for a stored response,
whose `ProjectList` is the cached tree. The unexported pointer `client` is not a
field: `FzSendPostReq` sets it on the first request of a session, so a session that
stores a response it got through a request has it set; `MbImportCSV`, which needs no
stored response, takes it as an argument. -/
structure FzAPI where
  URL : String := ""
  InsecureSkipVerify : Bool := false
  Timeout : Int := 0
  UseClientCert : Bool := false
  FzSession : String := ""
  LastResp : Option XMLFileZen := none
  deriving DecidableEq, Repr, Inhabited

/-- Outcome of a Go call that dereferences a pointer: the returned value, or the
run-time panic of a nil dereference. -/
inductive GoResult (α : Type) where
  | ok (v : α)
  | panic
  deriving DecidableEq, Repr

/-! ## Go library functions used by the lookups -/

/-- Go `strings.Index(s, sub)` on the characters of `s` from position `i` on:
the position of the first occurrence of `sub`, or `-1`. The source only tests the
result against `-1`. -/
def stringsIndexFrom (sub : List Char) : List Char → Nat → Int
  | [], i => if sub.isPrefixOf [] then (i : Int) else -1
  | c :: cs, i => if sub.isPrefixOf (c :: cs) then (i : Int) else stringsIndexFrom sub cs (i + 1)

/-- Go `strings.Index(s, sub)`. -/
def stringsIndex (s sub : String) : Int :=
  stringsIndexFrom sub.data s.data 0

/-- Go `strings.Split(s, sep)` for a one-character separator: all the substrings of
`s` between occurrences of `sep`; never empty (`[""]` for the empty string). -/
def stringsSplit (sep : Char) : List Char → List (List Char)
  | [] => [[]]
  | c :: cs =>
    if c = sep then [] :: stringsSplit sep cs
    else
      match stringsSplit sep cs with
      | [] => [[c]]
      | h :: t => (c :: h) :: t

/-! ## `sepPrjFolder` (`fzapi.go`, lines 236-242) -/

/-- The function `sepPrjFolder`: `a := strings.Split(prjFolder, "/")`; fewer than two
elements gives `(prjFolder, "")`, otherwise `(a[0], a[1])`. -/
def sepPrjFolder (prjFolder : String) : String × String :=
  match stringsSplit '/' prjFolder.data with
  | a0 :: a1 :: _ => (String.mk a0, String.mk a1)
  | _ => (prjFolder, "")

/-! ## `FzFindFile` (`fzapi.go`, lines 218-233) -/

/-- Innermost loop of `FzFindFile` over `d.FileList`: `some f.Key` when
`return f.Key` fires, `none` when the loop runs to its end. -/
def findFileInFiles (file : String) : List XMLFile → Option String
  | [] => none
  | f :: fs => if f.Name = file then some f.Key else findFileInFiles file fs

/-- Middle loop of `FzFindFile` over `p.FolderList`. -/
def findFileInFolders (folder file : String) : List XMLFolder → Option String
  | [] => none
  | d :: ds =>
    if d.Name = folder then
      match findFileInFiles file d.FileList with
      | some k => some k
      | none => findFileInFolders folder file ds
    else findFileInFolders folder file ds

/-- Outer loop of `FzFindFile` over `fz.LastResp.ProjectList`. -/
def findFileInProjects (prj folder file : String) : List XMLProject → Option String
  | [] => none
  | p :: ps =>
    if p.Name = prj then
      match findFileInFolders folder file p.FolderList with
      | some k => some k
      | none => findFileInProjects prj folder file ps
    else findFileInProjects prj folder file ps

/-- The method `FzFindFile`: the key returned inside the loops, or `""`.
Reading `fz.LastResp.ProjectList` panics when `LastResp` is nil. -/
def FzFindFile (fz : FzAPI) (prj folder file : String) : GoResult String :=
  match fz.LastResp with
  | none => .panic
  | some resp =>
    match findFileInProjects prj folder file resp.ProjectList with
    | some k => .ok k
    | none => .ok ""

/-! ## `FzFindFolder` (`fzapi.go`, lines 245-257) -/

/-- Inner loop of `FzFindFolder` over `p.FolderList`: `some d` when `return d` fires. -/
def findFolderInFolders (folder : String) : List XMLFolder → Option XMLFolder
  | [] => none
  | d :: ds => if d.Name = folder then some d else findFolderInFolders folder ds

/-- Outer loop of `FzFindFolder` over `fz.LastResp.ProjectList`. -/
def findFolderInProjects (prj folder : String) : List XMLProject → Option XMLFolder
  | [] => none
  | p :: ps =>
    if p.Name = prj then
      match findFolderInFolders folder p.FolderList with
      | some d => some d
      | none => findFolderInProjects prj folder ps
    else findFolderInProjects prj folder ps

/-- The method `FzFindFolder`. Its result type `*XMLFolder` is embedded as
`Option XMLFolder` with `none` for the nil pointer: the loops return the folder
found, and the final statement returns `&XMLFolder{}`. -/
def FzFindFolder (fz : FzAPI) (prjFolder : String) : GoResult (Option XMLFolder) :=
  match sepPrjFolder prjFolder with
  | (prj, folder) =>
    match fz.LastResp with
    | none => .panic
    | some resp =>
      match findFolderInProjects prj folder resp.ProjectList with
      | some d => .ok (some d)
      | none => .ok (some {})

/-! ## `CanUpload` (`fzapi.go`, lines 260-281) -/

/-- Innermost loop of `CanUpload` over `d.FileList`: `true` when `return false`
fires (a file has the name). -/
def canUploadFiles (file : String) : List XMLFile → Bool
  | [] => false
  | f :: fs => if f.Name = file then true else canUploadFiles file fs

/-- Middle loop of `CanUpload` over `p.FolderList`, threading the variable `ret`:
`none` when `return false` fires, `some ret` when the loop runs to its end. -/
def canUploadFolders (folder file : String) : List XMLFolder → Bool → Option Bool
  | [], ret => some ret
  | d :: ds, ret =>
    if d.Name = folder then
      if canUploadFiles file d.FileList then none
      else if stringsIndex d.Access "write" ≠ -1 then canUploadFolders folder file ds true
      else canUploadFolders folder file ds ret
    else canUploadFolders folder file ds ret

/-- Outer loop of `CanUpload` over `fz.LastResp.ProjectList`. -/
def canUploadProjects (prj folder file : String) : List XMLProject → Bool → Option Bool
  | [], ret => some ret
  | p :: ps, ret =>
    if p.Name = prj then
      match canUploadFolders folder file p.FolderList ret with
      | none => none
      | some ret1 => canUploadProjects prj folder file ps ret1
    else canUploadProjects prj folder file ps ret

/-- The method `CanUpload`: `ret` starts as `false`; an early `return false` or the
final `return ret`. -/
def CanUpload (fz : FzAPI) (prjFolder file : String) : GoResult Bool :=
  match sepPrjFolder prjFolder with
  | (prj, folder) =>
    match fz.LastResp with
    | none => .panic
    | some resp =>
      match canUploadProjects prj folder file resp.ProjectList false with
      | none => .ok false
      | some ret => .ok ret

/-! ## Upload strategy selection (`cmd/fzc/main.go`, `syncFolder`, lines 364-368) -/

/-- The two upload methods `syncFolder` can call. -/
inductive UploadCall where
  | FzUpload
  | FzPlUpload
  deriving DecidableEq, Repr

/-- The branch of `syncFolder` on `fstat.Size() > 1024*1024*50`: which upload method
is called for a local file of `size` bytes. -/
def syncFolderUpload (size : Int) : UploadCall :=
  if size > 1024 * 1024 * 50 then .FzPlUpload else .FzUpload

/-! ## Chunk loop of `FzPlUpload` (`fzapi.go`, lines 367-388) -/

/-- Go `int64` (and `int` on 64-bit targets) arithmetic: the result of an
operation wrapped into the signed 64-bit range. -/
def wrapInt64 (x : Int) : Int :=
  (x + 2 ^ 63) % 2 ^ 64 - 2 ^ 63

/-- The arguments of one call `fzPlUploadPart(src, nSize, fr, folderID, chunk, chunks)`;
`chunk` and `chunks` become the form fields of the same names. -/
structure PartCall where
  nSize : Int
  fr : String
  folderID : String
  chunk : Int
  chunks : Int
  deriving DecidableEq, Repr

/-- How one call of `fzPlUploadPart` ends: `ok` (request issued, `nil` error), or
the error of one of its four fallible steps, in source order, with the text of the
underlying error: `writer.CreateFormFile`, `writer.Close` (both before the request),
`fz.client.Do` and `resp.Body.Close`. -/
inductive PartResult where
  | ok
  | errCreateFormFile (e : String)
  | errWriterClose (e : String)
  | errPost (e : String)
  | errBodyClose (e : String)
  deriving DecidableEq, Repr

/-- How the chunk loop ends, with the calls of `fzPlUploadPart` made so far in
order: the loop condition became false, `return err` fired, or the model ran out
of fuel. -/
inductive LoopOutcome where
  | completed (calls : List PartCall)
  | failed (calls : List PartCall)
  | outOfFuel
  deriving DecidableEq, Repr

/-- The constant `nChunkSize := int64(1024 * 1024 * 50)`. -/
def nChunkSize : Int := 1024 * 1024 * 50

/-- The loop `for n = 0; n < nTotalSize; { ... }` of `FzPlUpload` from the state
`(n, chunk)`, with `calls` the calls made before; `part` gives the outcome of
each call of `fzPlUploadPart`. -/
def plUploadLoop (part : PartCall → PartResult) (fr folderID : String)
    (nTotalSize chunks : Int) : Nat → Int → Int → List PartCall → LoopOutcome
  | 0, _, _, _ => .outOfFuel
  | fuel + 1, n, chunk, calls =>
    if n < nTotalSize then
      let nSend := if wrapInt64 (nTotalSize - n) < nChunkSize then wrapInt64 (nTotalSize - n)
        else nChunkSize
      let call : PartCall := ⟨nSend, fr, folderID, chunk, chunks⟩
      match part call with
      | .ok => plUploadLoop part fr folderID nTotalSize chunks fuel
          (wrapInt64 (n + nSend)) (wrapInt64 (chunk + 1)) (calls ++ [call])
      | _ => .failed (calls ++ [call])
    else .completed calls

/-- The computation of `chunks` in `FzPlUpload`: `int(nTotalSize / nChunkSize)`,
incremented when `nTotalSize % nChunkSize != 0` (Go division and remainder
truncate toward zero). -/
def plUploadChunks (nTotalSize : Int) : Int :=
  if nTotalSize.tmod nChunkSize ≠ 0 then wrapInt64 (nTotalSize.tdiv nChunkSize + 1)
  else nTotalSize.tdiv nChunkSize

/-- The chunk phase of `FzPlUpload` for a file of `nTotalSize` bytes: `chunk := 1`,
`chunks` computed, then the loop from `n = 0`. -/
def FzPlUploadParts (part : PartCall → PartResult) (fr folderID : String)
    (nTotalSize : Int) (fuel : Nat) : LoopOutcome :=
  plUploadLoop part fr folderID nTotalSize (plUploadChunks nTotalSize) fuel 0 1 []

/-! ## Requests, responses and `ParseXMLResp` (`fzapi.go`, lines 112-152) -/

/-- A Go `error` value: `none` for nil, `some msg` for an error whose message is
`msg`. `fmt.Errorf("... %v", err)` appends the message of `err` to the text. -/
abbrev GoError := Option String

/-- An `*http.Response` as the source uses it: the declared content length (`-1`
when none is declared), the bytes of the body that can be read, the error that
ends the reading (`none` for a clean end), the cookies as name and value, and the
status code. -/
structure HttpResponse where
  ContentLength : Int := -1
  body : String := ""
  readErr : GoError := none
  cookies : List (String × String) := []
  StatusCode : Int := 200
  deriving DecidableEq, Repr

/-- What a `multipart.Writer` appends to its buffer: a file part (the header written
by `CreateFormFile` and the content copied into it), a field written by
`WriteField`, and the closing boundary written by `Close`. -/
inductive BodyPiece where
  | file (fieldName fileName : String)
  | field (k v : String)
  | close
  deriving DecidableEq, Repr

/-- The form fields among the pieces of a body, in the order they are sent. -/
def bodyFields : List BodyPiece → List (String × String)
  | [] => []
  | .field k v :: rest => (k, v) :: bodyFields rest
  | .file _ _ :: rest => bodyFields rest
  | .close :: rest => bodyFields rest

/-- Whether a piece is a file part. -/
def BodyPiece.isFile : BodyPiece → Bool
  | .file _ _ => true
  | _ => false

/-- A request handed to `fz.client.Do`. `post` is the form request of
`FzSendPostReq`: `values` holds the `url.Values` in the order of the `Set` calls
(the keys set by one method are all different) and `cookie` the session cookie when
it is attached. `multipart` is a request whose body was written into a buffer of its
own: a file part (form field `fileField`, file name `fileName`) followed by the
`WriteField` fields in order. `buffered` is a request whose body is the package
buffer `gBody`: `body` is all that the buffer holds when the request is made. -/
inductive Request where
  | post (url : String) (values : List (String × String)) (cookie : Option String)
  | multipart (url : String) (fileField fileName : String)
      (fields : List (String × String)) (cookie : Option String)
  | buffered (url : String) (body : List BodyPiece) (cookie : Option String)
  deriving DecidableEq, Repr

/-- The value of the first field named `k`, if any. -/
def fieldOf (fields : List (String × String)) (k : String) : Option String :=
  match fields with
  | [] => none
  | (k1, v1) :: rest => if k1 = k then some v1 else fieldOf rest k

/-- The form fields a request carries, in the order they are sent. -/
def Request.fields : Request → List (String × String)
  | .post _ values _ => values
  | .multipart _ _ _ fields _ => fields
  | .buffered _ body _ => bodyFields body

/-- Whether a request has a file part. -/
def Request.hasFile : Request → Bool
  | .post _ _ _ => false
  | .multipart _ _ _ _ _ => true
  | .buffered _ body _ => body.any BodyPiece.isFile

/-- What a method of `FzAPI` leaves behind: the session after the call, the
requests handed to `fz.client.Do` in order, and the returned error. -/
structure CallResult where
  fz : FzAPI
  requests : List Request
  err : GoError
  deriving DecidableEq, Repr

/-- What a method that writes into the package buffer `gBody` leaves behind: as
`CallResult`, and the content of `gBody` after the call. -/
structure UploadResult where
  fz : FzAPI
  requests : List Request
  err : GoError
  gBody : List BodyPiece
  deriving DecidableEq, Repr

/-- The method `ParseXMLResp`: `ioutil.ReadAll`, then `xml.Unmarshal` into a fresh
`XMLFileZen` (the decoder is the parameter `xmlUnmarshal`), then the test
`fzResp.Res == "OK"`, which alone stores the response in `fz.LastResp`. Returns the
session and the error. -/
def ParseXMLResp (fz : FzAPI) (xmlUnmarshal : String → Except String XMLFileZen)
    (r : HttpResponse) : FzAPI × GoError :=
  match r.readErr with
  | some e => (fz, some ("ParseXMLResp - ReadAll Error: " ++ e))
  | none =>
    match xmlUnmarshal r.body with
    | .error e => (fz, some ("ParseXMLResp - Unmarshal Error: " ++ e))
    | .ok fzResp =>
      if fzResp.Res = "OK" then ({ fz with LastResp := some fzResp }, none)
      else (fz, some fzResp.Res)

/-- The loop of `getSessionID` over `r.Cookies()`: the value of the first cookie
named `SessionID`. -/
def findSessionID : List (String × String) → Option String
  | [] => none
  | (name, value) :: cs => if name = "SessionID" then some value else findSessionID cs

/-- The method `getSessionID`: the cookie found, or a `SessionID` cookie with the
empty value. -/
def getSessionID (fz : FzAPI) (r : HttpResponse) : FzAPI :=
  match findSessionID r.cookies with
  | some value => { fz with FzSession := value }
  | none => { fz with FzSession := "" }

/-! ## `FzLogin`, `FzLogout`, `FzReload`, `FzDeleteFile` (`fzapi.go`, lines 155-215) -/

/-- The method `FzLogin`; `net` is the outcome of `FzSendPostReq`. The request
carries no cookie and no `valid_key`. -/
def FzLogin (fz : FzAPI) (xmlUnmarshal : String → Except String XMLFileZen)
    (net : Except String HttpResponse) (fzURL uid password : String) : CallResult :=
  let fz0 : FzAPI := { fz with URL := fzURL }
  let req := Request.post (fzURL ++ "/cgi-bin/index.cgi")
    [("respmode", "xml"), ("action", "Login"), ("sub_action", "auth"), ("user_id", uid),
      ("password", password)] none
  match net with
  | .error e => ⟨fz0, [req], some ("FzLogin - FzSendPostReq Error: " ++ e)⟩
  | .ok resp =>
    match ParseXMLResp fz0 xmlUnmarshal resp with
    | (fz1, some e) => ⟨fz1, [req], some ("FzLogin - ParseXmlResp Error: " ++ e)⟩
    | (fz1, none) => ⟨getSessionID fz1 resp, [req], none⟩

/-- The method `FzLogout`: the response is dropped. -/
def FzLogout (fz : FzAPI) (net : Except String HttpResponse) : CallResult :=
  let req := Request.post (fz.URL ++ "/cgi-bin/index.cgi")
    [("respmode", "xml"), ("action", "Logout"), ("sub_action", "show")] (some fz.FzSession)
  match net with
  | .error e => ⟨fz, [req], some ("FzLogout - FzSendPostReq Error: " ++ e)⟩
  | .ok _ => ⟨fz, [req], none⟩

/-- The method `FzReload`; reading `fz.LastResp.ValidKey` panics on a nil
`LastResp`. -/
def FzReload (fz : FzAPI) (xmlUnmarshal : String → Except String XMLFileZen)
    (net : Except String HttpResponse) : GoResult CallResult :=
  match fz.LastResp with
  | none => .panic
  | some last =>
    let req := Request.post (fz.URL ++ "/cgi-bin/index.cgi")
      [("respmode", "xml"), ("action", "Mainmenu_file"), ("sub_action", "show"),
        ("valid_key", last.ValidKey)] (some fz.FzSession)
    match net with
    | .error e => .ok ⟨fz, [req], some ("FzReload - FzSendPostReq Error: " ++ e)⟩
    | .ok resp =>
      .ok ⟨(ParseXMLResp fz xmlUnmarshal resp).1, [req], (ParseXMLResp fz xmlUnmarshal resp).2⟩

/-- The method `FzDeleteFile`. -/
def FzDeleteFile (fz : FzAPI) (xmlUnmarshal : String → Except String XMLFileZen)
    (net : Except String HttpResponse) (key : String) : GoResult CallResult :=
  match fz.LastResp with
  | none => .panic
  | some last =>
    let req := Request.post (fz.URL ++ "/cgi-bin/index.cgi")
      [("respmode", "xml"), ("action", "Mainmenu_file"), ("sub_action", "delete_file"),
        ("key", key), ("valid_key", last.ValidKey)] (some fz.FzSession)
    match net with
    | .error e => .ok ⟨fz, [req], some ("FzDeleteFile - FzSendPostReq Error: " ++ e)⟩
    | .ok resp =>
      .ok ⟨(ParseXMLResp fz xmlUnmarshal resp).1, [req], (ParseXMLResp fz xmlUnmarshal resp).2⟩

/-! ## `FzDownload` (`fzapi.go`, lines 284-312) -/

/-- What `FzDownload` does to the file system: `os.Create` creates the file or
truncates it to length zero; `io.Copy` writes bytes to it, or fails while writing. -/
inductive FsEvent where
  | create (path : String)
  | write (path : String) (bytes : String)
  | writeFailed (path : String)
  deriving DecidableEq, Repr

/-- Outcomes of the fallible steps of one `FzDownload` call: `FzSendPostReq`,
`os.Create`, the write side of `io.Copy`, and what reading `resp.Body` returns once
`ParseXMLResp` has read it to its end and closed it (`none` for a plain end of
data). -/
structure DownloadEnv where
  net : Except String HttpResponse
  createErr : GoError := none
  writeErr : GoError := none
  closedReadErr : GoError := none

/-- What `FzDownload` leaves behind: as `CallResult`, with the file system events. -/
structure DownloadResult where
  fz : FzAPI
  requests : List Request
  files : List FsEvent
  err : GoError
  deriving DecidableEq, Repr

/-- The statements of `FzDownload` from `os.Create` to the end. `parsed` tells that
the branch `resp.ContentLength < 0` ran `ParseXMLResp` without error, so that the
body has been read and closed and `io.Copy` gets no byte from it. -/
def downloadSave (env : DownloadEnv) (resp : HttpResponse) (parsed : Bool)
    (localFile : String) : List FsEvent × GoError :=
  match env.createErr with
  | some e => ([], some ("FzDownload - os.Create Error: " ++ e))
  | none =>
    if parsed then
      match env.closedReadErr with
      | some e => ([.create localFile], some ("FzDownload - io.Copy Error: " ++ e))
      | none => ([.create localFile], none)
    else
      match env.writeErr with
      | some e =>
        ([.create localFile, .writeFailed localFile], some ("FzDownload - io.Copy Error: " ++ e))
      | none =>
        match resp.readErr with
        | some e =>
          ([.create localFile, .write localFile resp.body],
            some ("FzDownload - io.Copy Error: " ++ e))
        | none => ([.create localFile, .write localFile resp.body], none)

/-- The method `FzDownload`. -/
def FzDownload (fz : FzAPI) (xmlUnmarshal : String → Except String XMLFileZen)
    (env : DownloadEnv) (key localFile : String) : GoResult DownloadResult :=
  match fz.LastResp with
  | none => .panic
  | some last =>
    let req := Request.post (fz.URL ++ "/cgi-bin/index.cgi")
      [("respmode", "xml"), ("action", "Mainmenu_file"), ("sub_action", "download"),
        ("key", key), ("valid_key", last.ValidKey)] (some fz.FzSession)
    match env.net with
    | .error e => .ok ⟨fz, [req], [], some ("FzDownload - FzSendPostReq Error: " ++ e)⟩
    | .ok resp =>
      if resp.ContentLength < 0 then
        match ParseXMLResp fz xmlUnmarshal resp with
        | (fz1, some e) => .ok ⟨fz1, [req], [], some ("FzDownload - ParseXmlResp Error: " ++ e)⟩
        | (fz1, none) =>
          .ok ⟨fz1, [req], (downloadSave env resp true localFile).1,
            (downloadSave env resp true localFile).2⟩
      else
        .ok ⟨fz, [req], (downloadSave env resp false localFile).1,
          (downloadSave env resp false localFile).2⟩

/-! ## `FzUpload` (`fzapi.go`, lines 38-39 and 431-487)

`FzUpload` and `fzPlUploadPart` create their `multipart.Writer` on the package
variable `gBody` and hand `gBody` to `http.NewRequest` as the body; nothing resets
it. The content of `gBody` before the call is an argument of these methods and its
content after the call is part of their result. -/

/-- The fields `FzUpload` writes with `writer.WriteField`, in order. -/
def FzUploadFields (validKey folderID regName comment notifyTo notifyMode : String) :
    List (String × String) :=
  [("action", "Mainmenu_upload"), ("sub_action", "do_upload"), ("respmode", "xml"),
    ("valid_key", validKey), ("ST_current_folder", folderID), ("reg_filename", regName),
    ("description", comment), ("key", ""),
    ("mail_send",
      if stringsIndex notifyTo "ALL" ≠ -1 then "1" else if notifyTo = "" then "0" else "2"),
    ("notify_download", if stringsIndex notifyMode "DOWNLOAD" ≠ -1 then "1" else "0"),
    ("notify_alter", if stringsIndex notifyMode "ALTER" ≠ -1 then "1" else "0"),
    ("notify_delete", if stringsIndex notifyMode "DELETE" ≠ -1 then "1" else "0"),
    ("new_alert", "1")]

/-- What `FzUpload` writes into `gBody` before `writer.Close`: the file part and the
fields. -/
def FzUploadWritten (validKey fileName folderID regName comment notifyTo notifyMode : String) :
    List BodyPiece :=
  BodyPiece.file "filename" fileName ::
    (FzUploadFields validKey folderID regName comment notifyTo notifyMode).map
      (fun kv => BodyPiece.field kv.1 kv.2)

/-- Outcomes of the fallible steps of one `FzUpload` call, with the text of the
error: `os.Open`, `writer.CreateFormFile`, `writer.Close` and `fz.client.Do`;
`nRead` is the number of pieces `fz.client.Do` reads from the body before it returns
(a `bytes.Buffer` drops what is read from it). -/
structure UploadEnv where
  openErr : GoError := none
  createFormFileErr : GoError := none
  closeErr : GoError := none
  net : Except String HttpResponse
  nRead : Nat := 0

/-- The method `FzUpload`; `gBody` is the content of the package buffer before the
call and `base` stands for `filepath.Base`. The session is first dereferenced for
`valid_key`, after the file part is created. A failed `CreateFormFile` is taken to
have written nothing. -/
def FzUpload (gBody : List BodyPiece) (fz : FzAPI)
    (xmlUnmarshal : String → Except String XMLFileZen)
    (base : String → String) (env : UploadEnv)
    (localFile folderID regName comment notifyTo notifyMode : String) :
    GoResult UploadResult :=
  match env.openErr with
  | some e => .ok ⟨fz, [], some ("FzUpload - os.Open Error: " ++ e), gBody⟩
  | none =>
    match env.createFormFileErr with
    | some e => .ok ⟨fz, [], some ("FzUpload - writer.CreateFormFile Error: " ++ e), gBody⟩
    | none =>
      match fz.LastResp with
      | none => .panic
      | some last =>
        let written := FzUploadWritten last.ValidKey (base localFile) folderID regName comment
          notifyTo notifyMode
        match env.closeErr with
        | some e =>
          .ok ⟨fz, [], some ("FzUpload - writer.Close Error: " ++ e), gBody ++ written⟩
        | none =>
          let body := gBody ++ written ++ [BodyPiece.close]
          let req := Request.buffered (fz.URL ++ "/cgi-bin/index.cgi") body (some fz.FzSession)
          match env.net with
          | .error e =>
            .ok ⟨fz, [req], some ("FzUpload - POST Error: " ++ e), body.drop env.nRead⟩
          | .ok resp =>
            .ok ⟨(ParseXMLResp fz xmlUnmarshal resp).1, [req],
              (ParseXMLResp fz xmlUnmarshal resp).2, body.drop env.nRead⟩

/-! ## `fzPlUploadPart` and `FzPlUpload` (`fzapi.go`, lines 322-428) -/

/-- What one call of `fzPlUploadPart` writes into `gBody` before `writer.Close`: the
file part named `fr + folderID + ".tmp"` and the eight fields, with `strconv.Itoa`
of `chunk` and `chunks`. -/
def partWritten (fz : FzAPI) (validKey : String) (c : PartCall) : List BodyPiece :=
  BodyPiece.file "file" (c.fr ++ c.folderID ++ ".tmp") ::
    [("fr", c.fr), ("valid_key", validKey), ("action", "Mainmenu_upload"),
      ("sub_action", "plupload"), ("ukey", fz.FzSession ++ c.folderID), ("mode", "PRJ"),
      ("chunk", toString c.chunk), ("chunks", toString c.chunks)].map
      (fun kv => BodyPiece.field kv.1 kv.2)

/-- Outcomes of the fallible steps of one `fzPlUploadPart` call, with the text of
the error: `writer.CreateFormFile`, `writer.Close`, `fz.client.Do` with the response
it returns, and `resp.Body.Close`; `nRead` is as in `UploadEnv`. -/
structure PartEnv where
  createFormFileErr : GoError := none
  closeErr : GoError := none
  net : Except String HttpResponse
  bodyCloseErr : GoError := none
  nRead : Nat := 0

/-- The error one call of `fzPlUploadPart` returns: that of its first failing step,
in source order. A response is closed without its status or body being read. -/
def partErr (env : PartEnv) : GoError :=
  match env.createFormFileErr with
  | some e => some ("FzPlUploadPart - CreateFormFile Error: " ++ e)
  | none =>
    match env.closeErr with
    | some e => some ("FzPlUploadPart - writer.Close Error: " ++ e)
    | none =>
      match env.net with
      | .error e => some ("FzPlUploadPart - POST Error: " ++ e)
      | .ok _ =>
        match env.bodyCloseErr with
        | some e => some ("FzPlUploadPart - resp.Body.Close Error: " ++ e)
        | none => none

/-- What one call of `fzPlUploadPart` leaves behind: the request handed to
`fz.client.Do` (none when the call returns before), the two returned values and
the content of `gBody` after the call. -/
structure PartReturn where
  requests : List Request
  sent : Bool
  err : GoError
  gBody : List BodyPiece
  deriving DecidableEq, Repr

/-- The method `fzPlUploadPart` for the call `c`; `gBody` is the content of the
package buffer before the call. A failed `CreateFormFile` is taken to have written
nothing. -/
def fzPlUploadPart (gBody : List BodyPiece) (fz : FzAPI) (env : PartEnv) (c : PartCall) :
    GoResult PartReturn :=
  match env.createFormFileErr with
  | some e => .ok ⟨[], false, some ("FzPlUploadPart - CreateFormFile Error: " ++ e), gBody⟩
  | none =>
    match fz.LastResp with
    | none => .panic
    | some last =>
      match env.closeErr with
      | some e =>
        .ok ⟨[], false, some ("FzPlUploadPart - writer.Close Error: " ++ e),
          gBody ++ partWritten fz last.ValidKey c⟩
      | none =>
        let body := gBody ++ partWritten fz last.ValidKey c ++ [BodyPiece.close]
        let req := Request.buffered (fz.URL ++ "/cgi-bin/index.cgi") body (some fz.FzSession)
        match env.net with
        | .error e =>
          .ok ⟨[req], false, some ("FzPlUploadPart - POST Error: " ++ e), body.drop env.nRead⟩
        | .ok _ =>
          match env.bodyCloseErr with
          | some e =>
            .ok ⟨[req], false, some ("FzPlUploadPart - resp.Body.Close Error: " ++ e),
              body.drop env.nRead⟩
          | none => .ok ⟨[req], true, none, body.drop env.nRead⟩

/-- How the chunk loop of `FzPlUpload` ends: the requests made so far, the error of
the call that ended it (`none` when the loop condition became false) and the
content of `gBody`. -/
structure PartsEnd where
  requests : List Request
  err : GoError
  gBody : List BodyPiece
  deriving DecidableEq, Repr

/-- The loop `for n = 0; n < nTotalSize; { ... }` of `FzPlUpload` from the state
`(n, chunk)` with `gBody` the content of the buffer and `reqs` the requests made
before; `envs` gives the outcomes of the steps of each call of `fzPlUploadPart`.
`none` when the model runs out of fuel. -/
def plUploadSend (fz : FzAPI) (envs : PartCall → PartEnv) (fr folderID : String)
    (nTotalSize chunks : Int) :
    Nat → Int → Int → List BodyPiece → List Request → Option (GoResult PartsEnd)
  | 0, _, _, _, _ => none
  | fuel + 1, n, chunk, gBody, reqs =>
    if n < nTotalSize then
      let nSend := if wrapInt64 (nTotalSize - n) < nChunkSize then wrapInt64 (nTotalSize - n)
        else nChunkSize
      let call : PartCall := ⟨nSend, fr, folderID, chunk, chunks⟩
      match fzPlUploadPart gBody fz (envs call) call with
      | .panic => some .panic
      | .ok r =>
        match r.err with
        | some e => some (.ok ⟨reqs ++ r.requests, some e, r.gBody⟩)
        | none =>
          plUploadSend fz envs fr folderID nTotalSize chunks fuel
            (wrapInt64 (n + nSend)) (wrapInt64 (chunk + 1)) r.gBody (reqs ++ r.requests)
    else some (.ok ⟨reqs, none, gBody⟩)

/-- The `url.Values` of the commit request of `FzPlUpload`, in the order of the
`Set` calls. -/
def FzPlUploadCommitValues (validKey filename folderID regName comment fr notifyTo
    notifyMode : String) : List (String × String) :=
  [("respmode", "xml"), ("action", "Mainmenu_upload"), ("sub_action", "do_upload"),
    ("valid_key", validKey), ("filename", filename), ("ST_current_folder", folderID),
    ("reg_filename", regName), ("description", comment), ("fr", fr), ("key", ""),
    ("mail_send",
      if stringsIndex notifyTo "ALL" ≠ -1 then "1" else if notifyTo = "" then "0" else "2"),
    ("notify_download", if stringsIndex notifyMode "DOWNLOAD" ≠ -1 then "1" else "0"),
    ("notify_alter", if stringsIndex notifyMode "ALTER" ≠ -1 then "1" else "0"),
    ("notify_delete", if stringsIndex notifyMode "DELETE" ≠ -1 then "1" else "0"),
    ("new_alert", "1")]

/-- Outcomes of the steps of one `FzPlUpload` call: `os.Stat` with the size it
reports, `os.Open`, the value `secureRandam` returns, the steps of each call of
`fzPlUploadPart`, and `FzSendPostReq` for the commit request. -/
structure PlUploadEnv where
  statErr : GoError := none
  nTotalSize : Int
  openErr : GoError := none
  fr : String
  part : PartCall → PartEnv
  commit : Except String HttpResponse

/-- The method `FzPlUpload`; `gBody` is the content of the package buffer before the
call; `none` when the model of the loop runs out of fuel. The commit request is a
form request of `FzSendPostReq` and does not go through `gBody`. -/
def FzPlUpload (gBody : List BodyPiece) (fz : FzAPI)
    (xmlUnmarshal : String → Except String XMLFileZen)
    (base : String → String) (env : PlUploadEnv) (fuel : Nat)
    (localFile folderID regName comment notifyTo notifyMode : String) :
    Option (GoResult UploadResult) :=
  match env.statErr with
  | some e => some (.ok ⟨fz, [], some ("FzPlUpload - os.stat Error: " ++ e), gBody⟩)
  | none =>
    match env.openErr with
    | some e => some (.ok ⟨fz, [], some ("FzPlUpload - os.Open Error: " ++ e), gBody⟩)
    | none =>
      match plUploadSend fz env.part env.fr folderID env.nTotalSize
          (plUploadChunks env.nTotalSize) fuel 0 1 gBody [] with
      | none => none
      | some .panic => some .panic
      | some (.ok parts) =>
        match parts.err with
        | some e => some (.ok ⟨fz, parts.requests, some e, parts.gBody⟩)
        | none =>
          match fz.LastResp with
          | none => some .panic
          | some last =>
            let commit := Request.post (fz.URL ++ "/cgi-bin/index.cgi")
              (FzPlUploadCommitValues last.ValidKey (base localFile) folderID regName comment
                env.fr notifyTo notifyMode) (some fz.FzSession)
            match env.commit with
            | .error e =>
              some (.ok ⟨fz, parts.requests ++ [commit],
                some ("FzPlUpload - FzSendPostReq Error: " ++ e), parts.gBody⟩)
            | .ok resp =>
              some (.ok ⟨(ParseXMLResp fz xmlUnmarshal resp).1, parts.requests ++ [commit],
                (ParseXMLResp fz xmlUnmarshal resp).2, parts.gBody⟩)

/-- The branch of `syncFolder` with the call it makes: `FzPlUpload` when
`fstat.Size() > 1024*1024*50`, `FzUpload` otherwise, both with the same arguments. -/
def syncFolderTransfer (gBody : List BodyPiece) (fz : FzAPI)
    (xmlUnmarshal : String → Except String XMLFileZen) (base : String → String)
    (size : Int) (up : UploadEnv) (pl : PlUploadEnv) (fuel : Nat)
    (f folderID bf com notifyTo notifyMode : String) : Option (GoResult UploadResult) :=
  match syncFolderUpload size with
  | .FzPlUpload => FzPlUpload gBody fz xmlUnmarshal base pl fuel f folderID bf com notifyTo notifyMode
  | .FzUpload => some (FzUpload gBody fz xmlUnmarshal base up f folderID bf com notifyTo notifyMode)

/-! ## Reading the file in `FzPlUpload` -/

/-- The number of bytes `io.CopyN(part, src, nSize)` copies from a file of
`fileSize` bytes whose read position is `pos`: `nSize`, or what is left of the
file when that is less. -/
def copyN (fileSize pos nSize : Int) : Int :=
  max 0 (min nSize (fileSize - pos))

/-- The byte range, as offset and length, that each call of `fzPlUploadPart` copies
from the file opened by `FzPlUpload`, read from position `pos` on: the calls share
one reader, so each call starts where the one before ended. -/
def partRanges (fileSize : Int) : Int → List PartCall → List (Int × Int)
  | _, [] => []
  | pos, c :: cs =>
    (pos, copyN fileSize pos c.nSize) ::
      partRanges fileSize (pos + copyN fileSize pos c.nSize) cs

/-! ## `FzSendMB` (`fzapi.go`, lines 520-554 and 655-760) -/

/-- The struct `eMailAddr`. -/
structure eMailAddr where
  Name : String := ""
  Email : String := ""
  deriving DecidableEq, Repr

/-- The library functions `FzSendMB` calls on its fields, as parameters:
`findSubmatch pattern s` is `regexp.MustCompile(pattern).FindStringSubmatch(s)`,
`parseDate s` is `time.Parse("2006/01/02", s)` as year, month and day (`none` for
an error) and `atoi` is `strconv.Atoi` (`none` for an error). -/
structure MbLib where
  findSubmatch : String → String → List String
  parseDate : String → Option (Int × Int × Int)
  atoi : String → Option Int

/-- The function `getMbOpt`: the value of the key in the map, or the default. -/
def getMbOpt (mb : List (String × String)) (k d : String) : String :=
  match fieldOf mb k with
  | some v => v
  | none => d

/-- The function `getEMailAddr`: name and address of `Name <address>` when the first
pattern gives more than two submatches, otherwise a bare address as both. -/
def getEMailAddr (lib : MbLib) (s : String) : eMailAddr :=
  match lib.findSubmatch "\\s*([^<]+)\\s*<\\s*([^ >@]+@[^ >@]+)\\s*>" s with
  | _ :: a1 :: a2 :: _ => ⟨a1, a2⟩
  | _ =>
    match lib.findSubmatch "([^ @]+@[^ @]+)" s with
    | _ :: a1 :: _ => ⟨a1, a1⟩
    | _ => ⟨"", ""⟩

/-- The loop of `FzSendMB` over `strings.Split(mailto, ",")`: the addresses with a
non-empty name, in order. -/
def mbToList (lib : MbLib) (mbconf : List (String × String)) : List eMailAddr :=
  (((stringsSplit ',' (getMbOpt mbconf "mailto" "").data).map String.mk).map
    (getEMailAddr lib)).filter (fun aTo => aTo.Name ≠ "")

/-- The fields `FzSendMB` writes with `writer.WriteField`, in order. -/
def FzSendMBFields (validKey fromAddr subject comment password : String)
    (st : Int × Int × Int) (nDays nLimitCount : Int) (toList : List eMailAddr)
    (bNotifyDownload : Bool) : List (String × String) :=
  [("subject", subject), ("comment", comment),
    ("exp_term_start_year", toString st.1), ("exp_term_start_month", toString st.2.1),
    ("exp_term_start_day", toString st.2.2), ("exp_term_start_hour", "00"),
    ("exp_term_start_minute", "00"), ("exp_term_type", "by_dur"),
    ("exp_term_duration", toString nDays), ("download_times", toString nLimitCount),
    ("recipients-max-id", toString toList.length)] ++
  (toList.enumFrom 1).flatMap (fun it =>
    [("recipient-name-" ++ toString it.1, it.2.Name),
      ("recipient-email-" ++ toString it.1, it.2.Email)]) ++
  [("from_addr", "user"), ("from_addr_val", fromAddr), ("lang", "ambi"),
    ("password", password), ("password_retype", password), ("file2", ""), ("file3", ""),
    ("file4", ""), ("file5", ""), ("respmode", "xml"), ("valid_key", validKey), ("key", ""),
    ("notify_download", if bNotifyDownload then "1" else "0"), ("new_alert", "1")]

/-- Outcomes of the steps of one `FzSendMB` call after the fields are validated:
`os.Stat` with the size it reports, `os.Open`, `writer.CreateFormFile`,
`writer.Close` and `fz.client.Do`. -/
structure SendMBEnv where
  statErr : GoError := none
  size : Int
  openErr : GoError := none
  createFormFileErr : GoError := none
  closeErr : GoError := none
  net : Except String HttpResponse

/-- The method `FzSendMB`; `mbconf` is the map as key and value pairs and `base`
stands for `filepath.Base`. The body is written into a buffer of its own. -/
def FzSendMB (fz : FzAPI) (xmlUnmarshal : String → Except String XMLFileZen) (lib : MbLib)
    (base : String → String) (env : SendMBEnv) (mbconf : List (String × String)) :
    GoResult CallResult :=
  if getMbOpt mbconf "from" "" = "" then .ok ⟨fz, [], some "No from"⟩
  else if (mbToList lib mbconf).length < 1 then .ok ⟨fz, [], some "No mailto"⟩
  else if getMbOpt mbconf "file" "" = "" then .ok ⟨fz, [], some "No file"⟩
  else
    match lib.parseDate (getMbOpt mbconf "start" "") with
    | none => .ok ⟨fz, [], some "Invalid start date"⟩
    | some st =>
      match lib.atoi (getMbOpt mbconf "days" "HEHEH") with
      | none => .ok ⟨fz, [], some "Invalid days"⟩
      | some nDays =>
        match lib.atoi (getMbOpt mbconf "limit" "HEHEH") with
        | none => .ok ⟨fz, [], some "Invalid limit"⟩
        | some nLimitCount =>
          match env.statErr with
          | some e => .ok ⟨fz, [], some ("FzSendMB - os.Stat Error: " ++ e)⟩
          | none =>
            if env.size > 1024 * 1024 * 200 then
              .ok ⟨fz, [], some "FzSendMB - File Size over 200MB"⟩
            else
              match env.openErr with
              | some e => .ok ⟨fz, [], some ("FzSendMB - os.Open Error: " ++ e)⟩
              | none =>
                match env.createFormFileErr with
                | some e =>
                  .ok ⟨fz, [], some ("FzSendMB - writer.CreateFormFile Error: " ++ e)⟩
                | none =>
                  match fz.LastResp with
                  | none => .panic
                  | some last =>
                    match env.closeErr with
                    | some e => .ok ⟨fz, [], some ("FzSendMB - writer.Close Error: " ++ e)⟩
                    | none =>
                      let req := Request.multipart
                        (fz.URL ++ "/mb/cgi-bin/index.cgi/job/api_send/") "file1"
                        (base (getMbOpt mbconf "file" ""))
                        (FzSendMBFields last.ValidKey (getMbOpt mbconf "from" "")
                          (getMbOpt mbconf "subject" "") (getMbOpt mbconf "comment" "")
                          (getMbOpt mbconf "password" "") st nDays nLimitCount
                          (mbToList lib mbconf)
                          (decide (getMbOpt mbconf "notify" "false" = "true")))
                        (some fz.FzSession)
                      match env.net with
                      | .error e => .ok ⟨fz, [req], some ("FzSendMB - POST Error: " ++ e)⟩
                      | .ok resp =>
                        .ok ⟨(ParseXMLResp fz xmlUnmarshal resp).1, [req],
                          (ParseXMLResp fz xmlUnmarshal resp).2⟩

/-- A stand-in for the library functions on samples: every text is an address,
every date is 1 January 2026 and every number is 1. -/
def sampleMbLib : MbLib where
  findSubmatch := fun _ s => [s, s, s]
  parseDate := fun _ => some (2026, 1, 1)
  atoi := fun _ => some 1

/-- A delivery configuration that passes the checks of `FzSendMB` under
`sampleMbLib`. -/
def sampleMbConf : List (String × String) :=
  [("subject", "Test"), ("mailto", "a@example.com"), ("from", "b@example.com"),
    ("file", "./testdata/test.txt"), ("start", "2026/01/01"), ("days", "1"), ("limit", "1"),
    ("comment", "Test\n")]

/-! ## The stored password (`fzapi.go`, lines 1191-1305)

In this part lengths and slices count bytes, so a Go string is embedded as the list
of its bytes. -/

/-- A Go string or byte slice as its bytes (natural numbers below 256). -/
abbrev Bytes := List Nat

/-- The struct `FzcConfig`. -/
structure FzcConfig where
  FzURL : Bytes := []
  FzUID : Bytes := []
  FzPassword : Bytes := []
  LocalFolder : Bytes := []
  FzDownFolder : Bytes := []
  FzUpFolder : Bytes := []
  NotifyTo : Bytes := []
  NotifyMode : Bytes := []
  deriving DecidableEq, Repr

/-- The loop `for len(keyText) < 32 { keyText += "S" }` of `getAesKey` (83 is the
byte of "S"): `none` when the model runs out of fuel. -/
def getAesKeyLoop : Nat → Bytes → Option Bytes
  | 0, _ => none
  | fuel + 1, keyText =>
    if keyText.length < 32 then getAesKeyLoop fuel (keyText ++ [83]) else some keyText

/-- The function `getAesKey`: `keyText[:32]` when `len(keyText) > 32`, otherwise the
result of the padding loop. -/
def getAesKey (fuel : Nat) (keyText : Bytes) : Option Bytes :=
  if keyText.length > 32 then some (keyText.take 32) else getAesKeyLoop fuel keyText

/-- The library functions `encrypt` and `decrypt` call, as parameters:
`xorKeyStreamEnc key iv src` is `cipher.NewCFBEncrypter(block, iv).XORKeyStream` for
the AES block of `key`, `xorKeyStreamDec` the same with `cipher.NewCFBDecrypter`,
`base64Encode` is `base64.URLEncoding.EncodeToString` and `base64Decode` the bytes
`base64.URLEncoding.DecodeString` returns (its error is dropped by the source). -/
structure CryptoLib where
  xorKeyStreamEnc : Bytes → Bytes → Bytes → Bytes
  xorKeyStreamDec : Bytes → Bytes → Bytes → Bytes
  base64Encode : Bytes → Bytes
  base64Decode : Bytes → Bytes

/-- The error of `aes.NewCipher(key)`: a key of 16, 24 or 32 bytes is accepted. -/
def aesNewCipherErr (key : Bytes) : GoError :=
  if key.length = 16 ∨ key.length = 24 ∨ key.length = 32 then none
  else some ("crypto/aes: invalid key size " ++ toString key.length)

/-- The function `encrypt`; `randIV` is the outcome of `io.ReadFull(crand.Reader, iv)`
on the first 16 bytes of `ciphertext`: an error, or the 16 bytes read. `none` when
`getAesKey` runs out of fuel. -/
def encrypt (lib : CryptoLib) (fuel : Nat) (randIV : Except String Bytes)
    (keyText text : Bytes) : Option (Except String Bytes) :=
  match getAesKey fuel keyText with
  | none => none
  | some key =>
    match aesNewCipherErr key with
    | some e => some (.error e)
    | none =>
      match randIV with
      | .error e => some (.error e)
      | .ok iv => some (.ok (lib.base64Encode (iv ++ lib.xorKeyStreamEnc key iv text)))

/-- The function `decrypt`: the first `aes.BlockSize` = 16 bytes of the decoded text
are the IV, the rest is decrypted in place. -/
def decrypt (lib : CryptoLib) (fuel : Nat) (keyText cryptoText : Bytes) :
    Option (Except String Bytes) :=
  match getAesKey fuel keyText with
  | none => none
  | some key =>
    match aesNewCipherErr key with
    | some e => some (.error e)
    | none =>
      if (lib.base64Decode cryptoText).length < 16 then some (.error "ciphertext too short")
      else
        some (.ok (lib.xorKeyStreamDec key ((lib.base64Decode cryptoText).take 16)
          ((lib.base64Decode cryptoText).drop 16)))

/-- Outcomes of the fallible steps of one `SaveFzcConfig` call: the random IV,
`os.Create(tmp)`, `f.Write(b)` and `os.Rename(tmp, path)`. -/
structure SaveEnv where
  randIV : Except String Bytes
  createErr : GoError := none
  writeErr : GoError := none
  renameErr : GoError := none

/-- What `SaveFzcConfig` leaves behind: the configuration behind the pointer (its
password replaced by the encrypted text), the content of the file at `path` when the
call put it there, and the returned error. -/
structure SaveResult where
  config : FzcConfig
  file : Option Bytes
  err : GoError

/-- The function `SaveFzcConfig`; `jsonMarshal` stands for `json.MarshalIndent`. -/
def SaveFzcConfig (lib : CryptoLib) (jsonMarshal : FzcConfig → Except String Bytes)
    (fuel : Nat) (env : SaveEnv) (config : FzcConfig) (key : Bytes) : Option SaveResult :=
  let encrypted : Option (Except String FzcConfig) :=
    if config.FzUID ≠ [] ∧ config.FzPassword ≠ [] then
      match encrypt lib fuel env.randIV (config.FzUID ++ key) config.FzPassword with
      | none => none
      | some (.error e) => some (.error e)
      | some (.ok pass) => some (.ok { config with FzPassword := pass })
    else some (.ok config)
  match encrypted with
  | none => none
  | some (.error e) => some ⟨config, none, some ("SaveFzcConfig err=" ++ e)⟩
  | some (.ok config1) =>
    match jsonMarshal config1 with
    | .error e => some ⟨config1, none, some ("SaveFzcConfig err=" ++ e)⟩
    | .ok b =>
      match env.createErr with
      | some e => some ⟨config1, none, some ("SaveFzcConfig err=" ++ e)⟩
      | none =>
        match env.writeErr with
        | some e => some ⟨config1, none, some ("SaveFzcConfig err=" ++ e)⟩
        | none =>
          match env.renameErr with
          | some e => some ⟨config1, none, some ("SaveFzcConfig err=" ++ e)⟩
          | none => some ⟨config1, some b, none⟩

/-- The function `LoadFzcConfig`; `file` is the outcome of `ioutil.ReadFile(path)` and
`jsonUnmarshal` stands for `json.Unmarshal` into a fresh `FzcConfig`. A password
that does not decrypt is left as read. -/
def LoadFzcConfig (lib : CryptoLib) (jsonUnmarshal : Bytes → Except String FzcConfig)
    (fuel : Nat) (file : Except String Bytes) (key : Bytes) :
    Option (Except String FzcConfig) :=
  match file with
  | .error e => some (.error ("LoadFzcConfig err=" ++ e))
  | .ok data =>
    match jsonUnmarshal data with
    | .error e => some (.error ("LoadFzcConfig err=" ++ e))
    | .ok config =>
      if config.FzUID ≠ [] ∧ config.FzPassword ≠ [] then
        match decrypt lib fuel (config.FzUID ++ key) config.FzPassword with
        | none => none
        | some (.error _) => some (.ok config)
        | some (.ok pass) => some (.ok { config with FzPassword := pass })
      else some (.ok config)

/-- A stand-in for `base64.URLEncoding.EncodeToString` on samples: each byte `b`
becomes `b` times the letter `A` (65) and one `B` (66), so the text is ASCII. -/
def sampleBase64Encode : Bytes → Bytes
  | [] => []
  | b :: rest => List.replicate b 65 ++ 66 :: sampleBase64Encode rest

/-- Reads back what `sampleBase64Encode` wrote, `acc` counting the letters `A` seen
since the last `B`. -/
def sampleBase64DecodeFrom : Nat → Bytes → Bytes
  | _, [] => []
  | acc, b :: rest =>
    if b = 66 then acc :: sampleBase64DecodeFrom 0 rest
    else sampleBase64DecodeFrom (acc + 1) rest

/-- A stand-in for the library functions on samples: the key stream adds and removes
the first key byte with exclusive or, and the base64 functions are
`sampleBase64Encode` and its inverse. -/
def sampleCryptoLib : CryptoLib where
  xorKeyStreamEnc := fun key _ src => src.map (fun b => b ^^^ key.headD 0)
  xorKeyStreamDec := fun key _ src => src.map (fun b => b ^^^ key.headD 0)
  base64Encode := sampleBase64Encode
  base64Decode := sampleBase64DecodeFrom 0

/-- Whether a byte is a UTF-8 continuation byte. -/
def utf8Cont (b : Nat) : Bool :=
  128 ≤ b ∧ b ≤ 191

/-- The number of bytes of the UTF-8 encoding that starts the text, as Go
`utf8.DecodeRuneInString` accepts it; 0 when the first byte starts no valid
encoding. -/
def utf8Width : Bytes → Nat
  | [] => 0
  | b0 :: rest =>
    if b0 < 128 then 1
    else if 194 ≤ b0 ∧ b0 ≤ 223 then
      match rest with
      | b1 :: _ => if utf8Cont b1 then 2 else 0
      | _ => 0
    else if 224 ≤ b0 ∧ b0 ≤ 239 then
      match rest with
      | b1 :: b2 :: _ =>
        if (if b0 = 224 then decide (160 ≤ b1 ∧ b1 ≤ 191)
            else if b0 = 237 then decide (128 ≤ b1 ∧ b1 ≤ 159) else utf8Cont b1) ∧
            utf8Cont b2 then 3 else 0
      | _ => 0
    else if 240 ≤ b0 ∧ b0 ≤ 244 then
      match rest with
      | b1 :: b2 :: b3 :: _ =>
        if (if b0 = 240 then decide (144 ≤ b1 ∧ b1 ≤ 191)
            else if b0 = 244 then decide (128 ≤ b1 ∧ b1 ≤ 143) else utf8Cont b1) ∧
            utf8Cont b2 ∧ utf8Cont b3 then 4 else 0
      | _ => 0
    else 0

/-- The text with every byte that starts no valid UTF-8 encoding replaced by U+FFFD
(bytes 239, 191, 189); `skip` counts the bytes still to copy of the encoding being
read. -/
def toValidUTF8From : Nat → Bytes → Bytes
  | _, [] => []
  | skip + 1, b :: rest => b :: toValidUTF8From skip rest
  | 0, b :: rest =>
    match utf8Width (b :: rest) with
    | 0 => 239 :: 191 :: 189 :: toValidUTF8From 0 rest
    | n + 1 => b :: toValidUTF8From n rest

/-- A stand-in for what `json.Unmarshal` reads back of a string that
`json.MarshalIndent` wrote: `encoding/json` writes a string coerced to valid UTF-8,
each invalid byte replaced by U+FFFD, and its escapes are undone on reading. -/
def sampleJsonText (s : Bytes) : Bytes :=
  toValidUTF8From 0 s

/-- A stand-in for the encoding of one string on samples: its length, then its
bytes. -/
def sampleField (l : Bytes) : Bytes := l.length :: l

/-- Reads back one string written by `sampleField`, and what follows it. -/
def sampleReadField (d : Bytes) : Bytes × Bytes :=
  match d with
  | [] => ([], [])
  | n :: rest => (rest.take n, rest.drop n)

/-- A stand-in for `json.MarshalIndent` on samples: the eight fields in order, each
as `encoding/json` writes a string. -/
def sampleJsonMarshal (c : FzcConfig) : Except String Bytes :=
  .ok (sampleField (sampleJsonText c.FzURL) ++ (sampleField (sampleJsonText c.FzUID) ++
    (sampleField (sampleJsonText c.FzPassword) ++
    (sampleField (sampleJsonText c.LocalFolder) ++
    (sampleField (sampleJsonText c.FzDownFolder) ++
    (sampleField (sampleJsonText c.FzUpFolder) ++
    (sampleField (sampleJsonText c.NotifyTo) ++
    (sampleField (sampleJsonText c.NotifyMode) ++ []))))))))

/-- A stand-in for `json.Unmarshal` on samples: reads the eight fields in order. -/
def sampleJsonUnmarshal (d : Bytes) : Except String FzcConfig :=
  let r1 := sampleReadField d
  let r2 := sampleReadField r1.2
  let r3 := sampleReadField r2.2
  let r4 := sampleReadField r3.2
  let r5 := sampleReadField r4.2
  let r6 := sampleReadField r5.2
  let r7 := sampleReadField r6.2
  let r8 := sampleReadField r7.2
  .ok ⟨r1.1, r2.1, r3.1, r4.1, r5.1, r6.1, r7.1, r8.1⟩

/-! ## `MbImportCSV` (`fzapi.go`, lines 879-930) -/

/-- Go `strings.Contains(s, substr)`, which is `strings.Index(s, substr) >= 0`. -/
def stringsContains (s sub : String) : Bool :=
  decide (stringsIndex s sub ≥ 0)

/-- An `*http.Response` as `MbImportCSV` reads it: the status code, the value of
the `Location` header, the bytes of the body that can be read and the error that
ends the reading (`none` for a clean end). -/
structure ImportResponse where
  StatusCode : Int := 200
  Location : String := ""
  body : String := ""
  readErr : GoError := none
  deriving DecidableEq, Repr

/-- Outcomes of the steps of one `MbImportCSV` call: `os.Open`,
`writer.CreateFormFile`, `writer.Close`, and the pair `resp, err` that
`fz.client.Do(req)` returns, where `resp = none` is a nil response. -/
structure ImportEnv where
  openErr : GoError := none
  createFormFileErr : GoError := none
  closeErr : GoError := none
  resp : Option ImportResponse
  err : GoError

/-- The fields `MbImportCSV` writes with `writer.WriteField`, in order. -/
def MbImportCSVFields (uid : String) (replace : Bool) : List (String × String) :=
  [("action", "import")] ++ (if uid ≠ "" then [("uid", uid)] else []) ++
    (if replace then [("replace", "yes")] else [])

/-- The method `MbImportCSV`; `base` stands for `filepath.Base` and `hasClient` says
whether `fz.client` is set (not nil) at the call. After the local steps the method
assigns `fz.client.CheckRedirect`, which dereferences `fz.client`. The test after
`fz.client.Do` is `err != nil && resp != nil && resp.StatusCode != 302`; the next
statement reads `resp.Header`, which dereferences `resp`. -/
def MbImportCSV (fz : FzAPI) (hasClient : Bool) (base : String → String) (env : ImportEnv)
    (path uid localFile fileKey : String) (replace : Bool) : GoResult CallResult :=
  match env.openErr with
  | some e => .ok ⟨fz, [], some ("MbImportCSV - os.Open Error: " ++ e)⟩
  | none =>
    match env.createFormFileErr with
    | some e => .ok ⟨fz, [], some ("MbImportCSV - writer.CreateFormFile Error: " ++ e)⟩
    | none =>
      match env.closeErr with
      | some e => .ok ⟨fz, [], some ("MbImportCSV - writer.Close Error: " ++ e)⟩
      | none =>
        if hasClient = false then .panic
        else
          let req := Request.multipart (fz.URL ++ "/mb/cgi-bin/index.cgi" ++ path) fileKey
            (base localFile) (MbImportCSVFields uid replace) (some fz.FzSession)
          let postErr : GoError :=
            match env.err, env.resp with
            | some e, some r => if r.StatusCode ≠ 302 then some e else none
            | _, _ => none
          match postErr with
          | some e => .ok ⟨fz, [req], some ("MbImportCSV - Post Error: " ++ e)⟩
          | none =>
            match env.resp with
            | none => .panic
            | some r =>
              if stringsContains r.Location "/import" then
                .ok ⟨fz, [req], some ("MbImportCSV - redirect error: " ++ r.Location)⟩
              else if r.readErr = none ∧
                  stringsContains r.body "アドレス帳ファイルが正しくありません" then
                .ok ⟨fz, [req], some "MbImportCSV - Invalid format"⟩
              else if r.readErr = none ∧
                  stringsContains r.body "ユーザーIDの指定が正しくありません。" then
                .ok ⟨fz, [req], some "MbImportCSV - Invalid uid"⟩
              else .ok ⟨fz, [req], none⟩

/-! ## Archive search (`fzarchive.go`, lines 16-69, 84-142 and 168-188) -/

/-- The struct `FzArcPrjEnt` (without `XMLName`). -/
structure FzArcPrjEnt where
  ArcType : String := ""
  FolderID : String := ""
  FileID : String := ""
  UserID : String := ""
  ProjectName : String := ""
  FolderName : String := ""
  FileName : String := ""
  TimeStampStr : String := ""
  TimeStamp : Int := 0
  Size : String := ""
  FilePath : String := ""
  deriving DecidableEq, Repr

/-- The struct `FzArcMbRfEnt` (without `XMLName`). -/
structure FzArcMbRfEnt where
  ArcType : String := ""
  JobID : String := ""
  FileID : String := ""
  UserID : String := ""
  FileOwner : String := ""
  FileName : String := ""
  TimeStampStr : String := ""
  TimeStamp : Int := 0
  Size : String := ""
  FilePath : String := ""
  deriving DecidableEq, Repr

/-- The struct `FzArchive` (without `Errors`). -/
structure FzArchive where
  FzPrjArcList : List FzArcPrjEnt := []
  FzMbRfArcList : List FzArcMbRfEnt := []

/-- A `*regexp.Regexp` as the search uses it: `none` is nil, `some re` a compiled
expression whose `MatchString` is `re`. -/
abbrev Regexp := Option (String → Bool)

/-- The struct `SearchFzArchiveEnt`. -/
structure SearchFzArchiveEnt where
  Start : String := ""
  nStart : Int := 0
  End : String := ""
  nEnd : Int := 0
  UserID : String := ""
  userIDRegexp : Regexp := none
  FileName : String := ""
  fileNameRegexp : Regexp := none
  ProjectName : String := ""
  projectNameRegexp : Regexp := none
  FolderName : String := ""
  folderNameRegexp : Regexp := none
  JobID : String := ""

/-- The library functions and the clock `setupSearchParam` uses, as parameters:
`parseDay s` is `time.Parse("2006-01-02", s)` as `UnixNano()` (`none` for an
error), `compile` is `regexp.Compile` (`none` for an error) and `now` is
`time.Now().UnixNano()`. -/
structure ArcLib where
  parseDay : String → Option Int
  compile : String → Regexp
  now : Int

/-- The function `setupSearchParam`, which fills the unexported fields of the
search parameter. `t.Add(time.Hour * 24)` adds 86400000000000 nanoseconds. -/
def setupSearchParam (lib : ArcLib) (s : SearchFzArchiveEnt) : SearchFzArchiveEnt :=
  { s with
    nStart :=
      (match lib.parseDay s.Start with
        | some t => t
        | none => 0),
    nEnd :=
      (match lib.parseDay s.End with
        | some t => t + 86400000000000
        | none => lib.now),
    userIDRegexp := (if s.UserID ≠ "" then lib.compile s.UserID else s.userIDRegexp),
    fileNameRegexp := (if s.FileName ≠ "" then lib.compile s.FileName else s.fileNameRegexp),
    projectNameRegexp :=
      (if s.ProjectName ≠ "" then lib.compile s.ProjectName else s.projectNameRegexp),
    folderNameRegexp :=
      (if s.FolderName ≠ "" then lib.compile s.FolderName else s.folderNameRegexp) }

/-- The test `re != nil && !re.MatchString(x)` of the search loops. -/
def regexpRejects (re : Regexp) (x : String) : Bool :=
  match re with
  | some m => !m x
  | none => false

/-- The body of the loop of `SearchFzPrjArchiveFile`: whether the entry is appended
to the result (no `continue` is taken). -/
def prjEntKept (s : SearchFzArchiveEnt) (e : FzArcPrjEnt) : Bool :=
  if e.TimeStamp < s.nStart then false
  else if e.TimeStamp > s.nEnd then false
  else if regexpRejects s.fileNameRegexp e.FileName then false
  else if regexpRejects s.projectNameRegexp e.ProjectName then false
  else if regexpRejects s.folderNameRegexp e.FolderName then false
  else true

/-- The method `SearchFzPrjArchiveFile`: the entries kept, in archive order. -/
def SearchFzPrjArchiveFile (lib : ArcLib) (a : FzArchive) (s : SearchFzArchiveEnt) :
    List FzArcPrjEnt :=
  a.FzPrjArcList.filter (prjEntKept (setupSearchParam lib s))

/-- The body of the loop of `SearchFzMbRfArchiveFile`; `strings.HasPrefix` is the
prefix test on the characters. -/
def mbRfEntKept (s : SearchFzArchiveEnt) (e : FzArcMbRfEnt) : Bool :=
  if e.TimeStamp < s.nStart then false
  else if e.TimeStamp > s.nEnd then false
  else if regexpRejects s.fileNameRegexp e.FileName then false
  else if s.JobID ≠ "" ∧ ¬ s.JobID.data.isPrefixOf e.JobID.data then false
  else true

/-- The method `SearchFzMbRfArchiveFile`: the entries kept, in archive order. -/
def SearchFzMbRfArchiveFile (lib : ArcLib) (a : FzArchive) (s : SearchFzArchiveEnt) :
    List FzArcMbRfEnt :=
  a.FzMbRfArcList.filter (mbRfEntKept (setupSearchParam lib s))

/-- A stand-in for the library on samples: every date parses to nanosecond 0, an
expression without metacharacters matches the texts that contain it, and the clock
reads 100. -/
def sampleArcLib : ArcLib where
  parseDay := fun _ => some 0
  compile := fun p => some (fun x => stringsContains x p)
  now := 100

/-- An archive with one project entry and one delivery entry, both of user
`guest`. -/
def sampleArchive : FzArchive :=
  { FzPrjArcList :=
      [{ UserID := "guest", ProjectName := "P", FolderName := "F", FileName := "a.txt",
         TimeStamp := 5 }],
    FzMbRfArcList :=
      [{ UserID := "guest", JobID := "j1", FileName := "b.txt", TimeStamp := 5 }] }

/-! ## `loadMbConf` (`fzapi.go`, lines 556-611) -/

/-- The library functions `loadMbConf` calls, as parameters: `strings.ToLower` and
`strings.TrimSpace`. -/
structure ConfLib where
  toLower : String → String
  trimSpace : String → String

/-- The statement `ret[k] = v` on a map kept as key and value pairs. -/
def mapSet (m : List (String × String)) (k v : String) : List (String × String) :=
  match m with
  | [] => [(k, v)]
  | (k1, v1) :: rest => if k1 = k then (k, v) :: rest else (k1, v1) :: mapSet rest k v

/-- The variables of the loop of `loadMbConf`. -/
structure MbConfState where
  ret : List (String × String) := []
  bInComment : Bool := false
  comment : String := ""
  deriving DecidableEq, Repr

/-- One round of the loop of `loadMbConf` on the line `scanner.Text()`:
`a := strings.Split(line, ":")`, `k := strings.ToLower(a[0])` and
`v := strings.TrimSpace(a[1])`. -/
def loadMbConfLine (lib : ConfLib) (st : MbConfState) (line : String) : MbConfState :=
  if st.bInComment then { st with comment := st.comment ++ line ++ "\n" }
  else
    match stringsSplit ':' line.data with
    | a0 :: a1 :: _ =>
      if lib.toLower (String.mk a0) = "comment" then
        { st with bInComment := true, comment := lib.trimSpace (String.mk a1) ++ "\n" }
      else if lib.toLower (String.mk a0) = "mailto" then
        match fieldOf st.ret "mailto" with
        | some old =>
          { st with ret := mapSet st.ret "mailto" (old ++ "," ++ lib.trimSpace (String.mk a1)) }
        | none => { st with ret := mapSet st.ret "mailto" (lib.trimSpace (String.mk a1)) }
      else
        { st with ret :=
            mapSet st.ret (lib.toLower (String.mk a0)) (lib.trimSpace (String.mk a1)) }
    | _ => st

/-- The function `loadMbConf` on a file whose lines, as the scanner yields them, are
`lines`; `openErr` is the outcome of `os.Open`. -/
def loadMbConf (lib : ConfLib) (openErr : GoError) (lines : List String) :
    List (String × String) × GoError :=
  match openErr with
  | some e => ([], some e)
  | none =>
    (mapSet (lines.foldl (loadMbConfLine lib) {}).ret "comment"
      (lines.foldl (loadMbConfLine lib) {}).comment, none)

/-- Whether a character is an ASCII space, tab, line feed or carriage return. -/
def sampleIsSpace (c : Char) : Bool :=
  c = ' ' ∨ c = '\t' ∨ c = '\n' ∨ c = '\r'

/-- A stand-in for the library functions on ASCII samples. -/
def sampleConfLib : ConfLib where
  toLower := fun s => String.mk (s.data.map Char.toLower)
  trimSpace := fun s =>
    String.mk (((s.data.dropWhile sampleIsSpace).reverse.dropWhile sampleIsSpace).reverse)

/-! ## Notions used to state the properties -/

/-- Every `valid_key` field the buffer holds has the value `k`; so it is for the
empty buffer. -/
def tokenOnly (k : String) (g : List BodyPiece) : Prop :=
  ∀ v, BodyPiece.field "valid_key" v ∈ g → v = k

/-- The string `s` contains the text "write". -/
def containsWrite (s : String) : Prop :=
  ∃ pre post : String, s = pre ++ "write" ++ post

/-- The string `s` contains the text `sub` as a substring. -/
def containsText (s sub : String) : Prop :=
  ∃ pre post : String, s = pre ++ sub ++ post

/-- Some folder addressed by `prj` and `folder` holds a file named `file`. -/
def collides (tree : List XMLProject) (prj folder file : String) : Prop :=
  ∃ p ∈ tree, p.Name = prj ∧ ∃ d ∈ p.FolderList, d.Name = folder ∧
    ∃ f ∈ d.FileList, f.Name = file

/-- Some folder addressed by `prj` and `folder` has an Access containing "write". -/
def grantsWrite (tree : List XMLProject) (prj folder : String) : Prop :=
  ∃ p ∈ tree, p.Name = prj ∧ ∃ d ∈ p.FolderList, d.Name = folder ∧ containsWrite d.Access

/-- The folders of the tree addressed by `prj` and `folder`, in project order then
folder order: the folders named `folder` of the projects named `prj`. -/
def matchingFolders (tree : List XMLProject) (prj folder : String) : List XMLFolder :=
  ((tree.filter (fun p => p.Name = prj)).flatMap (fun p => p.FolderList)).filter
    (fun d => d.Name = folder)

/-- The files named `file` of the folders addressed by `prj` and `folder`, in
project, folder, file order. -/
def matchingFiles (tree : List XMLProject) (prj folder file : String) : List XMLFile :=
  ((matchingFolders tree prj folder).flatMap (fun d => d.FileList)).filter
    (fun f => f.Name = file)

/-- The call expected for the chunk at position `i` (counted from 0) of a file of `s`
bytes: the bytes left up to 52428800, index `i + 1`, total `chunks`. -/
def partAt (fr folderID : String) (s chunks : Int) (i : Nat) : PartCall :=
  ⟨min (s - (i : Int) * 52428800) 52428800, fr, folderID, (i : Int) + 1, chunks⟩

/-- The chunk request of the call `c` when the buffer is empty at the call: its body
is what the call writes. -/
def cleanPartRequest (fz : FzAPI) (validKey : String) (c : PartCall) : Request :=
  .buffered (fz.URL ++ "/cgi-bin/index.cgi")
    (partWritten fz validKey c ++ [BodyPiece.close]) (some fz.FzSession)

/-! ## Sample sessions -/

/-- A response whose tree has one project with one writable folder holding `x.txt`
and one read-only folder. -/
def sampleResp : XMLFileZen :=
  { Res := "OK", ProjectList :=
      [{ Name := "ProjectA", FolderList :=
          [{ Name := "FolderB", Access := "read,write", ID := "12",
             FileList := [{ Key := "k1", Name := "x.txt", Size := "10" }] },
           { Name := "FolderR", Access := "read", ID := "13" }] }] }

/-- A session that stores `sampleResp`. -/
def sampleFz : FzAPI := { LastResp := some sampleResp }

/-- A response whose tree holds two folders of the same name in one project, the
first read-only and the second writable. -/
def duplicateResp : XMLFileZen :=
  { Res := "OK", ProjectList :=
      [{ Name := "P", FolderList :=
          [{ Name := "F", Access := "read", ID := "1" },
           { Name := "F", Access := "write", ID := "2" }] }] }

/-- A session that stores `duplicateResp`. -/
def duplicateFz : FzAPI := { LastResp := some duplicateResp }

/-- A response whose tree has a folder named `B/C` in project `A`, a folder named
`F` in the project with the empty name, and a folder with the empty name in
project `F`. -/
def slashResp : XMLFileZen :=
  { Res := "OK", ProjectList :=
      [{ Name := "A", FolderList := [{ Name := "B/C", Access := "write", ID := "7" }] },
       { Name := "", FolderList := [{ Name := "F", Access := "write", ID := "8" }] },
       { Name := "F", FolderList := [{ Name := "", Access := "write", ID := "9" }] }] }

/-- A session that stores `slashResp`. -/
def slashFz : FzAPI := { LastResp := some slashResp }

/-- A decoder for sample bodies: `ok2` is a success envelope with token `T2`, `ng`
a failure envelope with message `Expired`, anything else does not decode. -/
def sampleUnmarshal (body : String) : Except String XMLFileZen :=
  if body = "ok2" then .ok { Res := "OK", ValidKey := "T2" }
  else if body = "ng" then .ok { Res := "Expired" }
  else .error "EOF"

/-- A logged-in session whose stored token is `T1`. -/
def tokenFz : FzAPI :=
  { URL := "https://fz", FzSession := "sid", LastResp := some { Res := "OK", ValidKey := "T1" } }

/-- The outcomes of the chunk calls of an upload whose request for chunk 2 is refused
before the transport reads any of its body; the other requests are answered and
their bodies read to the end. -/
def refusedSecondChunk (c : PartCall) : PartEnv :=
  if c.chunk = 2 then { net := .error "connection refused", nRead := 0 }
  else { net := .ok {}, nRead := 100 }

/-- The outcomes of chunk calls that are all answered, their bodies read to the
end. -/
def allChunksSent (_ : PartCall) : PartEnv :=
  { net := .ok {}, nRead := 100 }

/-- The outcomes of chunk calls that are all answered, the first with status 500 and
a failure envelope. -/
def firstChunkRejected (c : PartCall) : PartEnv :=
  if c.chunk = 1 then { net := .ok { StatusCode := 500, body := "ng" }, nRead := 100 }
  else { net := .ok {}, nRead := 100 }

/-- The part and fields of chunk 2 of 3 of the transfer `1111` into folder `12` on
the session `tokenFz`, with the closing boundary. -/
def leftoverChunk : List BodyPiece :=
  [.file "file" "111112.tmp", .field "fr" "1111", .field "valid_key" "T1",
    .field "action" "Mainmenu_upload", .field "sub_action" "plupload",
    .field "ukey" "sid12", .field "mode" "PRJ", .field "chunk" "2", .field "chunks" "3",
    .close]

/-- The values of the fields named `k` of a request, in the order they are sent. -/
def Request.valuesOf (q : Request) (k : String) : List String :=
  (q.fields.filter (fun kv => kv.1 = k)).map Prod.snd

/-! ## Library facts -/

theorem stringsIndexFrom_ne_iff (sub s : List Char) (i : Nat) :
    stringsIndexFrom sub s i ≠ -1 ↔ sub <:+: s := by
  induction s generalizing i with
  | nil =>
    unfold stringsIndexFrom
    cases sub with
    | nil => simp
    | cons a as => simp [List.isPrefixOf]
  | cons c cs ih =>
    unfold stringsIndexFrom
    by_cases h : sub.isPrefixOf (c :: cs) = true
    · rw [if_pos h]
      have hp : sub <+: c :: cs := List.isPrefixOf_iff_prefix.mp h
      constructor
      · intro _; exact hp.isInfix
      · intro _; omega
    · rw [if_neg h, ih (i + 1), List.infix_cons_iff]
      have hp : ¬ sub <+: c :: cs := fun hp => h (List.isPrefixOf_iff_prefix.mpr hp)
      constructor
      · intro h1; exact Or.inr h1
      · intro h1; rcases h1 with h1 | h1
        · exact absurd h1 hp
        · exact h1

theorem stringsIndex_write_iff (s : String) :
    stringsIndex s "write" ≠ -1 ↔ containsWrite s := by
  unfold stringsIndex containsWrite
  rw [stringsIndexFrom_ne_iff]
  constructor
  · rintro ⟨a, b, hab⟩
    refine ⟨String.mk a, String.mk b, ?_⟩
    apply String.ext
    simp [String.data_append, ← hab]
  · rintro ⟨pre, post, hs⟩
    refine ⟨pre.data, post.data, ?_⟩
    rw [hs]
    simp [String.data_append]

/-! ## The loops of `CanUpload` -/

theorem canUploadFiles_iff (file : String) (fs : List XMLFile) :
    canUploadFiles file fs = true ↔ ∃ f ∈ fs, f.Name = file := by
  induction fs with
  | nil => simp [canUploadFiles]
  | cons f fs ih =>
    unfold canUploadFiles
    by_cases h : f.Name = file
    · simp [h]
    · simp [h, ih]

theorem canUploadFolders_none_iff (folder file : String) (ds : List XMLFolder) (ret : Bool) :
    canUploadFolders folder file ds ret = none ↔
      ∃ d ∈ ds, d.Name = folder ∧ ∃ f ∈ d.FileList, f.Name = file := by
  induction ds generalizing ret with
  | nil => simp [canUploadFolders]
  | cons d ds ih =>
    unfold canUploadFolders
    by_cases h : d.Name = folder
    · by_cases hc : canUploadFiles file d.FileList = true
      · have hc2 := (canUploadFiles_iff file d.FileList).mp hc
        simp only [h, hc, if_true, List.mem_cons, true_iff]
        exact ⟨d, Or.inl rfl, h, hc2⟩
      · have hc2 : ¬ ∃ f ∈ d.FileList, f.Name = file :=
          fun hx => hc ((canUploadFiles_iff file d.FileList).mpr hx)
        rw [if_pos h, if_neg hc]
        split
        · rw [ih]
          constructor
          · rintro ⟨x, hx, hn, hf⟩; exact ⟨x, List.mem_cons_of_mem _ hx, hn, hf⟩
          · rintro ⟨x, hx, hn, hf⟩
            rcases List.mem_cons.mp hx with rfl | hx
            · exact absurd hf hc2
            · exact ⟨x, hx, hn, hf⟩
        · rw [ih]
          constructor
          · rintro ⟨x, hx, hn, hf⟩; exact ⟨x, List.mem_cons_of_mem _ hx, hn, hf⟩
          · rintro ⟨x, hx, hn, hf⟩
            rcases List.mem_cons.mp hx with rfl | hx
            · exact absurd hf hc2
            · exact ⟨x, hx, hn, hf⟩
    · rw [if_neg h, ih]
      constructor
      · rintro ⟨x, hx, hn, hf⟩; exact ⟨x, List.mem_cons_of_mem _ hx, hn, hf⟩
      · rintro ⟨x, hx, hn, hf⟩
        rcases List.mem_cons.mp hx with rfl | hx
        · exact absurd hn h
        · exact ⟨x, hx, hn, hf⟩

theorem canUploadFolders_some (folder file : String) (ds : List XMLFolder) (ret r : Bool)
    (h : canUploadFolders folder file ds ret = some r) :
    (r = true ↔ ret = true ∨ ∃ d ∈ ds, d.Name = folder ∧ containsWrite d.Access) := by
  induction ds generalizing ret with
  | nil =>
    simp only [canUploadFolders, Option.some.injEq] at h
    simp [h]
  | cons d ds ih =>
    unfold canUploadFolders at h
    by_cases hn : d.Name = folder
    · rw [if_pos hn] at h
      by_cases hc : canUploadFiles file d.FileList = true
      · rw [if_pos hc] at h; cases h
      · rw [if_neg hc] at h
        by_cases hw : stringsIndex d.Access "write" ≠ -1
        · rw [if_pos hw] at h
          have hw2 := (stringsIndex_write_iff d.Access).mp hw
          rw [ih true h]
          constructor
          · intro _; exact Or.inr ⟨d, List.mem_cons_self _ _, hn, hw2⟩
          · intro _; exact Or.inl rfl
        · rw [if_neg hw] at h
          have hw2 : ¬ containsWrite d.Access :=
            fun hx => hw ((stringsIndex_write_iff d.Access).mpr hx)
          rw [ih ret h]
          constructor
          · rintro (h1 | ⟨x, hx, hxn, hxw⟩)
            · exact Or.inl h1
            · exact Or.inr ⟨x, List.mem_cons_of_mem _ hx, hxn, hxw⟩
          · rintro (h1 | ⟨x, hx, hxn, hxw⟩)
            · exact Or.inl h1
            · rcases List.mem_cons.mp hx with rfl | hx
              · exact absurd hxw hw2
              · exact Or.inr ⟨x, hx, hxn, hxw⟩
    · rw [if_neg hn] at h
      rw [ih ret h]
      constructor
      · rintro (h1 | ⟨x, hx, hxn, hxw⟩)
        · exact Or.inl h1
        · exact Or.inr ⟨x, List.mem_cons_of_mem _ hx, hxn, hxw⟩
      · rintro (h1 | ⟨x, hx, hxn, hxw⟩)
        · exact Or.inl h1
        · rcases List.mem_cons.mp hx with rfl | hx
          · exact absurd hxn hn
          · exact Or.inr ⟨x, hx, hxn, hxw⟩

theorem canUploadProjects_none_iff (prj folder file : String) (ps : List XMLProject)
    (ret : Bool) :
    canUploadProjects prj folder file ps ret = none ↔ collides ps prj folder file := by
  unfold collides
  induction ps generalizing ret with
  | nil => simp [canUploadProjects]
  | cons p ps ih =>
    unfold canUploadProjects
    by_cases hn : p.Name = prj
    · rw [if_pos hn]
      cases hf : canUploadFolders folder file p.FolderList ret with
      | none =>
        have h1 := (canUploadFolders_none_iff folder file p.FolderList ret).mp hf
        simp only [true_iff]
        exact ⟨p, List.mem_cons_self _ _, hn, h1⟩
      | some r =>
        have h1 : ¬ ∃ d ∈ p.FolderList, d.Name = folder ∧ ∃ f ∈ d.FileList, f.Name = file := by
          intro hx
          rw [(canUploadFolders_none_iff folder file p.FolderList ret).mpr hx] at hf
          cases hf
        simp only
        rw [ih r]
        constructor
        · rintro ⟨x, hx, h2⟩; exact ⟨x, List.mem_cons_of_mem _ hx, h2⟩
        · rintro ⟨x, hx, h2⟩
          rcases List.mem_cons.mp hx with rfl | hx
          · exact absurd h2.2 h1
          · exact ⟨x, hx, h2⟩
    · rw [if_neg hn, ih ret]
      constructor
      · rintro ⟨x, hx, h2⟩; exact ⟨x, List.mem_cons_of_mem _ hx, h2⟩
      · rintro ⟨x, hx, h2⟩
        rcases List.mem_cons.mp hx with rfl | hx
        · exact absurd h2.1 hn
        · exact ⟨x, hx, h2⟩

theorem canUploadProjects_some (prj folder file : String) (ps : List XMLProject)
    (ret r : Bool) (h : canUploadProjects prj folder file ps ret = some r) :
    (r = true ↔ ret = true ∨ grantsWrite ps prj folder) := by
  unfold grantsWrite
  induction ps generalizing ret with
  | nil =>
    simp only [canUploadProjects, Option.some.injEq] at h
    simp [h]
  | cons p ps ih =>
    unfold canUploadProjects at h
    by_cases hn : p.Name = prj
    · rw [if_pos hn] at h
      cases hf : canUploadFolders folder file p.FolderList ret with
      | none => rw [hf] at h; cases h
      | some r1 =>
        rw [hf] at h
        simp only at h
        have h1 := canUploadFolders_some folder file p.FolderList ret r1 hf
        rw [ih r1 h, h1]
        constructor
        · rintro ((h2 | h2) | ⟨x, hx, h2⟩)
          · exact Or.inl h2
          · exact Or.inr ⟨p, List.mem_cons_self _ _, hn, h2⟩
          · exact Or.inr ⟨x, List.mem_cons_of_mem _ hx, h2⟩
        · rintro (h2 | ⟨x, hx, h2⟩)
          · exact Or.inl (Or.inl h2)
          · rcases List.mem_cons.mp hx with rfl | hx
            · exact Or.inl (Or.inr h2.2)
            · exact Or.inr ⟨x, hx, h2⟩
    · rw [if_neg hn] at h
      rw [ih ret h]
      constructor
      · rintro (h2 | ⟨x, hx, h2⟩)
        · exact Or.inl h2
        · exact Or.inr ⟨x, List.mem_cons_of_mem _ hx, h2⟩
      · rintro (h2 | ⟨x, hx, h2⟩)
        · exact Or.inl h2
        · rcases List.mem_cons.mp hx with rfl | hx
          · exact absurd h2.1 hn
          · exact Or.inr ⟨x, hx, h2⟩

/-- What `CanUpload` returns on a stored response, in terms of the tree. -/
theorem CanUpload_ok_true_iff (fz : FzAPI) (resp : XMLFileZen) (h : fz.LastResp = some resp)
    (prjFolder file : String) :
    (CanUpload fz prjFolder file = .ok true ∨ CanUpload fz prjFolder file = .ok false) ∧
    (CanUpload fz prjFolder file = .ok true ↔
      grantsWrite resp.ProjectList (sepPrjFolder prjFolder).1 (sepPrjFolder prjFolder).2 ∧
      ¬ collides resp.ProjectList (sepPrjFolder prjFolder).1 (sepPrjFolder prjFolder).2 file) := by
  unfold CanUpload
  rw [h]
  simp only
  cases hc : canUploadProjects (sepPrjFolder prjFolder).1 (sepPrjFolder prjFolder).2 file
      resp.ProjectList false with
  | none =>
    have h1 := (canUploadProjects_none_iff _ _ _ _ _).mp hc
    simp [h1]
  | some r =>
    have h1 : ¬ collides resp.ProjectList (sepPrjFolder prjFolder).1
        (sepPrjFolder prjFolder).2 file := by
      intro hx
      rw [(canUploadProjects_none_iff _ _ _ _ false).mpr hx] at hc
      cases hc
    have h2 := canUploadProjects_some _ _ _ _ _ _ hc
    cases r with
    | true =>
      have h3 := h2.mp rfl
      simp only [Bool.false_eq_true, false_or] at h3
      simp [h1, h3]
    | false =>
      have h3 : ¬ grantsWrite resp.ProjectList (sepPrjFolder prjFolder).1
          (sepPrjFolder prjFolder).2 := fun hx => by
        have := h2.mpr (Or.inr hx)
        cases this
      simp [h3]

theorem containsWrite_read_write : containsWrite "read,write" :=
  (stringsIndex_write_iff "read,write").mp (by decide)

theorem not_containsWrite_read : ¬ containsWrite "read" :=
  fun h => absurd ((stringsIndex_write_iff "read").mpr h) (by decide)

/-! ## The loops of `FzFindFolder` and the matching folders -/

theorem matchingFolders_cons (p : XMLProject) (ps : List XMLProject) (prj folder : String) :
    matchingFolders (p :: ps) prj folder =
      (if p.Name = prj then p.FolderList.filter (fun d => d.Name = folder) else []) ++
        matchingFolders ps prj folder := by
  unfold matchingFolders
  by_cases h : p.Name = prj
  · simp [List.filter_cons, h, List.flatMap_cons]
  · simp [List.filter_cons, h]

theorem mem_matchingFolders (tree : List XMLProject) (prj folder : String) (d : XMLFolder) :
    d ∈ matchingFolders tree prj folder ↔
      ∃ p ∈ tree, p.Name = prj ∧ d ∈ p.FolderList ∧ d.Name = folder := by
  unfold matchingFolders
  simp only [List.mem_filter, List.mem_flatMap, decide_eq_true_eq]
  constructor
  · rintro ⟨⟨p, ⟨hp, hn⟩, hd⟩, hdn⟩; exact ⟨p, hp, hn, hd, hdn⟩
  · rintro ⟨p, hp, hn, hd, hdn⟩; exact ⟨⟨p, ⟨hp, hn⟩, hd⟩, hdn⟩

theorem grantsWrite_iff (tree : List XMLProject) (prj folder : String) :
    grantsWrite tree prj folder ↔
      ∃ d ∈ matchingFolders tree prj folder, containsWrite d.Access := by
  unfold grantsWrite
  constructor
  · rintro ⟨p, hp, hn, d, hd, hdn, hw⟩
    exact ⟨d, (mem_matchingFolders _ _ _ _).mpr ⟨p, hp, hn, hd, hdn⟩, hw⟩
  · rintro ⟨d, hd, hw⟩
    obtain ⟨p, hp, hn, hd, hdn⟩ := (mem_matchingFolders _ _ _ _).mp hd
    exact ⟨p, hp, hn, d, hd, hdn, hw⟩

theorem collides_iff (tree : List XMLProject) (prj folder file : String) :
    collides tree prj folder file ↔
      ∃ d ∈ matchingFolders tree prj folder, ∃ f ∈ d.FileList, f.Name = file := by
  unfold collides
  constructor
  · rintro ⟨p, hp, hn, d, hd, hdn, hw⟩
    exact ⟨d, (mem_matchingFolders _ _ _ _).mpr ⟨p, hp, hn, hd, hdn⟩, hw⟩
  · rintro ⟨d, hd, hw⟩
    obtain ⟨p, hp, hn, hd, hdn⟩ := (mem_matchingFolders _ _ _ _).mp hd
    exact ⟨p, hp, hn, d, hd, hdn, hw⟩

theorem findFolderInFolders_eq (folder : String) (ds : List XMLFolder) :
    findFolderInFolders folder ds = (ds.filter (fun d => d.Name = folder)).head? := by
  induction ds with
  | nil => rfl
  | cons d ds ih =>
    unfold findFolderInFolders
    by_cases h : d.Name = folder
    · simp [List.filter_cons, h]
    · simp [List.filter_cons, h, ih]

theorem findFolderInProjects_eq (prj folder : String) (ps : List XMLProject) :
    findFolderInProjects prj folder ps = (matchingFolders ps prj folder).head? := by
  induction ps with
  | nil => rfl
  | cons p ps ih =>
    unfold findFolderInProjects
    rw [matchingFolders_cons]
    by_cases h : p.Name = prj
    · rw [if_pos h, if_pos h, findFolderInFolders_eq, List.head?_append]
      cases (List.filter (fun d => decide (d.Name = folder)) p.FolderList).head? with
      | none => simpa using ih
      | some d => simp
    · rw [if_neg h, if_neg h, ih]
      simp

/-- What `FzFindFolder` returns on a stored response. -/
theorem FzFindFolder_eq (fz : FzAPI) (resp : XMLFileZen) (h : fz.LastResp = some resp)
    (prjFolder : String) :
    FzFindFolder fz prjFolder = .ok (some ((matchingFolders resp.ProjectList
      (sepPrjFolder prjFolder).1 (sepPrjFolder prjFolder).2).head?.getD {})) := by
  unfold FzFindFolder
  rw [h]
  simp only
  rw [findFolderInProjects_eq]
  cases (matchingFolders resp.ProjectList (sepPrjFolder prjFolder).1
    (sepPrjFolder prjFolder).2).head? <;> rfl

/-! ## C1, C2: `CanUpload` -/

/-- C1: on every cached tree, if some folder matching the path (project name equal to
the project segment, folder name equal to the folder segment) holds a file whose
name is exactly `file`, then `CanUpload` returns false, whatever the Access
strings are. -/
theorem CanUpload_collision_false (fz : FzAPI) (resp : XMLFileZen) (prjFolder file : String)
    (hc : ∃ p ∈ resp.ProjectList, p.Name = (sepPrjFolder prjFolder).1 ∧
      ∃ d ∈ p.FolderList, d.Name = (sepPrjFolder prjFolder).2 ∧
        ∃ f ∈ d.FileList, f.Name = file) :
    CanUpload { fz with LastResp := some resp } prjFolder file = .ok false := by
  have h := CanUpload_ok_true_iff { fz with LastResp := some resp } resp rfl prjFolder file
  rcases h.1 with h1 | h1
  · exact absurd hc (h.2.mp h1).2
  · exact h1

/-- C1 at the sample session: `FolderB` grants write and holds `x.txt`. -/
theorem CanUpload_collision_false_witness :
    (∃ p ∈ sampleResp.ProjectList, p.Name = (sepPrjFolder "ProjectA/FolderB").1 ∧
      ∃ d ∈ p.FolderList, d.Name = (sepPrjFolder "ProjectA/FolderB").2 ∧
        containsWrite d.Access ∧ ∃ f ∈ d.FileList, f.Name = "x.txt") ∧
    CanUpload sampleFz "ProjectA/FolderB" "x.txt" = .ok false :=
  ⟨⟨_, List.mem_cons_self _ _, by decide, _, List.mem_cons_self _ _, by decide,
      containsWrite_read_write, by decide⟩,
    CanUpload_collision_false sampleFz sampleResp "ProjectA/FolderB" "x.txt" (by decide)⟩

/-- C2: on every cached tree, `CanUpload` returns true exactly when some folder
matching the path has an Access containing "write" and no folder matching the path
holds a file named exactly `file`; it returns false otherwise, in particular when
no folder matches the path or when no matching folder grants write. -/
theorem CanUpload_true_iff (fz : FzAPI) (resp : XMLFileZen) (prjFolder file : String) :
    (CanUpload { fz with LastResp := some resp } prjFolder file = .ok true ↔
      (∃ p ∈ resp.ProjectList, p.Name = (sepPrjFolder prjFolder).1 ∧
        ∃ d ∈ p.FolderList, d.Name = (sepPrjFolder prjFolder).2 ∧ containsWrite d.Access) ∧
      ¬ (∃ p ∈ resp.ProjectList, p.Name = (sepPrjFolder prjFolder).1 ∧
        ∃ d ∈ p.FolderList, d.Name = (sepPrjFolder prjFolder).2 ∧
          ∃ f ∈ d.FileList, f.Name = file)) ∧
    (CanUpload { fz with LastResp := some resp } prjFolder file ≠ .ok true ↔
      CanUpload { fz with LastResp := some resp } prjFolder file = .ok false) ∧
    ((¬ ∃ p ∈ resp.ProjectList, p.Name = (sepPrjFolder prjFolder).1 ∧
        ∃ d ∈ p.FolderList, d.Name = (sepPrjFolder prjFolder).2) →
      CanUpload { fz with LastResp := some resp } prjFolder file = .ok false) ∧
    ((¬ ∃ p ∈ resp.ProjectList, p.Name = (sepPrjFolder prjFolder).1 ∧
        ∃ d ∈ p.FolderList, d.Name = (sepPrjFolder prjFolder).2 ∧ containsWrite d.Access) →
      CanUpload { fz with LastResp := some resp } prjFolder file = .ok false) := by
  have h := CanUpload_ok_true_iff { fz with LastResp := some resp } resp rfl prjFolder file
  have hne : CanUpload { fz with LastResp := some resp } prjFolder file ≠ .ok true →
      CanUpload { fz with LastResp := some resp } prjFolder file = .ok false := by
    intro hn
    rcases h.1 with h1 | h1
    · exact absurd h1 hn
    · exact h1
  refine ⟨h.2, ⟨hne, ?_⟩, ?_, ?_⟩
  · intro hf ht
    rw [hf] at ht
    cases ht
  · intro hno
    apply hne
    intro ht
    obtain ⟨p, hp, hpn, d, hd, hdn, _⟩ := (h.2.mp ht).1
    exact hno ⟨p, hp, hpn, d, hd, hdn⟩
  · intro hno
    apply hne
    intro ht
    exact hno (h.2.mp ht).1

/-- C2 at the sample session: no folder `ProjectA/Nowhere` exists. -/
theorem CanUpload_true_iff_witness :
    (¬ ∃ p ∈ sampleResp.ProjectList, p.Name = (sepPrjFolder "ProjectA/Nowhere").1 ∧
        ∃ d ∈ p.FolderList, d.Name = (sepPrjFolder "ProjectA/Nowhere").2) ∧
    CanUpload sampleFz "ProjectA/Nowhere" "y.txt" = .ok false :=
  ⟨by decide,
    (CanUpload_true_iff sampleFz sampleResp "ProjectA/Nowhere" "y.txt").2.2.1 (by decide)⟩

/-! ## C3: `CanUpload` and the folder `FzFindFolder` resolves -/

/-- C3 fails as stated: with two folders named `F` in project `P`, the first
read-only and the second writable, `CanUpload` returns true and the folder that
`FzFindFolder` resolves is the first one, whose Access does not contain "write". -/
theorem CanUpload_resolved_write_counterexample :
    CanUpload duplicateFz "P/F" "x.txt" = .ok true ∧
    FzFindFolder duplicateFz "P/F" = .ok (some { Name := "F", Access := "read", ID := "1" }) ∧
    ¬ containsWrite (XMLFolder.Access { Name := "F", Access := "read", ID := "1" }) :=
  ⟨by decide, by decide, not_containsWrite_read⟩

/-- C3 (amended): when `CanUpload` returns true, `FzFindFolder` resolves a folder
matching the path that holds no file named `file`, and some folder matching the path
has an Access containing "write"; when at most one folder matches the path, the
resolved folder itself has an Access containing "write". -/
theorem CanUpload_true_resolved (fz : FzAPI) (resp : XMLFileZen) (prjFolder file : String)
    (hu : CanUpload { fz with LastResp := some resp } prjFolder file = .ok true) :
    ∃ d, FzFindFolder { fz with LastResp := some resp } prjFolder = .ok (some d) ∧
      d ∈ matchingFolders resp.ProjectList (sepPrjFolder prjFolder).1 (sepPrjFolder prjFolder).2 ∧
      (∀ f ∈ d.FileList, f.Name ≠ file) ∧
      (∃ w ∈ matchingFolders resp.ProjectList (sepPrjFolder prjFolder).1
        (sepPrjFolder prjFolder).2, containsWrite w.Access) ∧
      ((matchingFolders resp.ProjectList (sepPrjFolder prjFolder).1
        (sepPrjFolder prjFolder).2).length ≤ 1 → containsWrite d.Access) := by
  have h := (CanUpload_ok_true_iff { fz with LastResp := some resp } resp rfl prjFolder file).2.mp hu
  have hw := (grantsWrite_iff _ _ _).mp h.1
  have hc : ¬ ∃ d ∈ matchingFolders resp.ProjectList (sepPrjFolder prjFolder).1
      (sepPrjFolder prjFolder).2, ∃ f ∈ d.FileList, f.Name = file :=
    fun hx => h.2 ((collides_iff _ _ _ _).mpr hx)
  have hf := FzFindFolder_eq { fz with LastResp := some resp } resp rfl prjFolder
  obtain ⟨w, hwm, hww⟩ := hw
  cases hm : matchingFolders resp.ProjectList (sepPrjFolder prjFolder).1
      (sepPrjFolder prjFolder).2 with
  | nil => rw [hm] at hwm; cases hwm
  | cons d ds =>
    rw [hm] at hf hwm hc
    refine ⟨d, hf, List.mem_cons_self _ _, ?_, ⟨w, hwm, hww⟩, ?_⟩
    · intro f hfm hfn
      exact hc ⟨d, List.mem_cons_self _ _, f, hfm, hfn⟩
    · intro hlen
      have hds : ds = [] := by
        cases ds with
        | nil => rfl
        | cons x xs => simp at hlen
      rw [hds] at hwm
      rcases List.mem_singleton.mp hwm with rfl
      exact hww

/-- C3 (amended) at the sample session: `y.txt` can be uploaded to `FolderB`. -/
theorem CanUpload_true_resolved_witness :
    CanUpload sampleFz "ProjectA/FolderB" "y.txt" = .ok true ∧
    ∃ d, FzFindFolder sampleFz "ProjectA/FolderB" = .ok (some d) ∧
      d ∈ matchingFolders sampleResp.ProjectList (sepPrjFolder "ProjectA/FolderB").1
        (sepPrjFolder "ProjectA/FolderB").2 ∧
      (∀ f ∈ d.FileList, f.Name ≠ "y.txt") ∧
      (∃ w ∈ matchingFolders sampleResp.ProjectList (sepPrjFolder "ProjectA/FolderB").1
        (sepPrjFolder "ProjectA/FolderB").2, containsWrite w.Access) ∧
      ((matchingFolders sampleResp.ProjectList (sepPrjFolder "ProjectA/FolderB").1
        (sepPrjFolder "ProjectA/FolderB").2).length ≤ 1 → containsWrite d.Access) :=
  ⟨by decide,
    CanUpload_true_resolved sampleFz sampleResp "ProjectA/FolderB" "y.txt" (by decide)⟩

/-! ## C6: `FzFindFolder` -/

theorem findFolderInFolders_first (folder : String) (ds1 ds2 : List XMLFolder) (d : XMLFolder)
    (h1 : ∀ x ∈ ds1, x.Name ≠ folder) (hd : d.Name = folder) :
    findFolderInFolders folder (ds1 ++ d :: ds2) = some d := by
  induction ds1 with
  | nil => simp [findFolderInFolders, hd]
  | cons x xs ih =>
    have hx : x.Name ≠ folder := h1 x (List.mem_cons_self _ _)
    simp only [List.cons_append, findFolderInFolders, if_neg hx]
    exact ih (fun y hy => h1 y (List.mem_cons_of_mem _ hy))

theorem findFolderInFolders_none (folder : String) (ds : List XMLFolder)
    (h : ∀ x ∈ ds, x.Name ≠ folder) : findFolderInFolders folder ds = none := by
  induction ds with
  | nil => rfl
  | cons x xs ih =>
    have hx : x.Name ≠ folder := h x (List.mem_cons_self _ _)
    simp only [findFolderInFolders, if_neg hx]
    exact ih (fun y hy => h y (List.mem_cons_of_mem _ hy))

theorem findFolderInProjects_first (prj folder : String) (ps1 ps2 : List XMLProject)
    (p : XMLProject) (ds1 ds2 : List XMLFolder) (d : XMLFolder)
    (h1 : ∀ q ∈ ps1, q.Name = prj → ∀ x ∈ q.FolderList, x.Name ≠ folder)
    (hp : p.Name = prj) (hl : p.FolderList = ds1 ++ d :: ds2)
    (h2 : ∀ x ∈ ds1, x.Name ≠ folder) (hd : d.Name = folder) :
    findFolderInProjects prj folder (ps1 ++ p :: ps2) = some d := by
  induction ps1 with
  | nil =>
    simp only [List.nil_append, findFolderInProjects, if_pos hp, hl,
      findFolderInFolders_first folder ds1 ds2 d h2 hd]
  | cons q qs ih =>
    have ih2 := ih (fun y hy => h1 y (List.mem_cons_of_mem _ hy))
    simp only [List.cons_append, findFolderInProjects]
    by_cases hq : q.Name = prj
    · rw [if_pos hq, findFolderInFolders_none folder q.FolderList
        (h1 q (List.mem_cons_self _ _) hq)]
      exact ih2
    · rw [if_neg hq]
      exact ih2

/-- C6: on every cached tree `FzFindFolder` returns a non-nil folder. If no project
named as the path's project segment contains a folder named as its folder segment,
the result is the empty folder (empty ID, Name, Access and Limit, no files);
otherwise it is the first matching folder in project order then folder order,
unchanged. -/
theorem FzFindFolder_result (fz : FzAPI) (resp : XMLFileZen) (prjFolder : String) :
    (∃ d, FzFindFolder { fz with LastResp := some resp } prjFolder = .ok (some d)) ∧
    ((¬ ∃ p ∈ resp.ProjectList, p.Name = (sepPrjFolder prjFolder).1 ∧
        ∃ d ∈ p.FolderList, d.Name = (sepPrjFolder prjFolder).2) →
      FzFindFolder { fz with LastResp := some resp } prjFolder =
        .ok (some ⟨"", "", "", "", []⟩)) ∧
    (∀ d, (matchingFolders resp.ProjectList (sepPrjFolder prjFolder).1
        (sepPrjFolder prjFolder).2).head? = some d →
      FzFindFolder { fz with LastResp := some resp } prjFolder = .ok (some d)) ∧
    (∀ ps1 ps2 p ds1 ds2 d, resp.ProjectList = ps1 ++ p :: ps2 →
      (∀ q ∈ ps1, q.Name = (sepPrjFolder prjFolder).1 →
        ∀ x ∈ q.FolderList, x.Name ≠ (sepPrjFolder prjFolder).2) →
      p.Name = (sepPrjFolder prjFolder).1 → p.FolderList = ds1 ++ d :: ds2 →
      (∀ x ∈ ds1, x.Name ≠ (sepPrjFolder prjFolder).2) →
      d.Name = (sepPrjFolder prjFolder).2 →
      FzFindFolder { fz with LastResp := some resp } prjFolder = .ok (some d)) := by
  have hf := FzFindFolder_eq { fz with LastResp := some resp } resp rfl prjFolder
  refine ⟨⟨_, hf⟩, ?_, ?_, ?_⟩
  · intro hno
    have hnil : matchingFolders resp.ProjectList (sepPrjFolder prjFolder).1
        (sepPrjFolder prjFolder).2 = [] := by
      apply List.eq_nil_iff_forall_not_mem.mpr
      intro d hd
      obtain ⟨p, hp, hn, hd, hdn⟩ := (mem_matchingFolders _ _ _ _).mp hd
      exact hno ⟨p, hp, hn, d, hd, hdn⟩
    rw [hf, hnil]
    rfl
  · intro d hd
    rw [hf, hd]
    rfl
  · intro ps1 ps2 p ds1 ds2 d hl h1 hp hfl h2 hd
    have h3 := findFolderInProjects_first _ _ ps1 ps2 p ds1 ds2 d h1 hp hfl h2 hd
    unfold FzFindFolder
    simp only
    rw [hl, h3]

/-- C6 at the sample session: `FolderR` is found as stored, and an absent folder
gives the empty folder. -/
theorem FzFindFolder_result_witness :
    FzFindFolder sampleFz "ProjectA/Nowhere" = .ok (some ⟨"", "", "", "", []⟩) ∧
    FzFindFolder sampleFz "ProjectA/FolderR" =
      .ok (some { Name := "FolderR", Access := "read", ID := "13" }) :=
  ⟨(FzFindFolder_result sampleFz sampleResp "ProjectA/Nowhere").2.1 (by decide),
    (FzFindFolder_result sampleFz sampleResp "ProjectA/FolderR").2.2.1 _ (by decide)⟩

/-! ## C4, C5: how `sepPrjFolder` splits a path -/

theorem stringsSplit_of_not_mem (sep : Char) (l : List Char) (h : sep ∉ l) :
    stringsSplit sep l = [l] := by
  induction l with
  | nil => rfl
  | cons c cs ih =>
    have hc : c ≠ sep := fun e => h (e ▸ List.mem_cons_self _ _)
    have hcs : sep ∉ cs := fun e => h (List.mem_cons_of_mem _ e)
    simp only [stringsSplit, if_neg hc, ih hcs]

theorem stringsSplit_append (sep : Char) (a b : List Char) (h : sep ∉ a) :
    stringsSplit sep (a ++ sep :: b) = a :: stringsSplit sep b := by
  induction a with
  | nil => simp [stringsSplit]
  | cons c cs ih =>
    have hc : c ≠ sep := fun e => h (e ▸ List.mem_cons_self _ _)
    have hcs : sep ∉ cs := fun e => h (List.mem_cons_of_mem _ e)
    have e : stringsSplit sep (c :: (cs ++ sep :: b)) =
        (match stringsSplit sep (cs ++ sep :: b) with
          | [] => [[c]]
          | h :: t => (c :: h) :: t) := by
      rw [stringsSplit, if_neg hc]
    rw [List.cons_append, e, ih hcs]

theorem sepPrjFolder_single (s : String) (h : '/' ∉ s.data) : sepPrjFolder s = (s, "") := by
  unfold sepPrjFolder
  rw [stringsSplit_of_not_mem _ _ h]

theorem sepPrjFolder_two (pre mid : String) (hpre : '/' ∉ pre.data) (hmid : '/' ∉ mid.data) :
    sepPrjFolder (pre ++ "/" ++ mid) = (pre, mid) := by
  unfold sepPrjFolder
  have hd : (pre ++ "/" ++ mid).data = pre.data ++ '/' :: mid.data := by
    simp [String.data_append]
  rw [hd, stringsSplit_append _ _ _ hpre, stringsSplit_of_not_mem _ _ hmid]

theorem sepPrjFolder_more (pre mid rest : String) (hpre : '/' ∉ pre.data)
    (hmid : '/' ∉ mid.data) :
    sepPrjFolder (pre ++ "/" ++ mid ++ "/" ++ rest) = (pre, mid) := by
  unfold sepPrjFolder
  have hd : (pre ++ "/" ++ mid ++ "/" ++ rest).data =
      pre.data ++ '/' :: (mid.data ++ '/' :: rest.data) := by
    simp [String.data_append]
  rw [hd, stringsSplit_append _ _ _ hpre, stringsSplit_append _ _ _ hmid]

theorem containsWrite_write : containsWrite "write" :=
  (stringsIndex_write_iff "write").mp (by decide)

/-- C4 fails as stated: the path `A/B/C` is split into project `A` and folder `B`,
not folder `B/C`. In a tree whose project `A` has a writable, empty folder named
`B/C`, `FzFindFolder` returns the empty folder and `CanUpload` returns false. -/
theorem sepPrjFolder_first_separator_counterexample :
    sepPrjFolder "A/B/C" = ("A", "B") ∧
    (matchingFolders slashResp.ProjectList "A" "B/C").head? =
      some { Name := "B/C", Access := "write", ID := "7" } ∧
    FzFindFolder slashFz "A/B/C" = .ok (some {}) ∧
    (grantsWrite slashResp.ProjectList "A" "B/C" ∧
      ¬ collides slashResp.ProjectList "A" "B/C" "x.txt") ∧
    CanUpload slashFz "A/B/C" "x.txt" = .ok false :=
  ⟨by decide, by decide, by decide,
    ⟨⟨_, List.mem_cons_self _ _, rfl, _, List.mem_cons_self _ _, rfl, containsWrite_write⟩,
      by unfold collides; decide⟩,
    by decide⟩

/-- C4 (amended): for a path with at least one "/", written `pre/mid` or
`pre/mid/rest` with no "/" in `pre` and `mid`, the project is `pre`, the text
before the first "/", and the folder is `mid`, the text between the first "/" and
the second "/" (all of the text after the first "/" when there is no second one);
`FzFindFolder` and `CanUpload` address folder `mid` of project `pre`. -/
theorem sepPrjFolder_with_separator (fz : FzAPI) (resp : XMLFileZen)
    (path pre mid rest file : String)
    (hpre : '/' ∉ pre.data) (hmid : '/' ∉ mid.data)
    (hpath : path = pre ++ "/" ++ mid ∨ path = pre ++ "/" ++ mid ++ "/" ++ rest) :
    sepPrjFolder path = (pre, mid) ∧
    FzFindFolder { fz with LastResp := some resp } path =
      .ok (some ((matchingFolders resp.ProjectList pre mid).head?.getD {})) ∧
    (CanUpload { fz with LastResp := some resp } path file = .ok true ↔
      grantsWrite resp.ProjectList pre mid ∧ ¬ collides resp.ProjectList pre mid file) := by
  have hs : sepPrjFolder path = (pre, mid) := by
    rcases hpath with h | h
    · rw [h]; exact sepPrjFolder_two pre mid hpre hmid
    · rw [h]; exact sepPrjFolder_more pre mid rest hpre hmid
  have hf := FzFindFolder_eq { fz with LastResp := some resp } resp rfl path
  have hc := (CanUpload_ok_true_iff { fz with LastResp := some resp } resp rfl path file).2
  rw [hs] at hf hc
  exact ⟨hs, hf, hc⟩

/-- C4 (amended) at the path `A/B/C`. -/
theorem sepPrjFolder_with_separator_witness :
    '/' ∉ ("A" : String).data ∧ '/' ∉ ("B" : String).data ∧
    sepPrjFolder "A/B/C" = ("A", "B") ∧
    FzFindFolder slashFz "A/B/C" =
      .ok (some ((matchingFolders slashResp.ProjectList "A" "B").head?.getD {})) ∧
    (CanUpload slashFz "A/B/C" "x.txt" = .ok true ↔
      grantsWrite slashResp.ProjectList "A" "B" ∧
        ¬ collides slashResp.ProjectList "A" "B" "x.txt") :=
  ⟨by decide, by decide,
    sepPrjFolder_with_separator slashFz slashResp "A/B/C" "A" "B" "C" "x.txt"
      (by decide) (by decide) (Or.inr (by decide))⟩

/-- C5 fails as stated: the single segment `F` is split into project `F` and the
folder with the empty name, not folder `F` of the project with the empty name. In a
tree holding both, `FzFindFolder` returns the folder with the empty name of project
`F` (ID 9), not folder `F` of the project with the empty name (ID 8). -/
theorem sepPrjFolder_single_segment_counterexample :
    sepPrjFolder "F" = ("F", "") ∧
    (matchingFolders slashResp.ProjectList "" "F").head? =
      some { Name := "F", Access := "write", ID := "8" } ∧
    FzFindFolder slashFz "F" = .ok (some { Name := "", Access := "write", ID := "9" }) :=
  ⟨by decide, by decide, by decide⟩

/-- C5 (amended): for a path `s` with no "/", `sepPrjFolder` gives project `s` and
the empty folder name; `FzFindFolder` and `CanUpload` address the folder with the
empty name inside the project named `s`. -/
theorem sepPrjFolder_single_segment (fz : FzAPI) (resp : XMLFileZen) (s file : String)
    (hs : '/' ∉ s.data) :
    sepPrjFolder s = (s, "") ∧
    FzFindFolder { fz with LastResp := some resp } s =
      .ok (some ((matchingFolders resp.ProjectList s "").head?.getD {})) ∧
    (CanUpload { fz with LastResp := some resp } s file = .ok true ↔
      grantsWrite resp.ProjectList s "" ∧ ¬ collides resp.ProjectList s "" file) := by
  have h := sepPrjFolder_single s hs
  have hf := FzFindFolder_eq { fz with LastResp := some resp } resp rfl s
  have hc := (CanUpload_ok_true_iff { fz with LastResp := some resp } resp rfl s file).2
  rw [h] at hf hc
  exact ⟨h, hf, hc⟩

/-- C5 (amended) at the path `F`. -/
theorem sepPrjFolder_single_segment_witness :
    '/' ∉ ("F" : String).data ∧
    sepPrjFolder "F" = ("F", "") ∧
    FzFindFolder slashFz "F" =
      .ok (some ((matchingFolders slashResp.ProjectList "F" "").head?.getD {})) ∧
    (CanUpload slashFz "F" "x.txt" = .ok true ↔
      grantsWrite slashResp.ProjectList "F" "" ∧
        ¬ collides slashResp.ProjectList "F" "" "x.txt") :=
  ⟨by decide, sepPrjFolder_single_segment slashFz slashResp "F" "x.txt" (by decide)⟩

/-! ## C7, C8: `FzFindFile` -/

theorem findFileInFiles_eq (file : String) (fs : List XMLFile) :
    findFileInFiles file fs =
      (fs.filter (fun f => f.Name = file)).head?.map (fun f => f.Key) := by
  induction fs with
  | nil => rfl
  | cons f fs ih =>
    unfold findFileInFiles
    by_cases h : f.Name = file
    · simp [List.filter_cons, h]
    · simp [List.filter_cons, h, ih]

theorem findFileInFolders_eq (folder file : String) (ds : List XMLFolder) :
    findFileInFolders folder file ds =
      (((ds.filter (fun d => d.Name = folder)).flatMap (fun d => d.FileList)).filter
        (fun f => f.Name = file)).head?.map (fun f => f.Key) := by
  induction ds with
  | nil => rfl
  | cons d ds ih =>
    unfold findFileInFolders
    by_cases h : d.Name = folder
    · rw [if_pos h, findFileInFiles_eq, ih]
      simp only [List.filter_cons, h, decide_True, if_true, List.flatMap_cons,
        List.filter_append, List.head?_append]
      cases (List.filter (fun f => decide (f.Name = file)) d.FileList).head? <;> simp
    · rw [if_neg h, ih]
      simp [List.filter_cons, h]

theorem matchingFiles_cons (p : XMLProject) (ps : List XMLProject) (prj folder file : String) :
    matchingFiles (p :: ps) prj folder file =
      (if p.Name = prj then
        ((p.FolderList.filter (fun d => d.Name = folder)).flatMap (fun d => d.FileList)).filter
          (fun f => f.Name = file)
       else []) ++ matchingFiles ps prj folder file := by
  unfold matchingFiles
  rw [matchingFolders_cons]
  by_cases h : p.Name = prj
  · simp [h, List.flatMap_append]
  · simp [h]

theorem findFileInProjects_eq (prj folder file : String) (ps : List XMLProject) :
    findFileInProjects prj folder file ps =
      (matchingFiles ps prj folder file).head?.map (fun f => f.Key) := by
  induction ps with
  | nil => rfl
  | cons p ps ih =>
    unfold findFileInProjects
    rw [matchingFiles_cons]
    by_cases h : p.Name = prj
    · rw [if_pos h, if_pos h, findFileInFolders_eq, ih, List.head?_append]
      cases (List.filter (fun f => decide (f.Name = file))
        (List.flatMap (List.filter (fun d => decide (d.Name = folder)) p.FolderList)
          (fun d => d.FileList))).head? <;> simp
    · rw [if_neg h, if_neg h, ih]
      simp

theorem mem_matchingFiles (tree : List XMLProject) (prj folder file : String) (f : XMLFile) :
    f ∈ matchingFiles tree prj folder file ↔
      ∃ p ∈ tree, p.Name = prj ∧ ∃ d ∈ p.FolderList, d.Name = folder ∧
        f ∈ d.FileList ∧ f.Name = file := by
  unfold matchingFiles
  simp only [List.mem_filter, List.mem_flatMap, decide_eq_true_eq, mem_matchingFolders]
  constructor
  · rintro ⟨⟨d, ⟨p, hp, hn, hd, hdn⟩, hf⟩, hfn⟩
    exact ⟨p, hp, hn, d, hd, hdn, hf, hfn⟩
  · rintro ⟨p, hp, hn, d, hd, hdn, hf, hfn⟩
    exact ⟨⟨d, ⟨p, hp, hn, hd, hdn⟩, hf⟩, hfn⟩

/-- What `FzFindFile` returns on a stored response. -/
theorem FzFindFile_eq (fz : FzAPI) (resp : XMLFileZen) (h : fz.LastResp = some resp)
    (prj folder file : String) :
    FzFindFile fz prj folder file =
      .ok (((matchingFiles resp.ProjectList prj folder file).head?.map
        (fun f => f.Key)).getD "") := by
  unfold FzFindFile
  rw [h]
  simp only
  rw [findFileInProjects_eq]
  cases (matchingFiles resp.ProjectList prj folder file).head? <;> rfl

/-- C7: on every cached tree `FzFindFile` returns the Key of the first file, in
project, folder, file order, whose name is exactly `file` inside a folder named
`folder` of a project named `prj`; it returns the empty string exactly when there is
no such file or when that first file has an empty Key. -/
theorem FzFindFile_result (fz : FzAPI) (resp : XMLFileZen) (prj folder file : String) :
    (∀ f, f ∈ matchingFiles resp.ProjectList prj folder file ↔
      ∃ p ∈ resp.ProjectList, p.Name = prj ∧ ∃ d ∈ p.FolderList, d.Name = folder ∧
        f ∈ d.FileList ∧ f.Name = file) ∧
    FzFindFile { fz with LastResp := some resp } prj folder file =
      .ok (((matchingFiles resp.ProjectList prj folder file).head?.map
        (fun f => f.Key)).getD "") ∧
    (FzFindFile { fz with LastResp := some resp } prj folder file = .ok "" ↔
      matchingFiles resp.ProjectList prj folder file = [] ∨
      ∃ f, (matchingFiles resp.ProjectList prj folder file).head? = some f ∧ f.Key = "") := by
  have hf := FzFindFile_eq { fz with LastResp := some resp } resp rfl prj folder file
  refine ⟨mem_matchingFiles _ _ _ _, hf, ?_⟩
  rw [hf]
  cases hm : matchingFiles resp.ProjectList prj folder file with
  | nil => simp
  | cons f fs => simp

/-- C8: on every cached tree, for a project name `p` and a folder name `f` with no
"/", if `FzFindFile(p, f, n)` returns a non-empty key then `CanUpload(p + "/" + f, n)`
returns false. -/
theorem FzFindFile_found_not_uploadable (fz : FzAPI) (resp : XMLFileZen) (p f n k : String)
    (hp : '/' ∉ p.data) (hf : '/' ∉ f.data)
    (hk : FzFindFile { fz with LastResp := some resp } p f n = .ok k) (hne : k ≠ "") :
    CanUpload { fz with LastResp := some resp } (p ++ "/" ++ f) n = .ok false := by
  have h1 := FzFindFile_eq { fz with LastResp := some resp } resp rfl p f n
  rw [h1] at hk
  have hm : ∃ x, x ∈ matchingFiles resp.ProjectList p f n := by
    cases hl : matchingFiles resp.ProjectList p f n with
    | nil =>
      rw [hl] at hk
      simp only [List.head?_nil, Option.map_none', Option.getD_none, GoResult.ok.injEq] at hk
      exact absurd hk.symm hne
    | cons x xs => exact ⟨x, List.mem_cons_self _ _⟩
  obtain ⟨x, hx⟩ := hm
  obtain ⟨q, hq, hqn, d, hd, hdn, hxd, hxn⟩ := (mem_matchingFiles _ _ _ _ _).mp hx
  have hc := CanUpload_ok_true_iff { fz with LastResp := some resp } resp rfl (p ++ "/" ++ f) n
  rw [sepPrjFolder_two p f hp hf] at hc
  rcases hc.1 with h2 | h2
  · exact absurd ⟨q, hq, hqn, d, hd, hdn, x, hxd, hxn⟩ (hc.2.mp h2).2
  · exact h2

/-- C8 at the sample session: `x.txt` is found in `ProjectA/FolderB` with key `k1`. -/
theorem FzFindFile_found_not_uploadable_witness :
    '/' ∉ ("ProjectA" : String).data ∧ '/' ∉ ("FolderB" : String).data ∧
    FzFindFile sampleFz "ProjectA" "FolderB" "x.txt" = .ok "k1" ∧ "k1" ≠ "" ∧
    CanUpload sampleFz ("ProjectA" ++ "/" ++ "FolderB") "x.txt" = .ok false :=
  ⟨by decide, by decide, by decide, by decide,
    FzFindFile_found_not_uploadable sampleFz sampleResp "ProjectA" "FolderB" "x.txt" "k1"
      (by decide) (by decide) (by decide) (by decide)⟩

/-! ## C9: upload strategy selection -/

theorem syncFolderUpload_le (s : Int) (h : s ≤ 52428800) : syncFolderUpload s = .FzUpload := by
  unfold syncFolderUpload
  rw [if_neg (by omega)]

theorem syncFolderUpload_gt (s : Int) (h : s > 52428800) : syncFolderUpload s = .FzPlUpload := by
  unfold syncFolderUpload
  rw [if_pos (by omega)]

/-- C9: for every local file size `s`, `syncFolder` calls `FzUpload` (single-shot)
exactly when `s ≤ 52428800` and `FzPlUpload` (chunked) exactly when `s > 52428800`;
a file of exactly 52428800 bytes is sent single-shot. The call `syncFolder` makes for
`s ≤ 52428800` is the one call of `FzUpload`, which on a stored response hands
exactly one request to `fz.client.Do` once its local steps succeed, whatever the
buffer holds and the network answers, and never more than one in any case. -/
theorem syncFolderUpload_threshold (s : Int) :
    (syncFolderUpload s = .FzUpload ↔ s ≤ 52428800) ∧
    (syncFolderUpload s = .FzPlUpload ↔ s > 52428800) ∧
    syncFolderUpload 52428800 = .FzUpload ∧
    (∀ gBody fz xmlUnmarshal base up pl fuel f folderID bf com notifyTo notifyMode,
      s ≤ 52428800 →
      syncFolderTransfer gBody fz xmlUnmarshal base s up pl fuel f folderID bf com notifyTo
          notifyMode =
        some (FzUpload gBody fz xmlUnmarshal base up f folderID bf com notifyTo notifyMode)) ∧
    (∀ gBody fz xmlUnmarshal base up pl fuel f folderID bf com notifyTo notifyMode,
      s > 52428800 →
      syncFolderTransfer gBody fz xmlUnmarshal base s up pl fuel f folderID bf com notifyTo
          notifyMode =
        FzPlUpload gBody fz xmlUnmarshal base pl fuel f folderID bf com notifyTo notifyMode) ∧
    (∀ (gBody : List BodyPiece) (fz : FzAPI) (last : XMLFileZen) xmlUnmarshal base net nRead
        f folderID bf com notifyTo notifyMode,
      ∃ fz1 req err g,
        FzUpload gBody { fz with LastResp := some last } xmlUnmarshal base
          ⟨none, none, none, net, nRead⟩ f folderID bf com notifyTo notifyMode =
        .ok ⟨fz1, [req], err, g⟩) ∧
    (∀ gBody fz xmlUnmarshal base up f folderID bf com notifyTo notifyMode r,
      FzUpload gBody fz xmlUnmarshal base up f folderID bf com notifyTo notifyMode = .ok r →
      r.requests.length ≤ 1) := by
  refine ⟨?_, ?_, by decide, ?_, ?_, ?_, ?_⟩
  · constructor
    · intro hx
      by_contra hc
      rw [syncFolderUpload_gt s (by omega)] at hx
      cases hx
    · exact syncFolderUpload_le s
  · constructor
    · intro hx
      by_contra hc
      rw [syncFolderUpload_le s (by omega)] at hx
      cases hx
    · exact syncFolderUpload_gt s
  · intro gBody fz xmlUnmarshal base up pl fuel f folderID bf com notifyTo notifyMode h
    simp only [syncFolderTransfer, syncFolderUpload_le s h]
  · intro gBody fz xmlUnmarshal base up pl fuel f folderID bf com notifyTo notifyMode h
    simp only [syncFolderTransfer, syncFolderUpload_gt s h]
  · intro gBody fz last xmlUnmarshal base net nRead f folderID bf com notifyTo notifyMode
    cases net with
    | error e => exact ⟨_, _, _, _, rfl⟩
    | ok resp => exact ⟨_, _, _, _, rfl⟩
  · intro gBody fz xmlUnmarshal base up f folderID bf com notifyTo notifyMode r h
    unfold FzUpload at h
    split at h
    · cases h; simp
    · split at h
      · cases h; simp
      · split at h
        · cases h
        · split at h
          · cases h; simp
          · split at h <;> (cases h; simp)

/-- C9 at a file of exactly 52428800 bytes on the session with token `T1`: the call
made is the one call of `FzUpload`. -/
theorem syncFolderUpload_threshold_witness :
    (52428800 : Int) ≤ 52428800 ∧
    syncFolderTransfer [] tokenFz sampleUnmarshal (fun _ => "x.txt") 52428800
        ⟨none, none, none, .ok { body := "ok2" }, 100⟩
        ⟨none, 52428800, none, "4711", allChunksSent, .ok { body := "ok2" }⟩ 4
        "/data/x.txt" "12" "x.txt" "c" "" "" =
      some (FzUpload [] tokenFz sampleUnmarshal (fun _ => "x.txt")
        ⟨none, none, none, .ok { body := "ok2" }, 100⟩ "/data/x.txt" "12" "x.txt" "c" "" "") :=
  ⟨by decide,
    (syncFolderUpload_threshold 52428800).2.2.2.1 [] tokenFz sampleUnmarshal
      (fun _ => "x.txt") ⟨none, none, none, .ok { body := "ok2" }, 100⟩
      ⟨none, 52428800, none, "4711", allChunksSent, .ok { body := "ok2" }⟩ 4
      "/data/x.txt" "12" "x.txt" "c" "" "" (by decide)⟩

/-! ## The chunk loop of `FzPlUpload` as a sequence of calls -/

theorem wrapInt64_eq (x : Int) (h1 : -9223372036854775808 ≤ x)
    (h2 : x < 9223372036854775808) : wrapInt64 x = x := by
  unfold wrapInt64
  omega

theorem plUploadChunks_eq (s : Int) (h0 : 0 ≤ s) (h1 : s < 9223372036854775808) :
    plUploadChunks s = (s + 52428799) / 52428800 := by
  unfold plUploadChunks nChunkSize
  rw [Int.tdiv_eq_ediv h0 (by decide), Int.tmod_eq_emod h0 (by decide)]
  by_cases h : s % (1024 * 1024 * 50) ≠ 0
  · rw [if_pos h, wrapInt64_eq _ (by omega) (by omega)]
    omega
  · rw [if_neg h]
    omega

theorem ceil_chunks_eq (s : Int) :
    ⌈(s : ℚ) / 52428800⌉ = (s + 52428799) / 52428800 := by
  rw [Int.ceil_eq_iff]
  have h1 : ((s + 52428799) / 52428800 - 1) * 52428800 < s := by omega
  have h2 : s ≤ ((s + 52428799) / 52428800) * 52428800 := by omega
  constructor
  · rw [lt_div_iff₀ (by norm_num)]
    exact_mod_cast h1
  · rw [div_le_iff₀ (by norm_num)]
    exact_mod_cast h2

/-- The loop run from the state reached after `k` chunks: when every call succeeds
and the fuel exceeds the number of chunks left, it completes, having added the
calls for the positions `k`, `k + 1`, ... below the chunk count. -/
theorem plUploadLoop_completed (part : PartCall → PartResult) (hok : ∀ c, part c = .ok)
    (fr folderID : String) (s chunks : Int) (h0 : 0 ≤ s) (h1 : s < 9223372036854775808) :
    ∀ (fuel k : Nat) (calls : List PartCall),
      ((s + 52428799) / 52428800).toNat - k < fuel →
      plUploadLoop part fr folderID s chunks fuel (min ((k : Int) * 52428800) s)
          ((k : Int) + 1) calls =
        .completed (calls ++ (List.range' k (((s + 52428799) / 52428800).toNat - k)).map
          (partAt fr folderID s chunks)) := by
  intro fuel
  induction fuel with
  | zero =>
    intro k calls hf
    exact absurd hf (Nat.not_lt_zero _)
  | succ fuel ih =>
    intro k calls hf
    unfold plUploadLoop
    by_cases hlt : min ((k : Int) * 52428800) s < s
    · rw [if_pos hlt]
      have hk : (k : Int) * 52428800 < s := by omega
      have hmin : min ((k : Int) * 52428800) s = (k : Int) * 52428800 := by omega
      simp only [hok, nChunkSize]
      rw [hmin, wrapInt64_eq (s - (k : Int) * 52428800) (by omega) (by omega)]
      have hsend : (if s - (k : Int) * 52428800 < 1024 * 1024 * 50
          then s - (k : Int) * 52428800 else 1024 * 1024 * 50) =
          min (s - (k : Int) * 52428800) 52428800 := by
        split_ifs <;> omega
      rw [hsend, wrapInt64_eq ((k : Int) + 1 + 1) (by omega) (by omega),
        wrapInt64_eq _ (by omega) (by omega)]
      have hn : (k : Int) * 52428800 + min (s - (k : Int) * 52428800) 52428800 =
          min (((k + 1 : Nat) : Int) * 52428800) s := by
        push_cast; omega
      have hc : (k : Int) + 1 + 1 = ((k + 1 : Nat) : Int) + 1 := by push_cast; ring
      rw [hn, hc, ih (k + 1) _ (by omega)]
      have hr : ((s + 52428799) / 52428800).toNat - k =
          (((s + 52428799) / 52428800).toNat - (k + 1)) + 1 := by omega
      rw [hr, List.range'_succ, List.map_cons, List.append_assoc]
      rfl
    · rw [if_neg hlt]
      have hk : ((s + 52428799) / 52428800).toNat - k = 0 := by omega
      rw [hk]
      simp

/-- What the chunk phase does when every call succeeds. -/
theorem FzPlUploadParts_completed (part : PartCall → PartResult) (hok : ∀ c, part c = .ok)
    (fr folderID : String) (s : Int) (h0 : 0 ≤ s) (h1 : s < 9223372036854775808)
    (fuel : Nat) (hfuel : ((s + 52428799) / 52428800).toNat < fuel) :
    FzPlUploadParts part fr folderID s fuel =
      .completed ((List.range' 0 ((s + 52428799) / 52428800).toNat).map
        (partAt fr folderID s ((s + 52428799) / 52428800))) := by
  unfold FzPlUploadParts
  have h := plUploadLoop_completed part hok fr folderID s (plUploadChunks s) h0 h1 fuel 0 []
    (by omega)
  have hm : min (((0 : Nat) : Int) * 52428800) s = 0 := by omega
  rw [hm] at h
  rw [plUploadChunks_eq s h0 h1] at h ⊢
  simpa using h

/-! ## C14, C15, C16: the notification fields -/

theorem stringsIndex_ne_iff (s sub : String) :
    stringsIndex s sub ≠ -1 ↔ containsText s sub := by
  unfold stringsIndex containsText
  rw [stringsIndexFrom_ne_iff]
  constructor
  · rintro ⟨a, b, hab⟩
    refine ⟨String.mk a, String.mk b, ?_⟩
    apply String.ext
    simp [String.data_append, ← hab]
  · rintro ⟨pre, post, hs⟩
    refine ⟨pre.data, post.data, ?_⟩
    rw [hs]
    simp [String.data_append]

theorem not_containsText_empty_ALL : ¬ containsText "" "ALL" :=
  fun h => absurd ((stringsIndex_ne_iff "" "ALL").mpr h) (by decide)

/-- C14: for every recipient spec `r`, the request of `FzUpload` and the commit
request of `FzPlUpload` both carry `mail_send` "1" when `r` contains "ALL", "0" when
`r` is empty, and "2" when `r` is non-empty and does not contain "ALL"; so always
one of the three. -/
theorem mail_send_encoding (r validKey filename folderID regName comment fr m : String) :
    (containsText r "ALL" →
      fieldOf (FzUploadFields validKey folderID regName comment r m) "mail_send" = some "1" ∧
      fieldOf (FzPlUploadCommitValues validKey filename folderID regName comment fr r m)
        "mail_send" = some "1") ∧
    (r = "" →
      fieldOf (FzUploadFields validKey folderID regName comment r m) "mail_send" = some "0" ∧
      fieldOf (FzPlUploadCommitValues validKey filename folderID regName comment fr r m)
        "mail_send" = some "0") ∧
    (r ≠ "" → ¬ containsText r "ALL" →
      fieldOf (FzUploadFields validKey folderID regName comment r m) "mail_send" = some "2" ∧
      fieldOf (FzPlUploadCommitValues validKey filename folderID regName comment fr r m)
        "mail_send" = some "2") := by
  refine ⟨?_, ?_, ?_⟩
  · intro h
    have h1 := (stringsIndex_ne_iff r "ALL").mpr h
    simp [fieldOf, FzUploadFields, FzPlUploadCommitValues, h1]
  · intro h
    subst h
    have h1 : ¬ stringsIndex "" "ALL" ≠ -1 := by decide
    simp [fieldOf, FzUploadFields, FzPlUploadCommitValues, h1]
  · intro hne h
    have h1 : ¬ stringsIndex r "ALL" ≠ -1 := fun hx => h ((stringsIndex_ne_iff r "ALL").mp hx)
    simp [fieldOf, FzUploadFields, FzPlUploadCommitValues, h1, hne]

/-- C14 at the recipient spec `user@example.com`: non-empty, without "ALL". -/
theorem mail_send_encoding_witness :
    ("user@example.com" : String) ≠ "" ∧ ¬ containsText "user@example.com" "ALL" ∧
    fieldOf (FzUploadFields "T1" "12" "x.txt" "c" "user@example.com" "") "mail_send" =
      some "2" ∧
    fieldOf (FzPlUploadCommitValues "T1" "x.txt" "12" "x.txt" "c" "7" "user@example.com" "")
      "mail_send" = some "2" :=
  ⟨by decide,
    fun h => absurd ((stringsIndex_ne_iff "user@example.com" "ALL").mpr h) (by decide),
    (mail_send_encoding "user@example.com" "T1" "x.txt" "12" "x.txt" "c" "7" "").2.2
      (by decide)
      (fun h => absurd ((stringsIndex_ne_iff "user@example.com" "ALL").mpr h) (by decide))⟩

/-- C15 fails as stated: the spec `ALL,user@example.com` is non-empty and different
from "ALL", and both requests carry `mail_send` "1", not "2". -/
theorem mail_send_other_spec_counterexample :
    ("ALL,user@example.com" : String) ≠ "" ∧ ("ALL,user@example.com" : String) ≠ "ALL" ∧
    fieldOf (FzUploadFields "T1" "12" "x.txt" "c" "ALL,user@example.com" "") "mail_send" =
      some "1" ∧
    fieldOf (FzPlUploadCommitValues "T1" "x.txt" "12" "x.txt" "c" "7" "ALL,user@example.com" "")
      "mail_send" = some "1" :=
  ⟨by decide, by decide, by decide, by decide⟩

/-- C15 (amended): for every recipient spec `r`, `mail_send` is "1" when `r` is "ALL"
and whenever `r` contains "ALL", "0" when `r` is empty, and "2" for every non-empty
`r` that does not contain "ALL". -/
theorem mail_send_values (r validKey filename folderID regName comment fr m : String) :
    (r = "ALL" ∨ containsText r "ALL" →
      fieldOf (FzUploadFields validKey folderID regName comment r m) "mail_send" = some "1" ∧
      fieldOf (FzPlUploadCommitValues validKey filename folderID regName comment fr r m)
        "mail_send" = some "1") ∧
    (r = "" →
      fieldOf (FzUploadFields validKey folderID regName comment r m) "mail_send" = some "0" ∧
      fieldOf (FzPlUploadCommitValues validKey filename folderID regName comment fr r m)
        "mail_send" = some "0") ∧
    (r ≠ "" → ¬ containsText r "ALL" →
      fieldOf (FzUploadFields validKey folderID regName comment r m) "mail_send" = some "2" ∧
      fieldOf (FzPlUploadCommitValues validKey filename folderID regName comment fr r m)
        "mail_send" = some "2") := by
  refine ⟨?_, ?_, ?_⟩
  · intro h
    have hc : containsText r "ALL" := by
      rcases h with h | h
      · exact ⟨"", "", by rw [h]; decide⟩
      · exact h
    have h1 := (stringsIndex_ne_iff r "ALL").mpr hc
    simp [fieldOf, FzUploadFields, FzPlUploadCommitValues, h1]
  · intro h
    subst h
    have h1 : ¬ stringsIndex "" "ALL" ≠ -1 := by decide
    simp [fieldOf, FzUploadFields, FzPlUploadCommitValues, h1]
  · intro hne h
    have h1 : ¬ stringsIndex r "ALL" ≠ -1 := fun hx => h ((stringsIndex_ne_iff r "ALL").mp hx)
    simp [fieldOf, FzUploadFields, FzPlUploadCommitValues, h1, hne]

/-- C15 (amended) at the recipient spec `ALL`. -/
theorem mail_send_values_witness :
    fieldOf (FzUploadFields "T1" "12" "x.txt" "c" "ALL" "") "mail_send" = some "1" ∧
    fieldOf (FzPlUploadCommitValues "T1" "x.txt" "12" "x.txt" "c" "7" "ALL" "")
      "mail_send" = some "1" :=
  (mail_send_values "ALL" "T1" "x.txt" "12" "x.txt" "c" "7" "").1 (Or.inl rfl)

/-- C16: for every event spec `m`, whatever the recipient spec and the other
arguments are, the request of `FzUpload` and the commit request of `FzPlUpload`
carry `notify_download` "1" exactly when `m` contains "DOWNLOAD", `notify_alter` "1"
exactly when `m` contains "ALTER" and `notify_delete` "1" exactly when `m` contains
"DELETE"; each field is "0" exactly when `m` does not contain its word. -/
theorem notify_fields (m r validKey filename folderID regName comment fr : String) :
    ((fieldOf (FzUploadFields validKey folderID regName comment r m) "notify_download" =
        some "1" ↔ containsText m "DOWNLOAD") ∧
      (fieldOf (FzUploadFields validKey folderID regName comment r m) "notify_download" =
        some "0" ↔ ¬ containsText m "DOWNLOAD") ∧
      (fieldOf (FzUploadFields validKey folderID regName comment r m) "notify_alter" =
        some "1" ↔ containsText m "ALTER") ∧
      (fieldOf (FzUploadFields validKey folderID regName comment r m) "notify_alter" =
        some "0" ↔ ¬ containsText m "ALTER") ∧
      (fieldOf (FzUploadFields validKey folderID regName comment r m) "notify_delete" =
        some "1" ↔ containsText m "DELETE") ∧
      (fieldOf (FzUploadFields validKey folderID regName comment r m) "notify_delete" =
        some "0" ↔ ¬ containsText m "DELETE")) ∧
    ((fieldOf (FzPlUploadCommitValues validKey filename folderID regName comment fr r m)
        "notify_download" = some "1" ↔ containsText m "DOWNLOAD") ∧
      (fieldOf (FzPlUploadCommitValues validKey filename folderID regName comment fr r m)
        "notify_download" = some "0" ↔ ¬ containsText m "DOWNLOAD") ∧
      (fieldOf (FzPlUploadCommitValues validKey filename folderID regName comment fr r m)
        "notify_alter" = some "1" ↔ containsText m "ALTER") ∧
      (fieldOf (FzPlUploadCommitValues validKey filename folderID regName comment fr r m)
        "notify_alter" = some "0" ↔ ¬ containsText m "ALTER") ∧
      (fieldOf (FzPlUploadCommitValues validKey filename folderID regName comment fr r m)
        "notify_delete" = some "1" ↔ containsText m "DELETE") ∧
      (fieldOf (FzPlUploadCommitValues validKey filename folderID regName comment fr r m)
        "notify_delete" = some "0" ↔ ¬ containsText m "DELETE")) := by
  have hd := stringsIndex_ne_iff m "DOWNLOAD"
  have ha := stringsIndex_ne_iff m "ALTER"
  have hx := stringsIndex_ne_iff m "DELETE"
  have key : ∀ p : Prop, ∀ _ : Decidable p,
      (((if p then "1" else "0" : String) = "1") ↔ p) ∧
      (((if p then "1" else "0" : String) = "0") ↔ ¬ p) := by
    intro p _
    by_cases hp : p
    · simp [hp]
    · simp [hp]
  refine ⟨⟨?_, ?_, ?_, ?_, ?_, ?_⟩, ⟨?_, ?_, ?_, ?_, ?_, ?_⟩⟩ <;>
    simp only [fieldOf, FzUploadFields, FzPlUploadCommitValues] <;>
    simp [key, hd, ha, hx]

/-! ## C17: `ParseXMLResp` -/

/-- C17: for every response whose body is read and decodes to an envelope with
discriminator `r`, `ParseXMLResp` returns no error exactly when `r` is "OK"; for
every other `r`, the empty string included, it returns the error whose message is
exactly `r`. -/
theorem ParseXMLResp_discriminator (fz : FzAPI)
    (xmlUnmarshal : String → Except String XMLFileZen) (resp : HttpResponse)
    (e : XMLFileZen) (hread : resp.readErr = none) (hdec : xmlUnmarshal resp.body = .ok e) :
    ((ParseXMLResp fz xmlUnmarshal resp).2 = none ↔ e.Res = "OK") ∧
    (e.Res ≠ "OK" → (ParseXMLResp fz xmlUnmarshal resp).2 = some e.Res) := by
  unfold ParseXMLResp
  rw [hread]
  simp only [hdec]
  by_cases h : e.Res = "OK"
  · simp [h]
  · simp [h]

/-- C17 at the sample bodies: the envelope `Expired` fails with that message, and an
envelope with the empty discriminator fails with the empty message. -/
theorem ParseXMLResp_discriminator_witness :
    ((ParseXMLResp tokenFz sampleUnmarshal { body := "ng" }).2 = none ↔
      ("Expired" : String) = "OK") ∧
    ((ParseXMLResp tokenFz sampleUnmarshal { body := "ng" }).2 = some "Expired") ∧
    (ParseXMLResp tokenFz (fun _ => .ok { Res := "" }) { body := "x" }).2 = some "" :=
  ⟨(ParseXMLResp_discriminator tokenFz sampleUnmarshal { body := "ng" } { Res := "Expired" }
      rfl rfl).1,
    (ParseXMLResp_discriminator tokenFz sampleUnmarshal { body := "ng" } { Res := "Expired" }
      rfl rfl).2 (by decide),
    by decide⟩

/-! ## C11: the byte counts of the chunks -/

theorem partAt_sizes_sum (fr folderID : String) (s chunks : Int) :
    ∀ (m k : Nat), m = ((s + 52428799) / 52428800).toNat - k →
      (((List.range' k m).map (partAt fr folderID s chunks)).map (fun c => c.nSize)).sum =
        s - min ((k : Int) * 52428800) s := by
  intro m
  induction m with
  | zero =>
    intro k hk
    simp only [List.range'_zero, List.map_nil, List.sum_nil]
    omega
  | succ m ih =>
    intro k hk
    rw [List.range'_succ, List.map_cons, List.map_cons, List.sum_cons, ih (k + 1) (by omega)]
    simp only [partAt]
    push_cast
    omega

theorem partRanges_partAt (fr folderID : String) (s chunks : Int) :
    ∀ (m k : Nat), m = ((s + 52428799) / 52428800).toNat - k →
      partRanges s (min ((k : Int) * 52428800) s)
          ((List.range' k m).map (partAt fr folderID s chunks)) =
        (List.range' k m).map
          (fun (i : Nat) => ((i : Int) * 52428800, min (s - (i : Int) * 52428800) 52428800)) := by
  intro m
  induction m with
  | zero =>
    intro k _
    simp [partRanges]
  | succ m ih =>
    intro k hk
    rw [List.range'_succ, List.map_cons, List.map_cons, partRanges]
    have hk1 : (k : Int) * 52428800 < s := by omega
    have hpos : min ((k : Int) * 52428800) s = (k : Int) * 52428800 := by omega
    have hc : copyN s (min ((k : Int) * 52428800) s) (partAt fr folderID s chunks k).nSize =
        min (s - (k : Int) * 52428800) 52428800 := by
      simp only [copyN, partAt]
      omega
    have hnext : min ((k : Int) * 52428800) s + min (s - (k : Int) * 52428800) 52428800 =
        min (((k + 1 : Nat) : Int) * 52428800) s := by
      push_cast
      omega
    rw [hc, hnext, ih (k + 1) (by omega), hpos]

/-- C11: for every file size `s > 0` (an `int64`), when no chunk request fails, the
byte counts passed to `fzPlUploadPart` partition the file: every call but the last
asks for 52428800 bytes, the last for `s - 52428800 * (N - 1)` bytes, which is more
than 0 and at most 52428800, the counts sum to `s`, and the call at position `i`
(from 0, chunk `i + 1`) copies the bytes that start at offset `52428800 * i`; for
`s` = 120 MiB the counts are 50, 50 and 20 MiB. -/
theorem FzPlUploadParts_byte_ranges (part : PartCall → PartResult) (fr folderID : String)
    (s : Int) (fuel : Nat) (hs : 0 < s) (hmax : s < 2 ^ 63) (hok : ∀ c, part c = .ok)
    (hfuel : ⌈(s : ℚ) / 52428800⌉ < (fuel : Int)) :
    (∃ calls, FzPlUploadParts part fr folderID s fuel = .completed calls ∧
      (calls.length : Int) = ⌈(s : ℚ) / 52428800⌉ ∧
      (∀ i, i + 1 < calls.length → calls[i]?.map (fun c => c.nSize) = some 52428800) ∧
      calls[calls.length - 1]?.map (fun c => c.nSize) =
        some (s - 52428800 * (⌈(s : ℚ) / 52428800⌉ - 1)) ∧
      0 < s - 52428800 * (⌈(s : ℚ) / 52428800⌉ - 1) ∧
      s - 52428800 * (⌈(s : ℚ) / 52428800⌉ - 1) ≤ 52428800 ∧
      (calls.map (fun c => c.nSize)).sum = s ∧
      (∀ i, i < calls.length →
        (partRanges s 0 calls)[i]? =
          calls[i]?.map (fun c => (52428800 * (i : Int), c.nSize)))) ∧
    (∃ calls, FzPlUploadParts part fr folderID 125829120 4 = .completed calls ∧
      calls.map (fun c => c.nSize) = [52428800, 52428800, 20971520]) := by
  have h1 : s < 9223372036854775808 := by norm_num at hmax; exact hmax
  rw [ceil_chunks_eq] at hfuel ⊢
  have hN : 0 < (s + 52428799) / 52428800 := by omega
  constructor
  · refine ⟨_, FzPlUploadParts_completed part hok fr folderID s (le_of_lt hs) h1 fuel
      (by omega), ?_, ?_, ?_, ?_, ?_, ?_, ?_⟩
    · simp only [List.length_map, List.length_range']
      omega
    · intro i hi
      simp only [List.length_map, List.length_range'] at hi
      rw [List.getElem?_map, List.getElem?_range' 0 1 (by omega : i < _)]
      simp only [Option.map_some', partAt]
      congr 1
      push_cast
      omega
    · simp only [List.length_map, List.length_range']
      rw [List.getElem?_map, List.getElem?_range' 0 1 (by omega)]
      simp only [Option.map_some', partAt]
      congr 1
      push_cast
      omega
    · omega
    · omega
    · have h := partAt_sizes_sum fr folderID s ((s + 52428799) / 52428800)
        ((s + 52428799) / 52428800).toNat 0 (by omega)
      rw [h]
      omega
    · intro i hi
      simp only [List.length_map, List.length_range'] at hi
      have h := partRanges_partAt fr folderID s ((s + 52428799) / 52428800)
        ((s + 52428799) / 52428800).toNat 0 (by omega)
      have hz : min (((0 : Nat) : Int) * 52428800) s = 0 := by omega
      rw [hz] at h
      rw [h, List.getElem?_map, List.getElem?_map, List.getElem?_range' 0 1 hi]
      simp only [Option.map_some', partAt, Option.some.injEq, Prod.mk.injEq]
      constructor
      · push_cast; omega
      · trivial
  · have h := FzPlUploadParts_completed part hok fr folderID 125829120 (by decide)
      (by decide) 4 (by decide)
    have e : ((125829120 + 52428799 : Int) / 52428800).toNat = 3 := by decide
    rw [e] at h
    exact ⟨_, h, by simp [List.range', partAt]⟩

/-- C11 at a file of 120 MiB: the counts are 50, 50 and 20 MiB. -/
theorem FzPlUploadParts_byte_ranges_witness :
    (0 : Int) < 125829120 ∧ (125829120 : Int) < 2 ^ 63 ∧
    ⌈((125829120 : Int) : ℚ) / 52428800⌉ < ((4 : Nat) : Int) ∧
    ∃ calls, FzPlUploadParts (fun _ => .ok) "fr" "12" 125829120 4 = .completed calls ∧
      calls.map (fun c => c.nSize) = [52428800, 52428800, 20971520] :=
  ⟨by decide, by decide,
    lt_of_le_of_lt (show ⌈((125829120 : Int) : ℚ) / 52428800⌉ ≤ 3 from
      Int.ceil_le.mpr (by norm_num)) (by decide),
    (FzPlUploadParts_byte_ranges (fun _ => .ok) "fr" "12" 125829120 4 (by decide) (by decide)
      (fun _ => rfl) (lt_of_le_of_lt (show ⌈((125829120 : Int) : ℚ) / 52428800⌉ ≤ 3 from
        Int.ceil_le.mpr (by norm_num)) (by decide))).2⟩

/-! ## The chunk loop of `FzPlUpload` on the buffer -/

/-- On a stored response a call of `fzPlUploadPart` does not panic: it returns the
error of its first failing step and makes at most one request, whose body is the
content of the buffer followed by what the call writes. -/
theorem fzPlUploadPart_ok (g : List BodyPiece) (fz : FzAPI) (last : XMLFileZen)
    (hl : fz.LastResp = some last) (env : PartEnv) (c : PartCall) :
    ∃ r, fzPlUploadPart g fz env c = .ok r ∧ r.err = partErr env ∧
      r.requests.length ≤ 1 ∧
      ∀ q ∈ r.requests, q = Request.buffered (fz.URL ++ "/cgi-bin/index.cgi")
        (g ++ partWritten fz last.ValidKey c ++ [BodyPiece.close]) (some fz.FzSession) := by
  unfold fzPlUploadPart partErr
  rw [hl]
  cases env.createFormFileErr with
  | some e => exact ⟨_, rfl, rfl, by simp, by simp⟩
  | none =>
    cases env.closeErr with
    | some e => exact ⟨_, rfl, rfl, by simp, by simp⟩
    | none =>
      cases env.net with
      | error e => exact ⟨_, rfl, rfl, by simp, by simp⟩
      | ok resp =>
        cases env.bodyCloseErr with
        | some e => exact ⟨_, rfl, rfl, by simp, by simp⟩
        | none => exact ⟨_, rfl, rfl, by simp, by simp⟩

/-- One turn of the loop on the buffer from the state reached after `k` chunks, when
the file has more bytes: the call is the one expected at position `k`. -/
theorem plUploadSend_step (fz : FzAPI) (envs : PartCall → PartEnv) (fr folderID : String)
    (s chunks : Int) (h1 : s < 9223372036854775808) (fuel k : Nat)
    (g : List BodyPiece) (reqs : List Request) (hk : (k : Int) * 52428800 < s) :
    plUploadSend fz envs fr folderID s chunks (fuel + 1) (min ((k : Int) * 52428800) s)
        ((k : Int) + 1) g reqs =
      match fzPlUploadPart g fz (envs (partAt fr folderID s chunks k))
          (partAt fr folderID s chunks k) with
      | .panic => some .panic
      | .ok r =>
        match r.err with
        | some e => some (.ok ⟨reqs ++ r.requests, some e, r.gBody⟩)
        | none => plUploadSend fz envs fr folderID s chunks fuel
            (min (((k + 1 : Nat) : Int) * 52428800) s) (((k + 1 : Nat) : Int) + 1)
            r.gBody (reqs ++ r.requests) := by
  have hmin : min ((k : Int) * 52428800) s = (k : Int) * 52428800 := by omega
  have hsend : (if wrapInt64 (s - (k : Int) * 52428800) < nChunkSize
      then wrapInt64 (s - (k : Int) * 52428800) else nChunkSize) =
      min (s - (k : Int) * 52428800) 52428800 := by
    rw [wrapInt64_eq (s - (k : Int) * 52428800) (by omega) (by omega)]
    unfold nChunkSize
    split_ifs <;> omega
  have hn : wrapInt64 ((k : Int) * 52428800 + min (s - (k : Int) * 52428800) 52428800) =
      min (((k + 1 : Nat) : Int) * 52428800) s := by
    rw [wrapInt64_eq _ (by omega) (by omega)]
    push_cast
    omega
  have hc : wrapInt64 ((k : Int) + 1 + 1) = ((k + 1 : Nat) : Int) + 1 := by
    rw [wrapInt64_eq _ (by omega) (by omega)]
    push_cast
    ring
  rw [plUploadSend, if_pos (by omega), hmin]
  simp only [hsend, hn, hc]
  rfl

/-- The loop on the buffer run from the state reached after `k` chunks, on a stored
response, when the calls before position `j` return no error and the call at
position `j` returns one: it ends right after that call with that error, having
made at most one request for each position from `k` to `j`. -/
theorem plUploadSend_failed (fz : FzAPI) (last : XMLFileZen) (hl : fz.LastResp = some last)
    (envs : PartCall → PartEnv) (fr folderID : String)
    (s chunks : Int) (h1 : s < 9223372036854775808) (j : Nat)
    (hj : (j : Int) * 52428800 < s)
    (hbefore : ∀ i, i < j → partErr (envs (partAt fr folderID s chunks i)) = none)
    (hfail : partErr (envs (partAt fr folderID s chunks j)) ≠ none) :
    ∀ (fuel k : Nat) (g : List BodyPiece) (reqs : List Request), k ≤ j → j - k < fuel →
      ∃ new g2,
        plUploadSend fz envs fr folderID s chunks fuel (min ((k : Int) * 52428800) s)
            ((k : Int) + 1) g reqs =
          some (.ok ⟨reqs ++ new, partErr (envs (partAt fr folderID s chunks j)), g2⟩) ∧
        new.length ≤ j - k + 1 ∧
        ∀ q ∈ new, ∃ i, i ≤ j ∧ ∃ g1,
          q = Request.buffered (fz.URL ++ "/cgi-bin/index.cgi")
            (g1 ++ partWritten fz last.ValidKey (partAt fr folderID s chunks i) ++
              [BodyPiece.close]) (some fz.FzSession) := by
  intro fuel
  induction fuel with
  | zero =>
    intro k g reqs _ hf
    exact absurd hf (Nat.not_lt_zero _)
  | succ fuel ih =>
    intro k g reqs hkj hf
    rw [plUploadSend_step fz envs fr folderID s chunks h1 fuel k g reqs (by omega)]
    obtain ⟨r, hr, herr, hlen, hreq⟩ :=
      fzPlUploadPart_ok g fz last hl (envs (partAt fr folderID s chunks k))
        (partAt fr folderID s chunks k)
    rw [hr]
    by_cases hk : k = j
    · subst hk
      cases he : r.err with
      | none => exact absurd (herr ▸ he) hfail
      | some e =>
        refine ⟨r.requests, r.gBody, ?_, by omega, ?_⟩
        · simp only [he, ← herr]
        · intro q hq
          exact ⟨k, le_refl _, g, hreq q hq⟩
    · have hnone : r.err = none := by rw [herr]; exact hbefore k (by omega)
      simp only [hnone]
      obtain ⟨new, g2, hrun, hnew, hall⟩ := ih (k + 1) r.gBody (reqs ++ r.requests)
        (by omega) (by omega)
      refine ⟨r.requests ++ new, g2, ?_, ?_, ?_⟩
      · rw [hrun, List.append_assoc]
      · simp only [List.length_append]
        omega
      · intro q hq
        rcases List.mem_append.mp hq with hq | hq
        · exact ⟨k, by omega, g, hreq q hq⟩
        · exact hall q hq

/-- The loop on the buffer run from the state reached after `k` chunks, on a stored
response, when no call returns an error and the fuel exceeds the number of chunks
left: it ends with no error. -/
theorem plUploadSend_completed (fz : FzAPI) (last : XMLFileZen)
    (hl : fz.LastResp = some last) (envs : PartCall → PartEnv)
    (hok : ∀ c, partErr (envs c) = none)
    (fr folderID : String) (s chunks : Int) (h0 : 0 ≤ s) (h1 : s < 9223372036854775808) :
    ∀ (fuel k : Nat) (g : List BodyPiece) (reqs : List Request),
      ((s + 52428799) / 52428800).toNat - k < fuel →
      ∃ new g2,
        plUploadSend fz envs fr folderID s chunks fuel (min ((k : Int) * 52428800) s)
            ((k : Int) + 1) g reqs = some (.ok ⟨reqs ++ new, none, g2⟩) ∧
        new.length ≤ ((s + 52428799) / 52428800).toNat - k := by
  intro fuel
  induction fuel with
  | zero =>
    intro k g reqs hf
    exact absurd hf (Nat.not_lt_zero _)
  | succ fuel ih =>
    intro k g reqs hf
    by_cases hlt : (k : Int) * 52428800 < s
    · rw [plUploadSend_step fz envs fr folderID s chunks h1 fuel k g reqs hlt]
      obtain ⟨r, hr, herr, hlen, _⟩ :=
        fzPlUploadPart_ok g fz last hl (envs (partAt fr folderID s chunks k))
          (partAt fr folderID s chunks k)
      have hnone : r.err = none := by rw [herr]; exact hok _
      rw [hr]
      simp only [hnone]
      obtain ⟨new, g2, hrun, hnew⟩ := ih (k + 1) r.gBody (reqs ++ r.requests) (by omega)
      refine ⟨r.requests ++ new, g2, ?_, ?_⟩
      · rw [hrun, List.append_assoc]
      · simp only [List.length_append]
        omega
    · refine ⟨[], g, ?_, by simp⟩
      have hmin : min ((k : Int) * 52428800) s = s := by omega
      rw [plUploadSend, hmin, if_neg (by omega)]
      simp

/-! ## C10, C12: what the chunk requests carry -/

/-- On a stored response and an empty buffer, a call of `fzPlUploadPart` that returns
no error and whose body is read to the end makes its request with what it wrote and
leaves the buffer empty. -/
theorem fzPlUploadPart_clean (fz : FzAPI) (last : XMLFileZen) (hl : fz.LastResp = some last)
    (env : PartEnv) (c : PartCall) (herr : partErr env = none) (hread : 10 ≤ env.nRead) :
    fzPlUploadPart [] fz env c =
      .ok ⟨[cleanPartRequest fz last.ValidKey c], true, none, []⟩ := by
  have hdrop : ([] ++ partWritten fz last.ValidKey c ++ [BodyPiece.close]).drop env.nRead =
      [] := by
    apply List.drop_eq_nil_of_le
    simp [partWritten]
    omega
  unfold partErr at herr
  unfold fzPlUploadPart
  rw [hl]
  cases h1 : env.createFormFileErr with
  | some e =>
    rw [h1] at herr
    cases herr
  | none =>
    rw [h1] at herr
    cases h2 : env.closeErr with
    | some e =>
      rw [h2] at herr
      cases herr
    | none =>
      rw [h2] at herr
      cases h3 : env.net with
      | error e =>
        rw [h3] at herr
        cases herr
      | ok resp =>
        rw [h3] at herr
        cases h4 : env.bodyCloseErr with
        | some e =>
          rw [h4] at herr
          cases herr
        | none =>
          simp only [hdrop]
          rfl

/-- The loop on the buffer run from the state reached after `k` chunks with an empty
buffer, on a stored response, when no call returns an error, every body is read to
the end and the fuel exceeds the number of chunks left: it adds the chunk requests
of the positions `k`, `k + 1`, ... below the chunk count, each with what its call
wrote, and leaves the buffer empty. -/
theorem plUploadSend_clean (fz : FzAPI) (last : XMLFileZen)
    (hl : fz.LastResp = some last) (envs : PartCall → PartEnv)
    (hok : ∀ c, partErr (envs c) = none) (hread : ∀ c, 10 ≤ (envs c).nRead)
    (fr folderID : String) (s chunks : Int) (h0 : 0 ≤ s) (h1 : s < 9223372036854775808) :
    ∀ (fuel k : Nat) (reqs : List Request),
      ((s + 52428799) / 52428800).toNat - k < fuel →
      plUploadSend fz envs fr folderID s chunks fuel (min ((k : Int) * 52428800) s)
          ((k : Int) + 1) [] reqs =
        some (.ok ⟨reqs ++ (List.range' k (((s + 52428799) / 52428800).toNat - k)).map
          (fun i => cleanPartRequest fz last.ValidKey (partAt fr folderID s chunks i)),
          none, []⟩) := by
  intro fuel
  induction fuel with
  | zero =>
    intro k reqs hf
    exact absurd hf (Nat.not_lt_zero _)
  | succ fuel ih =>
    intro k reqs hf
    by_cases hlt : (k : Int) * 52428800 < s
    · rw [plUploadSend_step fz envs fr folderID s chunks h1 fuel k [] reqs hlt,
        fzPlUploadPart_clean fz last hl _ _ (hok _) (hread _)]
      simp only
      rw [ih (k + 1) _ (by omega)]
      have hr : ((s + 52428799) / 52428800).toNat - k =
          (((s + 52428799) / 52428800).toNat - (k + 1)) + 1 := by omega
      rw [hr, List.range'_succ, List.map_cons, List.append_assoc]
      rfl
    · have hmin : min ((k : Int) * 52428800) s = s := by omega
      have hk : ((s + 52428799) / 52428800).toNat - k = 0 := by omega
      rw [plUploadSend, hmin, if_neg (by omega), hk]
      simp

/-- What `FzPlUpload` sends from an empty buffer on a stored response, for a file of
`s ≥ 0` bytes, when no call of `fzPlUploadPart` returns an error and every body is
read to the end: the chunk requests of the positions below `ceil(s / 52428800)`,
each with what its call wrote, then the commit request. -/
theorem FzPlUpload_clean (fz : FzAPI) (last : XMLFileZen)
    (xmlUnmarshal : String → Except String XMLFileZen) (base : String → String)
    (envs : PartCall → PartEnv) (commit : Except String HttpResponse) (fr : String)
    (s : Int) (fuel : Nat)
    (localFile folderID regName comment notifyTo notifyMode : String)
    (hs : 0 ≤ s) (hmax : s < 2 ^ 63) (hok : ∀ c, partErr (envs c) = none)
    (hread : ∀ c, 10 ≤ (envs c).nRead)
    (hfuel : ⌈(s : ℚ) / 52428800⌉ < (fuel : Int)) :
    ∃ fz1 err,
      FzPlUpload [] { fz with LastResp := some last } xmlUnmarshal base
        ⟨none, s, none, fr, envs, commit⟩ fuel
        localFile folderID regName comment notifyTo notifyMode =
      some (.ok ⟨fz1,
        (List.range' 0 ((s + 52428799) / 52428800).toNat).map
          (fun i => cleanPartRequest { fz with LastResp := some last } last.ValidKey
            (partAt fr folderID s ((s + 52428799) / 52428800) i)) ++
        [Request.post (fz.URL ++ "/cgi-bin/index.cgi")
          (FzPlUploadCommitValues last.ValidKey (base localFile) folderID regName comment fr
            notifyTo notifyMode) (some fz.FzSession)], err, []⟩) := by
  have h1 : s < 9223372036854775808 := by norm_num at hmax; exact hmax
  rw [ceil_chunks_eq] at hfuel
  have hrun := plUploadSend_clean { fz with LastResp := some last } last rfl envs hok hread
    fr folderID s (plUploadChunks s) hs h1 fuel 0 [] (by omega)
  have hm : min (((0 : Nat) : Int) * 52428800) s = 0 := by omega
  rw [hm, plUploadChunks_eq s hs h1] at hrun
  simp only [Nat.cast_zero, zero_add, List.nil_append, Nat.sub_zero] at hrun
  cases commit with
  | error e =>
    refine ⟨{ fz with LastResp := some last },
      some ("FzPlUpload - FzSendPostReq Error: " ++ e), ?_⟩
    simp only [FzPlUpload, plUploadChunks_eq s hs h1, hrun]
  | ok resp =>
    refine ⟨(ParseXMLResp { fz with LastResp := some last } xmlUnmarshal resp).1,
      (ParseXMLResp { fz with LastResp := some last } xmlUnmarshal resp).2, ?_⟩
    simp only [FzPlUpload, plUploadChunks_eq s hs h1, hrun]

theorem cleanPartRequest_fields (fz : FzAPI) (k : String) (c : PartCall) :
    (cleanPartRequest fz k c).hasFile = true ∧
    (cleanPartRequest fz k c).valuesOf "chunk" = [toString c.chunk] ∧
    (cleanPartRequest fz k c).valuesOf "chunks" = [toString c.chunks] ∧
    (cleanPartRequest fz k c).valuesOf "fr" = [c.fr] := by
  simp [cleanPartRequest, Request.hasFile, Request.valuesOf, Request.fields, partWritten,
    bodyFields, BodyPiece.isFile]

/-- C10 is broken by the code. From an empty buffer, when no chunk request fails and
every body is read to its end, `FzPlUpload` of a file of `s ≥ 0` bytes makes
`N = ceil(s / 52428800)` chunk requests and then the commit request, and the chunk
request at position `i` (from 0) carries the one `chunk` field `i + 1` and the one
`chunks` field `N`. But the buffer is shared: after an upload of 120 MiB whose
request for chunk 2 was refused before its body was read, the buffer still holds
that chunk's part and fields, and the next `FzPlUpload`, of a file of 10 bytes in
which no chunk request fails, makes a chunk request that carries the `chunk` fields
2, 1 and the `chunks` fields 3, 1: the index and total of the old transfer come
first. -/
theorem chunk_fields_after_refused_chunk :
    (∀ (fz : FzAPI) (last : XMLFileZen) (xmlUnmarshal : String → Except String XMLFileZen)
      (base : String → String) (envs : PartCall → PartEnv)
      (commit : Except String HttpResponse) (fr : String) (s : Int) (fuel : Nat)
      (localFile folderID regName comment notifyTo notifyMode : String),
      0 ≤ s → s < 2 ^ 63 → (∀ c, partErr (envs c) = none) → (∀ c, 10 ≤ (envs c).nRead) →
      ⌈(s : ℚ) / 52428800⌉ < (fuel : Int) →
      ∃ res chunkReqs commitReq,
        FzPlUpload [] { fz with LastResp := some last } xmlUnmarshal base
          ⟨none, s, none, fr, envs, commit⟩ fuel
          localFile folderID regName comment notifyTo notifyMode = some (.ok res) ∧
        res.requests = chunkReqs ++ [commitReq] ∧ commitReq.hasFile = false ∧
        (chunkReqs.length : Int) = ⌈(s : ℚ) / 52428800⌉ ∧
        ∀ (i : Nat) (hi : i < chunkReqs.length),
          (chunkReqs.get ⟨i, hi⟩).hasFile = true ∧
          (chunkReqs.get ⟨i, hi⟩).valuesOf "chunk" = [toString ((i : Int) + 1)] ∧
          (chunkReqs.get ⟨i, hi⟩).valuesOf "chunks" = [toString ⌈(s : ℚ) / 52428800⌉]) ∧
    (∃ reqs, FzPlUpload [] tokenFz sampleUnmarshal (fun _ => "big.bin")
        ⟨none, 125829120, none, "1111", refusedSecondChunk, .ok { body := "ok2" }⟩ 4
        "/data/big.bin" "12" "big.bin" "c" "" "" =
      some (.ok ⟨tokenFz, reqs, some "FzPlUploadPart - POST Error: connection refused",
        leftoverChunk⟩)) ∧
    (∃ fz1 req commit g, FzPlUpload leftoverChunk tokenFz sampleUnmarshal
        (fun _ => "small.bin") ⟨none, 10, none, "2222", allChunksSent, .ok { body := "ok2" }⟩ 2
        "/data/small.bin" "12" "small.bin" "c" "" "" =
      some (.ok ⟨fz1, [req, commit], none, g⟩) ∧
      req.valuesOf "chunk" = ["2", "1"] ∧ req.valuesOf "chunks" = ["3", "1"] ∧
      fieldOf req.fields "chunk" = some "2" ∧ commit.hasFile = false) := by
  refine ⟨?_, ⟨_, rfl⟩, ⟨_, _, _, _, rfl, by decide, by decide, by decide, by decide⟩⟩
  intro fz last xmlUnmarshal base envs commit fr s fuel localFile folderID regName comment
    notifyTo notifyMode hs hmax hok hread hfuel
  obtain ⟨fz1, err, h⟩ := FzPlUpload_clean fz last xmlUnmarshal base envs commit fr s fuel
    localFile folderID regName comment notifyTo notifyMode hs hmax hok hread hfuel
  have h1 : s < 9223372036854775808 := by norm_num at hmax; exact hmax
  rw [ceil_chunks_eq] at hfuel ⊢
  have hN : 0 ≤ (s + 52428799) / 52428800 := by omega
  refine ⟨_, _, _, h, rfl, rfl, ?_, ?_⟩
  · simp only [List.length_map, List.length_range']
    omega
  · intro i hi
    simp only [List.get_eq_getElem, List.getElem_map, List.getElem_range']
    have hc := cleanPartRequest_fields { fz with LastResp := some last } last.ValidKey
      (partAt fr folderID s ((s + 52428799) / 52428800) (0 + 1 * i))
    refine ⟨hc.1, ?_, ?_⟩
    · rw [hc.2.1]
      simp [partAt]
    · rw [hc.2.2.1]
      simp [partAt]

/-- C10, the part that holds, at a file of 120 MiB sent from an empty buffer: three
chunk requests with the indices 1, 2, 3 and the total 3. -/
theorem chunk_fields_after_refused_chunk_witness :
    ((0 : Int) ≤ 125829120 ∧ (125829120 : Int) < 2 ^ 63 ∧
      ⌈((125829120 : Int) : ℚ) / 52428800⌉ < ((4 : Nat) : Int)) ∧
    ∃ res chunkReqs commitReq,
      FzPlUpload [] { tokenFz with LastResp := some { Res := "OK", ValidKey := "T1" } }
        sampleUnmarshal (fun _ => "big.bin")
        ⟨none, 125829120, none, "4711", allChunksSent, .ok { body := "ok2" }⟩ 4
        "/data/big.bin" "12" "big.bin" "c" "" "" = some (.ok res) ∧
      res.requests = chunkReqs ++ [commitReq] ∧ commitReq.hasFile = false ∧
      (chunkReqs.length : Int) = ⌈((125829120 : Int) : ℚ) / 52428800⌉ ∧
      ∀ (i : Nat) (hi : i < chunkReqs.length),
        (chunkReqs.get ⟨i, hi⟩).hasFile = true ∧
        (chunkReqs.get ⟨i, hi⟩).valuesOf "chunk" = [toString ((i : Int) + 1)] ∧
        (chunkReqs.get ⟨i, hi⟩).valuesOf "chunks" =
          [toString ⌈((125829120 : Int) : ℚ) / 52428800⌉] :=
  ⟨⟨by decide, by decide,
      lt_of_le_of_lt (show ⌈((125829120 : Int) : ℚ) / 52428800⌉ ≤ 3 from
        Int.ceil_le.mpr (by norm_num)) (by decide)⟩,
    chunk_fields_after_refused_chunk.1 tokenFz { Res := "OK", ValidKey := "T1" }
      sampleUnmarshal (fun _ => "big.bin") allChunksSent (.ok { body := "ok2" }) "4711"
      125829120 4 "/data/big.bin" "12" "big.bin" "c" "" "" (by decide) (by decide)
      (fun _ => rfl) (fun _ => show 10 ≤ 100 by decide)
      (lt_of_le_of_lt (show ⌈((125829120 : Int) : ℚ) / 52428800⌉ ≤ 3 from
        Int.ceil_le.mpr (by norm_num)) (by decide))⟩

/-- C12 is broken by the code. From an empty buffer, when every chunk request
succeeds and every body is read to its end, the chunk requests of `FzPlUpload` each
have a file part and carry the one `fr` field of the call, and they are followed by
exactly one commit request with no file part whose `fr` is that token, whose
`filename` is the base name of the local path, and whose `ST_current_folder`,
`reg_filename` and `description` are `folderID`, `regName` and `comment`. But the
buffer is shared: after an upload whose request for chunk 2 of the transfer `1111`
was refused before its body was read, the chunk request of the next `FzPlUpload`,
whose token is `2222` and in which every chunk request succeeds, carries the `fr`
fields `1111`, `2222`, the old token first, while its commit request carries
`2222`. -/
theorem transfer_token_after_refused_chunk :
    (∀ (fz : FzAPI) (last : XMLFileZen) (xmlUnmarshal : String → Except String XMLFileZen)
      (base : String → String) (envs : PartCall → PartEnv)
      (commit : Except String HttpResponse) (fr : String) (s : Int) (fuel : Nat)
      (localFile folderID regName comment notifyTo notifyMode : String),
      0 ≤ s → s < 2 ^ 63 → (∀ c, partErr (envs c) = none) → (∀ c, 10 ≤ (envs c).nRead) →
      ⌈(s : ℚ) / 52428800⌉ < (fuel : Int) →
      ∃ res chunkReqs commitReq,
        FzPlUpload [] { fz with LastResp := some last } xmlUnmarshal base
          ⟨none, s, none, fr, envs, commit⟩ fuel
          localFile folderID regName comment notifyTo notifyMode = some (.ok res) ∧
        res.requests = chunkReqs ++ [commitReq] ∧
        (chunkReqs.length : Int) = ⌈(s : ℚ) / 52428800⌉ ∧
        (∀ r ∈ chunkReqs, r.hasFile = true ∧ r.valuesOf "fr" = [fr]) ∧
        commitReq.hasFile = false ∧
        fieldOf commitReq.fields "fr" = some fr ∧
        fieldOf commitReq.fields "filename" = some (base localFile) ∧
        fieldOf commitReq.fields "ST_current_folder" = some folderID ∧
        fieldOf commitReq.fields "reg_filename" = some regName ∧
        fieldOf commitReq.fields "description" = some comment) ∧
    (∃ reqs, FzPlUpload [] tokenFz sampleUnmarshal (fun _ => "big.bin")
        ⟨none, 125829120, none, "1111", refusedSecondChunk, .ok { body := "ok2" }⟩ 4
        "/data/big.bin" "12" "big.bin" "c" "" "" =
      some (.ok ⟨tokenFz, reqs, some "FzPlUploadPart - POST Error: connection refused",
        leftoverChunk⟩)) ∧
    (∃ fz1 req commit g, FzPlUpload leftoverChunk tokenFz sampleUnmarshal
        (fun _ => "small.bin") ⟨none, 10, none, "2222", allChunksSent, .ok { body := "ok2" }⟩ 2
        "/data/small.bin" "12" "small.bin" "c" "" "" =
      some (.ok ⟨fz1, [req, commit], none, g⟩) ∧
      req.valuesOf "fr" = ["1111", "2222"] ∧ fieldOf req.fields "fr" = some "1111" ∧
      fieldOf commit.fields "fr" = some "2222") := by
  refine ⟨?_, ⟨_, rfl⟩, ⟨_, _, _, _, rfl, by decide, by decide, by decide⟩⟩
  intro fz last xmlUnmarshal base envs commit fr s fuel localFile folderID regName comment
    notifyTo notifyMode hs hmax hok hread hfuel
  obtain ⟨fz1, err, h⟩ := FzPlUpload_clean fz last xmlUnmarshal base envs commit fr s fuel
    localFile folderID regName comment notifyTo notifyMode hs hmax hok hread hfuel
  have h1 : s < 9223372036854775808 := by norm_num at hmax; exact hmax
  rw [ceil_chunks_eq] at hfuel ⊢
  have hN : 0 ≤ (s + 52428799) / 52428800 := by omega
  refine ⟨_, _, _, h, rfl, ?_, ?_, ?_⟩
  · simp only [List.length_map, List.length_range']
    omega
  · intro r hr
    simp only [List.mem_map] at hr
    obtain ⟨i, _, hri⟩ := hr
    subst hri
    have hc := cleanPartRequest_fields { fz with LastResp := some last } last.ValidKey
      (partAt fr folderID s ((s + 52428799) / 52428800) i)
    refine ⟨hc.1, ?_⟩
    rw [hc.2.2.2]
    simp [partAt]
  · simp [Request.hasFile, Request.fields, fieldOf, FzPlUploadCommitValues]

/-- C12, the part that holds, at a file of 120 MiB sent from an empty buffer. -/
theorem transfer_token_after_refused_chunk_witness :
    ((0 : Int) ≤ 125829120 ∧ (125829120 : Int) < 2 ^ 63 ∧
      ⌈((125829120 : Int) : ℚ) / 52428800⌉ < ((4 : Nat) : Int)) ∧
    ∃ res chunkReqs commitReq,
      FzPlUpload [] { tokenFz with LastResp := some { Res := "OK", ValidKey := "T1" } }
        sampleUnmarshal (fun _ => "big.bin")
        ⟨none, 125829120, none, "4711", allChunksSent, .ok { body := "ok2" }⟩ 4
        "/data/big.bin" "12" "big.bin" "c" "" "" = some (.ok res) ∧
      res.requests = chunkReqs ++ [commitReq] ∧
      (chunkReqs.length : Int) = ⌈((125829120 : Int) : ℚ) / 52428800⌉ ∧
      (∀ r ∈ chunkReqs, r.hasFile = true ∧ r.valuesOf "fr" = ["4711"]) ∧
      commitReq.hasFile = false ∧
      fieldOf commitReq.fields "fr" = some "4711" ∧
      fieldOf commitReq.fields "filename" = some "big.bin" ∧
      fieldOf commitReq.fields "ST_current_folder" = some "12" ∧
      fieldOf commitReq.fields "reg_filename" = some "big.bin" ∧
      fieldOf commitReq.fields "description" = some "c" :=
  ⟨⟨by decide, by decide,
      lt_of_le_of_lt (show ⌈((125829120 : Int) : ℚ) / 52428800⌉ ≤ 3 from
        Int.ceil_le.mpr (by norm_num)) (by decide)⟩,
    transfer_token_after_refused_chunk.1 tokenFz { Res := "OK", ValidKey := "T1" }
      sampleUnmarshal (fun _ => "big.bin") allChunksSent (.ok { body := "ok2" }) "4711"
      125829120 4 "/data/big.bin" "12" "big.bin" "c" "" "" (by decide) (by decide)
      (fun _ => rfl) (fun _ => show 10 ≤ 100 by decide)
      (lt_of_le_of_lt (show ⌈((125829120 : Int) : ℚ) / 52428800⌉ ≤ 3 from
        Int.ceil_le.mpr (by norm_num)) (by decide))⟩

/-! ## C13: a failing chunk -/

theorem partWritten_hasFile (fz : FzAPI) (k url : String) (c : PartCall)
    (g1 : List BodyPiece) (cookie : Option String) :
    (Request.buffered url (g1 ++ partWritten fz k c ++ [BodyPiece.close]) cookie).hasFile =
      true := by
  simp [Request.hasFile, partWritten, BodyPiece.isFile]

/-- C13 fails as stated: when the request for chunk 1 of a 120 MiB file is answered
with status 500 and a failure envelope, `FzPlUpload` still sends chunks 2 and 3 and
the commit request and returns no error. -/
theorem rejected_chunk_counterexample :
    (firstChunkRejected ⟨52428800, "4711", "12", 1, 3⟩).net =
      .ok { StatusCode := 500, body := "ng" } ∧
    ∃ fz1 r1 r2 r3 commit g, FzPlUpload [] tokenFz sampleUnmarshal
        (fun _ => "big.bin")
        ⟨none, 125829120, none, "4711", firstChunkRejected, .ok { body := "ok2" }⟩ 4
        "/data/big.bin" "12" "big.bin" "c" "" "" =
      some (.ok ⟨fz1, [r1, r2, r3, commit], none, g⟩) ∧
      [r1, r2, r3].map (fun q => q.valuesOf "chunk") = [["1"], ["2"], ["3"]] ∧
      commit.hasFile = false :=
  ⟨rfl, ⟨_, _, _, _, _, _, rfl, by decide, by decide⟩⟩

/-- C13 (amended): in a call of `FzPlUpload` on a stored response, if the calls of
`fzPlUploadPart` before position `j` (from 0) return no error and the call at
position `j`, chunk `k = j + 1`, returns one, then `FzPlUpload` returns that error,
leaves the session as it was, and makes at most `k` requests, each the chunk request
with a file part of a position `i ≤ j`: no later chunk and no commit request. A call
whose request gets a response returns an error only when `CreateFormFile`,
`writer.Close` or `resp.Body.Close` fails: the status and body of the response are
not looked at. -/
theorem FzPlUpload_chunk_failure (gBody : List BodyPiece) (fz : FzAPI) (last : XMLFileZen)
    (xmlUnmarshal : String → Except String XMLFileZen) (base : String → String)
    (envs : PartCall → PartEnv) (commit : Except String HttpResponse) (fr : String)
    (s : Int) (fuel j : Nat)
    (localFile folderID regName comment notifyTo notifyMode : String)
    (hmax : s < 2 ^ 63) (hj : (j : Int) * 52428800 < s)
    (hbefore : ∀ i, i < j →
      partErr (envs (partAt fr folderID s (plUploadChunks s) i)) = none)
    (hfail : partErr (envs (partAt fr folderID s (plUploadChunks s) j)) ≠ none)
    (hfuel : j < fuel) :
    (∃ res,
      FzPlUpload gBody { fz with LastResp := some last } xmlUnmarshal base
        ⟨none, s, none, fr, envs, commit⟩ fuel
        localFile folderID regName comment notifyTo notifyMode = some (.ok res) ∧
      res.err = partErr (envs (partAt fr folderID s (plUploadChunks s) j)) ∧
      res.err ≠ none ∧
      res.fz = { fz with LastResp := some last } ∧
      res.requests.length ≤ j + 1 ∧
      ∀ r ∈ res.requests, r.hasFile = true ∧
        ∃ i, i ≤ j ∧ ∃ g1,
          r = Request.buffered (fz.URL ++ "/cgi-bin/index.cgi")
            (g1 ++ partWritten { fz with LastResp := some last } last.ValidKey
              (partAt fr folderID s (plUploadChunks s) i) ++ [BodyPiece.close])
            (some fz.FzSession)) ∧
    (∀ (env : PartEnv) (resp : HttpResponse), env.net = .ok resp →
      (partErr env ≠ none ↔
        env.createFormFileErr ≠ none ∨ env.closeErr ≠ none ∨ env.bodyCloseErr ≠ none)) := by
  have h1 : s < 9223372036854775808 := by norm_num at hmax; exact hmax
  constructor
  · obtain ⟨new, g2, hrun, hlen, hall⟩ :=
      plUploadSend_failed { fz with LastResp := some last } last rfl envs fr folderID s
        (plUploadChunks s) h1 j hj hbefore hfail fuel 0 gBody [] (Nat.zero_le _) (by omega)
    have hm : min (((0 : Nat) : Int) * 52428800) s = 0 := by omega
    rw [hm] at hrun
    simp only [Nat.cast_zero, zero_add, List.nil_append] at hrun
    cases he : partErr (envs (partAt fr folderID s (plUploadChunks s) j)) with
    | none => exact absurd he hfail
    | some e =>
      rw [he] at hrun
      refine ⟨⟨{ fz with LastResp := some last }, new, some e, g2⟩, ?_, rfl, by simp, rfl,
        by simpa using hlen, ?_⟩
      · simp only [FzPlUpload, hrun]
      · intro r hr
        obtain ⟨i, hi, g1, hq⟩ := hall r hr
        refine ⟨?_, i, hi, g1, hq⟩
        rw [hq]
        exact partWritten_hasFile _ _ _ _ _ _
  · intro env resp hnet
    unfold partErr
    rw [hnet]
    cases env.createFormFileErr <;> cases env.closeErr <;> cases env.bodyCloseErr <;> simp

/-- C13 (amended) at a file of 120 MiB whose second chunk request is refused. -/
theorem FzPlUpload_chunk_failure_witness :
    ((125829120 : Int) < 2 ^ 63 ∧ ((1 : Nat) : Int) * 52428800 < 125829120) ∧
    ∃ res,
      FzPlUpload [] { tokenFz with LastResp := some { Res := "OK", ValidKey := "T1" } }
        sampleUnmarshal (fun _ => "big.bin")
        ⟨none, 125829120, none, "4711", refusedSecondChunk, .ok { body := "ok2" }⟩ 4
        "/data/big.bin" "12" "big.bin" "c" "" "" = some (.ok res) ∧
      res.err = partErr (refusedSecondChunk
        (partAt "4711" "12" 125829120 (plUploadChunks 125829120) 1)) ∧
      res.err ≠ none ∧
      res.fz = { tokenFz with LastResp := some { Res := "OK", ValidKey := "T1" } } ∧
      res.requests.length ≤ 1 + 1 ∧
      ∀ r ∈ res.requests, r.hasFile = true ∧
        ∃ i, i ≤ 1 ∧ ∃ g1,
          r = Request.buffered (tokenFz.URL ++ "/cgi-bin/index.cgi")
            (g1 ++ partWritten { tokenFz with LastResp := some { Res := "OK", ValidKey := "T1" } }
              (XMLFileZen.ValidKey { Res := "OK", ValidKey := "T1" })
              (partAt "4711" "12" 125829120 (plUploadChunks 125829120) i) ++
              [BodyPiece.close])
            (some tokenFz.FzSession) :=
  ⟨⟨by decide, by decide⟩,
    (FzPlUpload_chunk_failure [] tokenFz { Res := "OK", ValidKey := "T1" } sampleUnmarshal
      (fun _ => "big.bin") refusedSecondChunk (.ok { body := "ok2" }) "4711" 125829120 4 1
      "/data/big.bin" "12" "big.bin" "c" "" "" (by decide) (by decide)
      (fun i hi => by
        have h0 : i = 0 := by omega
        subst h0
        decide)
      (by decide) (by decide)).1⟩

/-! ## C18: token rotation -/

theorem ParseXMLResp_ok (fz : FzAPI) (xmlUnmarshal : String → Except String XMLFileZen)
    (resp : HttpResponse) (e : XMLFileZen) (hread : resp.readErr = none)
    (hdec : xmlUnmarshal resp.body = .ok e) (hres : e.Res = "OK") :
    ParseXMLResp fz xmlUnmarshal resp = ({ fz with LastResp := some e }, none) := by
  unfold ParseXMLResp
  rw [hread]
  simp only [hdec, hres, if_true]

theorem tokenOnly_nil (k : String) : tokenOnly k [] := by
  intro v hv
  cases hv

theorem tokenOnly_append (k : String) (g h : List BodyPiece) (hg : tokenOnly k g)
    (hh : tokenOnly k h) : tokenOnly k (g ++ h) := by
  intro v hv
  rcases List.mem_append.mp hv with hv | hv
  · exact hg v hv
  · exact hh v hv

theorem tokenOnly_drop (k : String) (g : List BodyPiece) (n : Nat) (hg : tokenOnly k g) :
    tokenOnly k (g.drop n) := by
  intro v hv
  exact hg v (List.mem_of_mem_drop hv)

theorem tokenOnly_partWritten (fz : FzAPI) (k : String) (c : PartCall) :
    tokenOnly k (partWritten fz k c ++ [BodyPiece.close]) := by
  intro v hv
  simp [partWritten] at hv
  exact hv

theorem tokenOnly_partWritten_open (fz : FzAPI) (k : String) (c : PartCall) :
    tokenOnly k (partWritten fz k c) := by
  intro v hv
  simp [partWritten] at hv
  exact hv

theorem tokenOnly_FzUploadWritten
    (k fileName folderID regName comment notifyTo notifyMode : String) :
    tokenOnly k (FzUploadWritten k fileName folderID regName comment notifyTo notifyMode ++
      [BodyPiece.close]) := by
  intro v hv
  simp [FzUploadWritten, FzUploadFields] at hv
  exact hv

/-- The first `valid_key` field of a buffer that holds only the token `k`, followed
by pieces whose first `valid_key` field is `k`. -/
theorem fieldOf_bodyFields_token (k : String) (g h : List BodyPiece) (hg : tokenOnly k g)
    (hh : fieldOf (bodyFields h) "valid_key" = some k) :
    fieldOf (bodyFields (g ++ h)) "valid_key" = some k := by
  induction g with
  | nil => exact hh
  | cons p rest ih =>
    have hrest : tokenOnly k rest := fun v hv => hg v (List.mem_cons_of_mem _ hv)
    cases p with
    | file a b => exact ih hrest
    | close => exact ih hrest
    | field a b =>
      by_cases ha : a = "valid_key"
      · subst ha
        have hb : b = k := hg b (List.mem_cons_self _ _)
        simp [bodyFields, fieldOf, hb]
      · simp only [List.cons_append, bodyFields, fieldOf, if_neg ha]
        exact ih hrest

theorem partWritten_valid_key (fz : FzAPI) (k : String) (c : PartCall) :
    fieldOf (bodyFields (partWritten fz k c ++ [BodyPiece.close])) "valid_key" = some k := by
  simp [partWritten, bodyFields, fieldOf]

theorem FzUploadWritten_valid_key
    (k fileName folderID regName comment notifyTo notifyMode : String) :
    fieldOf (bodyFields (FzUploadWritten k fileName folderID regName comment notifyTo
      notifyMode ++ [BodyPiece.close])) "valid_key" = some k := by
  simp [FzUploadWritten, FzUploadFields, bodyFields, fieldOf]

/-- On a stored response a call of `fzPlUploadPart` leaves in the buffer only the
token it had and the stored one. -/
theorem fzPlUploadPart_token (g : List BodyPiece) (fz : FzAPI) (last : XMLFileZen)
    (hl : fz.LastResp = some last) (env : PartEnv) (c : PartCall) (r : PartReturn)
    (hr : fzPlUploadPart g fz env c = .ok r) (hg : tokenOnly last.ValidKey g) :
    tokenOnly last.ValidKey r.gBody := by
  have h1 : tokenOnly last.ValidKey (g ++ partWritten fz last.ValidKey c) :=
    tokenOnly_append _ _ _ hg (tokenOnly_partWritten_open fz last.ValidKey c)
  have h2 : tokenOnly last.ValidKey
      (g ++ partWritten fz last.ValidKey c ++ [BodyPiece.close]) := by
    rw [List.append_assoc]
    exact tokenOnly_append _ _ _ hg (tokenOnly_partWritten fz last.ValidKey c)
  unfold fzPlUploadPart at hr
  rw [hl] at hr
  cases hc : env.createFormFileErr with
  | some e =>
    rw [hc] at hr
    cases hr
    exact hg
  | none =>
    rw [hc] at hr
    cases hw : env.closeErr with
    | some e =>
      rw [hw] at hr
      cases hr
      exact h1
    | none =>
      rw [hw] at hr
      cases hn : env.net with
      | error e =>
        rw [hn] at hr
        cases hr
        exact tokenOnly_drop _ _ _ h2
      | ok resp =>
        rw [hn] at hr
        cases hb : env.bodyCloseErr with
        | some e =>
          rw [hb] at hr
          cases hr
          exact tokenOnly_drop _ _ _ h2
        | none =>
          rw [hb] at hr
          cases hr
          exact tokenOnly_drop _ _ _ h2

/-- The shape of what the loop on the buffer adds, on a stored response: it does not
panic, and every request it adds is a chunk request whose body is what the buffer
held followed by what one call wrote; the buffer keeps holding only the stored token
when it did at the start. -/
theorem plUploadSend_shape (fz : FzAPI) (last : XMLFileZen) (hl : fz.LastResp = some last)
    (envs : PartCall → PartEnv) (fr folderID : String) (nT chunks : Int) :
    ∀ (fuel : Nat) (n chunk : Int) (g : List BodyPiece) (reqs : List Request)
      (out : GoResult PartsEnd),
      plUploadSend fz envs fr folderID nT chunks fuel n chunk g reqs = some out →
      ∃ new err g2, out = .ok ⟨reqs ++ new, err, g2⟩ ∧
        ∀ q ∈ new, ∃ c g1,
          q = Request.buffered (fz.URL ++ "/cgi-bin/index.cgi")
            (g1 ++ partWritten fz last.ValidKey c ++ [BodyPiece.close]) (some fz.FzSession) ∧
          (tokenOnly last.ValidKey g → tokenOnly last.ValidKey g1) := by
  intro fuel
  induction fuel with
  | zero =>
    intro n chunk g reqs out h
    rw [plUploadSend] at h
    cases h
  | succ fuel ih =>
    intro n chunk g reqs out h
    rw [plUploadSend] at h
    by_cases hn : n < nT
    · rw [if_pos hn] at h
      obtain ⟨r, hr, _, _, hreq⟩ := fzPlUploadPart_ok g fz last hl
        (envs ⟨if wrapInt64 (nT - n) < nChunkSize then wrapInt64 (nT - n) else nChunkSize,
          fr, folderID, chunk, chunks⟩)
        ⟨if wrapInt64 (nT - n) < nChunkSize then wrapInt64 (nT - n) else nChunkSize,
          fr, folderID, chunk, chunks⟩
      have htok := fzPlUploadPart_token g fz last hl _ _ r hr
      simp only [hr] at h
      cases he : r.err with
      | some e =>
        rw [he] at h
        simp only [Option.some.injEq] at h
        refine ⟨r.requests, some e, r.gBody, h.symm, ?_⟩
        intro q hq
        exact ⟨_, g, hreq q hq, fun hg => hg⟩
      | none =>
        rw [he] at h
        simp only at h
        obtain ⟨new, err, g2, hout, hall⟩ := ih _ _ r.gBody (reqs ++ r.requests) out h
        refine ⟨r.requests ++ new, err, g2, ?_, ?_⟩
        · rw [hout, List.append_assoc]
        · intro q hq
          rcases List.mem_append.mp hq with hq | hq
          · exact ⟨_, g, hreq q hq, fun hg => hg⟩
          · obtain ⟨c, g1, hq1, hq2⟩ := hall q hq
            exact ⟨c, g1, hq1, fun hg => hq2 (htok hg)⟩
    · rw [if_neg hn] at h
      simp only [Option.some.injEq] at h
      exact ⟨[], none, g, by simp [← h], by simp⟩

/-- The requests of `FzPlUpload` on a stored response: each is a chunk request with a
file part or the commit request without one; the commit request carries the stored
token, and so does every chunk request when the buffer held only that token at the
start. -/
theorem FzPlUpload_valid_key (gBody : List BodyPiece) (fz : FzAPI) (e : XMLFileZen)
    (xmlUnmarshal : String → Except String XMLFileZen) (base : String → String)
    (env : PlUploadEnv) (fuel : Nat)
    (localFile folderID regName comment notifyTo notifyMode : String) (r : UploadResult)
    (h : FzPlUpload gBody { fz with LastResp := some e } xmlUnmarshal base env fuel
      localFile folderID regName comment notifyTo notifyMode = some (.ok r)) :
    ∀ q ∈ r.requests,
      (q.hasFile = false → fieldOf q.fields "valid_key" = some e.ValidKey) ∧
      (tokenOnly e.ValidKey gBody → fieldOf q.fields "valid_key" = some e.ValidKey) := by
  have hcommit : ∀ q ∈ [Request.post (fz.URL ++ "/cgi-bin/index.cgi")
      (FzPlUploadCommitValues e.ValidKey (base localFile) folderID regName comment
        env.fr notifyTo notifyMode) (some fz.FzSession)],
      fieldOf q.fields "valid_key" = some e.ValidKey := by
    intro q hq
    rw [List.mem_singleton.mp hq]
    simp [Request.fields, fieldOf, FzPlUploadCommitValues]
  intro q hq
  unfold FzPlUpload at h
  cases hs : env.statErr with
  | some x =>
    rw [hs] at h
    simp only [Option.some.injEq, GoResult.ok.injEq] at h
    rw [← h] at hq
    cases hq
  | none =>
    rw [hs] at h
    cases ho : env.openErr with
    | some x =>
      rw [ho] at h
      simp only [Option.some.injEq, GoResult.ok.injEq] at h
      rw [← h] at hq
      cases hq
    | none =>
      rw [ho] at h
      simp only at h
      cases hl : plUploadSend { fz with LastResp := some e } env.part env.fr folderID
          env.nTotalSize (plUploadChunks env.nTotalSize) fuel 0 1 gBody [] with
      | none =>
        rw [hl] at h
        cases h
      | some out =>
        obtain ⟨new, err, g2, hout, hall⟩ :=
          plUploadSend_shape { fz with LastResp := some e } e rfl env.part env.fr folderID
            env.nTotalSize (plUploadChunks env.nTotalSize) fuel 0 1 gBody [] out hl
        have hchunk : ∀ q ∈ new,
            (q.hasFile = false → fieldOf q.fields "valid_key" = some e.ValidKey) ∧
            (tokenOnly e.ValidKey gBody → fieldOf q.fields "valid_key" = some e.ValidKey) := by
          intro q hq
          obtain ⟨c, g1, hq1, hq2⟩ := hall q hq
          constructor
          · intro hf
            rw [hq1, partWritten_hasFile] at hf
            cases hf
          · intro hg
            rw [hq1]
            simp only [Request.fields, List.append_assoc]
            exact fieldOf_bodyFields_token _ _ _ (hq2 hg) (partWritten_valid_key _ _ _)
        rw [hl, hout] at h
        simp only [List.nil_append] at h
        cases err with
        | some x =>
          simp only [Option.some.injEq, GoResult.ok.injEq] at h
          rw [← h] at hq
          exact hchunk q hq
        | none =>
          simp only at h
          cases hc : env.commit with
          | error x =>
            rw [hc] at h
            simp only [Option.some.injEq, GoResult.ok.injEq] at h
            rw [← h] at hq
            rcases List.mem_append.mp hq with hq | hq
            · exact hchunk q hq
            · exact ⟨fun _ => hcommit q hq, fun _ => hcommit q hq⟩
          | ok resp =>
            rw [hc] at h
            simp only [Option.some.injEq, GoResult.ok.injEq] at h
            rw [← h] at hq
            rcases List.mem_append.mp hq with hq | hq
            · exact hchunk q hq
            · exact ⟨fun _ => hcommit q hq, fun _ => hcommit q hq⟩

/-- The request of `FzUpload` on a stored response carries the stored token when the
buffer held only that token at the start. -/
theorem FzUpload_valid_key (gBody : List BodyPiece) (fz : FzAPI) (e : XMLFileZen)
    (xmlUnmarshal : String → Except String XMLFileZen) (base : String → String)
    (env : UploadEnv) (localFile folderID regName comment notifyTo notifyMode : String)
    (r : UploadResult) (hg : tokenOnly e.ValidKey gBody)
    (h : FzUpload gBody { fz with LastResp := some e } xmlUnmarshal base env
      localFile folderID regName comment notifyTo notifyMode = .ok r) :
    ∀ q ∈ r.requests, fieldOf q.fields "valid_key" = some e.ValidKey := by
  have hreq : ∀ q ∈ [Request.buffered (fz.URL ++ "/cgi-bin/index.cgi")
      (gBody ++ FzUploadWritten e.ValidKey (base localFile) folderID regName comment
        notifyTo notifyMode ++ [BodyPiece.close]) (some fz.FzSession)],
      fieldOf q.fields "valid_key" = some e.ValidKey := by
    intro q hq
    rw [List.mem_singleton.mp hq]
    simp only [Request.fields, List.append_assoc]
    exact fieldOf_bodyFields_token _ _ _ hg (FzUploadWritten_valid_key _ _ _ _ _ _ _)
  intro q hq
  unfold FzUpload at h
  cases ho : env.openErr with
  | some x =>
    rw [ho] at h
    simp only [GoResult.ok.injEq] at h
    rw [← h] at hq
    cases hq
  | none =>
    rw [ho] at h
    cases hc : env.createFormFileErr with
    | some x =>
      rw [hc] at h
      simp only [GoResult.ok.injEq] at h
      rw [← h] at hq
      cases hq
    | none =>
      rw [hc] at h
      simp only at h
      cases hw : env.closeErr with
      | some x =>
        rw [hw] at h
        simp only [GoResult.ok.injEq] at h
        rw [← h] at hq
        cases hq
      | none =>
        rw [hw] at h
        simp only at h
        cases hn : env.net with
        | error x =>
          rw [hn] at h
          simp only [GoResult.ok.injEq] at h
          rw [← h] at hq
          exact hreq q hq
        | ok resp =>
          rw [hn] at h
          simp only [GoResult.ok.injEq] at h
          rw [← h] at hq
          exact hreq q hq

theorem FzDownload_valid_key (fz : FzAPI) (e : XMLFileZen)
    (xmlUnmarshal : String → Except String XMLFileZen) (env : DownloadEnv)
    (key localFile : String) (r : DownloadResult)
    (h : FzDownload { fz with LastResp := some e } xmlUnmarshal env key localFile = .ok r) :
    ∀ q ∈ r.requests, fieldOf q.fields "valid_key" = some e.ValidKey := by
  have hreq : ∀ q ∈ [Request.post (fz.URL ++ "/cgi-bin/index.cgi")
      [("respmode", "xml"), ("action", "Mainmenu_file"), ("sub_action", "download"),
        ("key", key), ("valid_key", e.ValidKey)] (some fz.FzSession)],
      fieldOf q.fields "valid_key" = some e.ValidKey := by
    intro q hq
    rw [List.mem_singleton.mp hq]
    simp [Request.fields, fieldOf]
  intro q hq
  unfold FzDownload at h
  simp only at h
  cases hn : env.net with
  | error x =>
    rw [hn] at h
    simp only [GoResult.ok.injEq] at h
    rw [← h] at hq
    exact hreq q hq
  | ok resp =>
    rw [hn] at h
    simp only at h
    by_cases hlen : resp.ContentLength < 0
    · rw [if_pos hlen] at h
      cases hp : ParseXMLResp { fz with LastResp := some e } xmlUnmarshal resp with
      | mk fz1 err =>
        rw [hp] at h
        cases err with
        | some x =>
          simp only [GoResult.ok.injEq] at h
          rw [← h] at hq
          exact hreq q hq
        | none =>
          simp only [GoResult.ok.injEq] at h
          rw [← h] at hq
          exact hreq q hq
    · rw [if_neg hlen] at h
      simp only [GoResult.ok.injEq] at h
      rw [← h] at hq
      exact hreq q hq

/-- C18 fails as stated: after a reload that stores the token `T2`, the request of
`FzLogout` carries no `valid_key` at all. -/
theorem token_rotation_logout_counterexample :
    (∃ reqs, FzReload tokenFz sampleUnmarshal (.ok { body := "ok2" }) =
      .ok ⟨{ tokenFz with LastResp := some { Res := "OK", ValidKey := "T2" } }, reqs, none⟩) ∧
    (FzLogout { tokenFz with LastResp := some { Res := "OK", ValidKey := "T2" } }
      (.ok {})).requests.map (fun q => fieldOf q.fields "valid_key") = [none] :=
  ⟨⟨_, rfl⟩, by decide⟩

/-- C18 (amended): a call of `FzLogin`, `FzReload`, `FzDeleteFile`, `FzUpload` or
`FzPlUpload` whose response is read and decodes to an envelope `e` with
discriminator "OK" returns no error and stores `e`, so the stored token is the
token of that response; and on a session that stores `e`, every request of
`FzReload`, `FzDeleteFile` and `FzDownload` and the commit request of `FzPlUpload`
carries that token as `valid_key`, and so do the request of `FzUpload` and the chunk
requests of `FzPlUpload` when the buffer `gBody` holds no `valid_key` field of
another token at the call. The requests of `FzLogin` and `FzLogout` carry no
`valid_key`. -/
theorem token_rotation (fz fz2 : FzAPI) (last e : XMLFileZen)
    (xmlUnmarshal : String → Except String XMLFileZen) (base : String → String)
    (resp : HttpResponse) (hread : resp.readErr = none)
    (hdec : xmlUnmarshal resp.body = .ok e) (hres : e.Res = "OK") :
    (∀ fzURL uid password,
      (FzLogin fz xmlUnmarshal (.ok resp) fzURL uid password).err = none ∧
      (FzLogin fz xmlUnmarshal (.ok resp) fzURL uid password).fz.LastResp = some e) ∧
    (∃ reqs, FzReload { fz with LastResp := some last } xmlUnmarshal (.ok resp) =
      .ok ⟨{ fz with LastResp := some e }, reqs, none⟩) ∧
    (∀ key, ∃ reqs, FzDeleteFile { fz with LastResp := some last } xmlUnmarshal (.ok resp) key =
      .ok ⟨{ fz with LastResp := some e }, reqs, none⟩) ∧
    (∀ (gBody : List BodyPiece) (nRead : Nat)
      localFile folderID regName comment notifyTo notifyMode, ∃ reqs g,
      FzUpload gBody { fz with LastResp := some last } xmlUnmarshal base
        ⟨none, none, none, .ok resp, nRead⟩
        localFile folderID regName comment notifyTo notifyMode =
      .ok ⟨{ fz with LastResp := some e }, reqs, none, g⟩) ∧
    (∀ (gBody : List BodyPiece) (envs : PartCall → PartEnv) (fr : String) (s : Int)
      (fuel : Nat) localFile folderID regName comment notifyTo notifyMode,
      0 ≤ s → s < 2 ^ 63 → (∀ c, partErr (envs c) = none) →
      ⌈(s : ℚ) / 52428800⌉ < (fuel : Int) →
      ∃ reqs g, FzPlUpload gBody { fz with LastResp := some last } xmlUnmarshal base
        ⟨none, s, none, fr, envs, .ok resp⟩ fuel
        localFile folderID regName comment notifyTo notifyMode =
      some (.ok ⟨{ fz with LastResp := some e }, reqs, none, g⟩)) ∧
    (∀ net r, FzReload { fz2 with LastResp := some e } xmlUnmarshal net = .ok r →
      ∀ q ∈ r.requests, fieldOf q.fields "valid_key" = some e.ValidKey) ∧
    (∀ net key r, FzDeleteFile { fz2 with LastResp := some e } xmlUnmarshal net key = .ok r →
      ∀ q ∈ r.requests, fieldOf q.fields "valid_key" = some e.ValidKey) ∧
    (∀ env key localFile r,
      FzDownload { fz2 with LastResp := some e } xmlUnmarshal env key localFile = .ok r →
      ∀ q ∈ r.requests, fieldOf q.fields "valid_key" = some e.ValidKey) ∧
    (∀ (gBody : List BodyPiece) env localFile folderID regName comment notifyTo notifyMode r,
      tokenOnly e.ValidKey gBody →
      FzUpload gBody { fz2 with LastResp := some e } xmlUnmarshal base env
        localFile folderID regName comment notifyTo notifyMode = .ok r →
      ∀ q ∈ r.requests, fieldOf q.fields "valid_key" = some e.ValidKey) ∧
    (∀ (gBody : List BodyPiece) env fuel localFile folderID regName comment notifyTo
      notifyMode r,
      FzPlUpload gBody { fz2 with LastResp := some e } xmlUnmarshal base env fuel
        localFile folderID regName comment notifyTo notifyMode = some (.ok r) →
      ∀ q ∈ r.requests,
        (q.hasFile = false → fieldOf q.fields "valid_key" = some e.ValidKey) ∧
        (tokenOnly e.ValidKey gBody → fieldOf q.fields "valid_key" = some e.ValidKey)) ∧
    (∀ net fzURL uid password,
      ∀ q ∈ (FzLogin fz2 xmlUnmarshal net fzURL uid password).requests,
        fieldOf q.fields "valid_key" = none) ∧
    (∀ net, ∀ q ∈ (FzLogout fz2 net).requests, fieldOf q.fields "valid_key" = none) := by
  have hP := fun f : FzAPI => ParseXMLResp_ok f xmlUnmarshal resp e hread hdec hres
  refine ⟨?_, ?_, ?_, ?_, ?_, ?_, ?_, ?_, ?_, ?_, ?_, ?_⟩
  · intro fzURL uid password
    simp only [FzLogin, hP, getSessionID]
    split <;> simp
  · apply Exists.intro
    simp only [FzReload, hP]
    rfl
  · intro key
    apply Exists.intro
    simp only [FzDeleteFile, hP]
    rfl
  · intro gBody nRead localFile folderID regName comment notifyTo notifyMode
    apply Exists.intro
    apply Exists.intro
    simp only [FzUpload, hP]
    rfl
  · intro gBody envs fr s fuel localFile folderID regName comment notifyTo notifyMode
      hs hmax hok hfuel
    have h1 : s < 9223372036854775808 := by norm_num at hmax; exact hmax
    rw [ceil_chunks_eq] at hfuel
    obtain ⟨new, g2, hrun, _⟩ :=
      plUploadSend_completed { fz with LastResp := some last } last rfl envs hok fr folderID s
        (plUploadChunks s) hs h1 fuel 0 gBody [] (by omega)
    have hm : min (((0 : Nat) : Int) * 52428800) s = 0 := by omega
    rw [hm] at hrun
    simp only [Nat.cast_zero, zero_add, List.nil_append] at hrun
    exact ⟨new ++ [Request.post (fz.URL ++ "/cgi-bin/index.cgi")
        (FzPlUploadCommitValues last.ValidKey (base localFile) folderID regName comment fr
          notifyTo notifyMode) (some fz.FzSession)], g2, by simp only [FzPlUpload, hrun, hP]⟩
  · intro net r h q hq
    unfold FzReload at h
    cases net with
    | error x =>
      simp only [GoResult.ok.injEq] at h
      rw [← h] at hq
      rw [List.mem_singleton.mp hq]
      simp [Request.fields, fieldOf]
    | ok rsp =>
      simp only [GoResult.ok.injEq] at h
      rw [← h] at hq
      rw [List.mem_singleton.mp hq]
      simp [Request.fields, fieldOf]
  · intro net key r h q hq
    unfold FzDeleteFile at h
    cases net with
    | error x =>
      simp only [GoResult.ok.injEq] at h
      rw [← h] at hq
      rw [List.mem_singleton.mp hq]
      simp [Request.fields, fieldOf]
    | ok rsp =>
      simp only [GoResult.ok.injEq] at h
      rw [← h] at hq
      rw [List.mem_singleton.mp hq]
      simp [Request.fields, fieldOf]
  · intro env key localFile r h
    exact FzDownload_valid_key fz2 e xmlUnmarshal env key localFile r h
  · intro gBody env localFile folderID regName comment notifyTo notifyMode r hg h
    exact FzUpload_valid_key gBody fz2 e xmlUnmarshal base env localFile folderID regName
      comment notifyTo notifyMode r hg h
  · intro gBody env fuel localFile folderID regName comment notifyTo notifyMode r h
    exact FzPlUpload_valid_key gBody fz2 e xmlUnmarshal base env fuel localFile folderID
      regName comment notifyTo notifyMode r h
  · intro net fzURL uid password q hq
    unfold FzLogin at hq
    cases net with
    | error x =>
      simp only [List.mem_singleton] at hq
      rw [hq]
      simp [Request.fields, fieldOf]
    | ok rsp =>
      simp only at hq
      split at hq <;>
      · simp only [List.mem_singleton] at hq
        rw [hq]
        simp [Request.fields, fieldOf]
  · intro net q hq
    unfold FzLogout at hq
    cases net with
    | error x =>
      simp only [List.mem_singleton] at hq
      rw [hq]
      simp [Request.fields, fieldOf]
    | ok rsp =>
      simp only [List.mem_singleton] at hq
      rw [hq]
      simp [Request.fields, fieldOf]

/-- C18 (amended) at a reload of the session with token `T1` answered by the
envelope with token `T2`, followed by a delete request. -/
theorem token_rotation_witness :
    (HttpResponse.readErr { body := "ok2" } = none ∧
      sampleUnmarshal (HttpResponse.body { body := "ok2" }) =
        .ok { Res := "OK", ValidKey := "T2" } ∧
      XMLFileZen.Res { Res := "OK", ValidKey := "T2" } = "OK") ∧
    (∃ reqs, FzReload { tokenFz with LastResp := some { Res := "OK", ValidKey := "T1" } }
      sampleUnmarshal (.ok { body := "ok2" }) =
      .ok ⟨{ tokenFz with LastResp := some { Res := "OK", ValidKey := "T2" } }, reqs, none⟩) ∧
    (∀ net key r,
      FzDeleteFile { tokenFz with LastResp := some { Res := "OK", ValidKey := "T2" } }
        sampleUnmarshal net key = .ok r →
      ∀ q ∈ r.requests, fieldOf q.fields "valid_key" =
        some (XMLFileZen.ValidKey { Res := "OK", ValidKey := "T2" })) :=
  ⟨⟨rfl, rfl, rfl⟩,
    (token_rotation tokenFz tokenFz { Res := "OK", ValidKey := "T1" }
      { Res := "OK", ValidKey := "T2" } sampleUnmarshal (fun p => p) { body := "ok2" }
      rfl rfl rfl).2.1,
    (token_rotation tokenFz tokenFz { Res := "OK", ValidKey := "T1" }
      { Res := "OK", ValidKey := "T2" } sampleUnmarshal (fun p => p) { body := "ok2" }
      rfl rfl rfl).2.2.2.2.2.2.1⟩

/-! ## C19, C20: `FzDownload` -/

/-- C19: on a stored response, when the download response declares no content
length (`ContentLength < 0`) and its body is read and decodes to an envelope whose
discriminator `m` is not "OK", `FzDownload` returns the error
`FzDownload - ParseXmlResp Error: m`, leaves the session as it was, and does
nothing to the file system: the destination is not created, truncated or written. -/
theorem FzDownload_failure_envelope (fz : FzAPI) (last e : XMLFileZen)
    (xmlUnmarshal : String → Except String XMLFileZen) (resp : HttpResponse)
    (createErr writeErr closedReadErr : GoError) (key localFile : String)
    (hlen : resp.ContentLength < 0) (hread : resp.readErr = none)
    (hdec : xmlUnmarshal resp.body = .ok e) (hfail : e.Res ≠ "OK") :
    ∃ reqs, FzDownload { fz with LastResp := some last } xmlUnmarshal
        ⟨.ok resp, createErr, writeErr, closedReadErr⟩ key localFile =
      .ok ⟨{ fz with LastResp := some last }, reqs, [],
        some ("FzDownload - ParseXmlResp Error: " ++ e.Res)⟩ := by
  have hP : ParseXMLResp { fz with LastResp := some last } xmlUnmarshal resp =
      ({ fz with LastResp := some last }, some e.Res) := by
    unfold ParseXMLResp
    rw [hread]
    simp only [hdec, hfail, if_false]
  apply Exists.intro
  simp only [FzDownload, hlen, if_true, hP]
  rfl

/-- C19 at the sample failure envelope `Expired`. -/
theorem FzDownload_failure_envelope_witness :
    (HttpResponse.ContentLength { body := "ng" } < 0 ∧
      HttpResponse.readErr { body := "ng" } = none ∧
      sampleUnmarshal (HttpResponse.body { body := "ng" }) = .ok { Res := "Expired" } ∧
      XMLFileZen.Res { Res := "Expired" } ≠ "OK") ∧
    ∃ reqs, FzDownload { tokenFz with LastResp := some { Res := "OK", ValidKey := "T1" } }
        sampleUnmarshal ⟨.ok { body := "ng" }, none, none, none⟩ "k1" "/data/out.bin" =
      .ok ⟨{ tokenFz with LastResp := some { Res := "OK", ValidKey := "T1" } }, reqs, [],
        some ("FzDownload - ParseXmlResp Error: " ++
          XMLFileZen.Res { Res := "Expired" })⟩ :=
  ⟨⟨by decide, rfl, rfl, by decide⟩,
    FzDownload_failure_envelope tokenFz { Res := "OK", ValidKey := "T1" } { Res := "Expired" }
      sampleUnmarshal { body := "ng" } none none none "k1" "/data/out.bin"
      (by decide) rfl rfl (by decide)⟩

/-- C20 is broken by the code: when the download response declares no content
length and its body is a success envelope, `FzDownload` parses and stores the
envelope and then still runs `os.Create` on the destination, which creates it or
truncates it to length zero, before `io.Copy` fails on the body already read and
closed. -/
theorem FzDownload_success_envelope_creates_file :
    ∃ reqs, FzDownload tokenFz sampleUnmarshal
        ⟨.ok { ContentLength := -1, body := "ok2" }, none, none,
          some "http: read on closed response body"⟩ "k1" "/data/out.bin" =
      .ok ⟨{ tokenFz with LastResp := some { Res := "OK", ValidKey := "T2" } }, reqs,
        [.create "/data/out.bin"],
        some "FzDownload - io.Copy Error: http: read on closed response body"⟩ :=
  ⟨_, rfl⟩

/-! ## C21: the error text on a failure envelope -/

/-- C21 is broken by the code: on the failure envelope `Expired`, `FzReload`,
`FzDeleteFile`, `FzUpload` and `FzPlUpload` return the error of `ParseXMLResp` as it
is, whose message is `Expired` alone and names no operation, while `FzLogin` and
`FzDownload` wrap the same error with their name. -/
theorem failure_envelope_error_text :
    (∃ reqs, FzReload tokenFz sampleUnmarshal (.ok { body := "ng" }) =
      .ok ⟨tokenFz, reqs, some "Expired"⟩) ∧
    (∃ reqs, FzDeleteFile tokenFz sampleUnmarshal (.ok { body := "ng" }) "k1" =
      .ok ⟨tokenFz, reqs, some "Expired"⟩) ∧
    (∃ reqs g, FzUpload [] tokenFz sampleUnmarshal (fun _ => "x.txt")
      ⟨none, none, none, .ok { body := "ng" }, 100⟩ "/data/x.txt" "12" "x.txt" "c" "" "" =
      .ok ⟨tokenFz, reqs, some "Expired", g⟩) ∧
    (∃ reqs g, FzPlUpload [] tokenFz sampleUnmarshal (fun _ => "x.txt")
      ⟨none, 10, none, "4711", allChunksSent, .ok { body := "ng" }⟩ 2
      "/data/x.txt" "12" "x.txt" "c" "" "" =
      some (.ok ⟨tokenFz, reqs, some "Expired", g⟩)) ∧
    ¬ containsText "Expired" "FzReload" ∧ ¬ containsText "Expired" "FzDeleteFile" ∧
    ¬ containsText "Expired" "FzUpload" ∧ ¬ containsText "Expired" "FzPlUpload" ∧
    (FzLogin tokenFz sampleUnmarshal (.ok { body := "ng" }) "https://fz" "u" "p").err =
      some "FzLogin - ParseXmlResp Error: Expired" ∧
    (∃ reqs, FzDownload tokenFz sampleUnmarshal ⟨.ok { body := "ng" }, none, none, none⟩
      "k1" "/data/out.bin" =
      .ok ⟨tokenFz, reqs, [], some "FzDownload - ParseXmlResp Error: Expired"⟩) :=
  ⟨⟨_, rfl⟩, ⟨_, rfl⟩, ⟨_, _, rfl⟩, ⟨_, _, rfl⟩,
    fun h => absurd ((stringsIndex_ne_iff "Expired" "FzReload").mpr h) (by decide),
    fun h => absurd ((stringsIndex_ne_iff "Expired" "FzDeleteFile").mpr h) (by decide),
    fun h => absurd ((stringsIndex_ne_iff "Expired" "FzUpload").mpr h) (by decide),
    fun h => absurd ((stringsIndex_ne_iff "Expired" "FzPlUpload").mpr h) (by decide),
    rfl, ⟨_, rfl⟩⟩

/-! ## C24: a session with no stored envelope -/

/-- C24 fails as stated: on a session that stores no envelope, `FzReload` ends in a
nil dereference, and so do the lookups, instead of returning an error or an empty
result. -/
theorem no_envelope_panic_counterexample :
    FzReload { URL := "https://fz" } sampleUnmarshal (.ok { body := "ok2" }) = .panic ∧
    FzFindFolder { URL := "https://fz" } "ProjectA/FolderB" = .panic ∧
    CanUpload { URL := "https://fz" } "ProjectA/FolderB" "x.txt" = .panic :=
  ⟨rfl, rfl, rfl⟩

/-- C24 (amended): on every session that stores no envelope (`LastResp` is nil),
`FzReload`, `FzDeleteFile`, `FzDownload`, `FzFindFolder`, `FzFindFile` and
`CanUpload` all end in the run-time panic of a nil dereference, whatever the other
arguments and the network would answer: none returns an error or an empty
result. -/
theorem no_envelope_panic (fz : FzAPI) (xmlUnmarshal : String → Except String XMLFileZen)
    (net : Except String HttpResponse) (env : DownloadEnv)
    (key localFile path prj folder file : String) :
    FzReload { fz with LastResp := none } xmlUnmarshal net = .panic ∧
    FzDeleteFile { fz with LastResp := none } xmlUnmarshal net key = .panic ∧
    FzDownload { fz with LastResp := none } xmlUnmarshal env key localFile = .panic ∧
    FzFindFolder { fz with LastResp := none } path = .panic ∧
    FzFindFile { fz with LastResp := none } prj folder file = .panic ∧
    CanUpload { fz with LastResp := none } path file = .panic :=
  ⟨rfl, rfl, rfl, rfl, rfl, rfl⟩

/-! ## C29: a failed envelope changes nothing -/

/-- C29: for every session and every response, when the body cannot be read, cannot
be decoded, or decodes to a discriminator other than "OK", `ParseXMLResp` returns an
error and the session it leaves is the session it was given, stored envelope
included; and a call of `FzLogin` that returns an error leaves the stored envelope
and the session cookie unchanged. -/
theorem ParseXMLResp_failure_atomic (fz : FzAPI)
    (xmlUnmarshal : String → Except String XMLFileZen) (resp : HttpResponse) :
    (∀ e, resp.readErr = some e →
      ParseXMLResp fz xmlUnmarshal resp = (fz, some ("ParseXMLResp - ReadAll Error: " ++ e))) ∧
    (∀ e, resp.readErr = none → xmlUnmarshal resp.body = .error e →
      ParseXMLResp fz xmlUnmarshal resp =
        (fz, some ("ParseXMLResp - Unmarshal Error: " ++ e))) ∧
    (∀ env, resp.readErr = none → xmlUnmarshal resp.body = .ok env → env.Res ≠ "OK" →
      ParseXMLResp fz xmlUnmarshal resp = (fz, some env.Res)) ∧
    ((ParseXMLResp fz xmlUnmarshal resp).2 ≠ none →
      (ParseXMLResp fz xmlUnmarshal resp).1 = fz) ∧
    (∀ net fzURL uid password,
      (FzLogin fz xmlUnmarshal net fzURL uid password).err ≠ none →
      (FzLogin fz xmlUnmarshal net fzURL uid password).fz.LastResp = fz.LastResp ∧
      (FzLogin fz xmlUnmarshal net fzURL uid password).fz.FzSession = fz.FzSession) := by
  have hkeep : ∀ (f : FzAPI) (resp : HttpResponse),
      (ParseXMLResp f xmlUnmarshal resp).2 ≠ none →
      (ParseXMLResp f xmlUnmarshal resp).1 = f := by
    intro f resp h
    unfold ParseXMLResp at h ⊢
    cases hr : resp.readErr with
    | some e => simp only [hr]
    | none =>
      rw [hr] at h
      simp only at h ⊢
      cases hd : xmlUnmarshal resp.body with
      | error e => simp only [hd]
      | ok env =>
        rw [hd] at h
        simp only at h ⊢
        by_cases hres : env.Res = "OK"
        · rw [if_pos hres] at h
          exact absurd rfl h
        · rw [if_neg hres]
  refine ⟨?_, ?_, ?_, hkeep fz resp, ?_⟩
  · intro e he
    unfold ParseXMLResp
    simp only [he]
  · intro e hr hd
    unfold ParseXMLResp
    simp only [hr, hd]
  · intro env hr hd hres
    unfold ParseXMLResp
    simp only [hr, hd, hres, if_false]
  · intro net fzURL uid password h
    unfold FzLogin at h ⊢
    cases net with
    | error e => exact ⟨rfl, rfl⟩
    | ok r =>
      simp only at h ⊢
      cases hp : ParseXMLResp { fz with URL := fzURL } xmlUnmarshal r with
      | mk fz1 err =>
        rw [hp] at h
        cases err with
        | none => exact absurd rfl h
        | some e =>
          have hk := hkeep { fz with URL := fzURL } r (by rw [hp]; simp)
          rw [hp] at hk
          simp only at hk
          subst hk
          exact ⟨rfl, rfl⟩

/-- C29 at the sample failure envelope `Expired` on the session with token `T1`. -/
theorem ParseXMLResp_failure_atomic_witness :
    (HttpResponse.readErr { body := "ng" } = none ∧
      sampleUnmarshal (HttpResponse.body { body := "ng" }) = .ok { Res := "Expired" } ∧
      XMLFileZen.Res { Res := "Expired" } ≠ "OK") ∧
    ParseXMLResp tokenFz sampleUnmarshal { body := "ng" } =
      (tokenFz, some (XMLFileZen.Res { Res := "Expired" })) :=
  ⟨⟨rfl, rfl, by decide⟩,
    (ParseXMLResp_failure_atomic tokenFz sampleUnmarshal { body := "ng" }).2.2.1
      { Res := "Expired" } rfl rfl (by decide)⟩

/-! ## C30: `getAesKey` -/

theorem getAesKeyLoop_eq : ∀ (fuel : Nat) (k : Bytes), k.length ≤ 32 → 32 - k.length < fuel →
    getAesKeyLoop fuel k = some (k ++ List.replicate (32 - k.length) 83) := by
  intro fuel
  induction fuel with
  | zero =>
    intro k _ hf
    exact absurd hf (Nat.not_lt_zero _)
  | succ fuel ih =>
    intro k hk hf
    unfold getAesKeyLoop
    by_cases hlt : k.length < 32
    · rw [if_pos hlt, ih (k ++ [83]) (by simp; omega) (by simp; omega)]
      have h1 : 32 - k.length = (32 - (k ++ [83]).length) + 1 := by simp; omega
      rw [h1, List.replicate_succ, List.append_assoc]
      simp
    · rw [if_neg hlt]
      have h0 : 32 - k.length = 0 := by omega
      simp [h0]

theorem getAesKey_eq (fuel : Nat) (k : Bytes) (hf : 32 < fuel) :
    getAesKey fuel k =
      some (if k.length > 32 then k.take 32 else k ++ List.replicate (32 - k.length) 83) := by
  unfold getAesKey
  by_cases h : k.length > 32
  · rw [if_pos h, if_pos h]
  · rw [if_neg h, if_neg h, getAesKeyLoop_eq fuel k (by omega) (by omega)]

theorem getAesKey_length (fuel : Nat) (k : Bytes) (hf : 32 < fuel) :
    ∃ key, getAesKey fuel k = some key ∧ key.length = 32 := by
  refine ⟨_, getAesKey_eq fuel k hf, ?_⟩
  by_cases h : k.length > 32
  · rw [if_pos h]
    simp
    omega
  · rw [if_neg h]
    simp
    omega

/-- C30: for every key text `k`, `getAesKey` returns (any fuel above 32 is enough for
the loop) a key of exactly 32 bytes: the first 32 bytes of `k` when `k` is longer
than 32 bytes, otherwise `k` followed by as many "S" bytes (83) as are missing; so
two key texts of at least 32 bytes with the same first 32 bytes give the same key,
and so do two shorter key texts that are equal after the padding. -/
theorem getAesKey_result (fuel : Nat) (k : Bytes) (hf : 32 < fuel) :
    ∃ key, getAesKey fuel k = some key ∧ key.length = 32 ∧
      (32 < k.length → key = k.take 32) ∧
      (k.length ≤ 32 → key = k ++ List.replicate (32 - k.length) 83) ∧
      (∀ k2 : Bytes, 32 ≤ k.length → 32 ≤ k2.length → k.take 32 = k2.take 32 →
        getAesKey fuel k2 = some key) ∧
      (∀ k2 : Bytes, k.length ≤ 32 → k2.length ≤ 32 →
        k ++ List.replicate (32 - k.length) 83 = k2 ++ List.replicate (32 - k2.length) 83 →
        getAesKey fuel k2 = some key) := by
  obtain ⟨key, hkey, hlen⟩ := getAesKey_length fuel k hf
  have heq := getAesKey_eq fuel k hf
  rw [hkey] at heq
  have hk : key = if k.length > 32 then k.take 32
      else k ++ List.replicate (32 - k.length) 83 := Option.some.inj heq
  have hfull : ∀ x : Bytes, x.length = 32 → x.take 32 = x := by
    intro x hx
    exact List.take_of_length_le (by omega)
  have hpad : ∀ x : Bytes, x.length = 32 → x ++ List.replicate (32 - x.length) 83 = x := by
    intro x hx
    simp [hx]
  refine ⟨key, hkey, hlen, ?_, ?_, ?_, ?_⟩
  · intro h
    rw [hk, if_pos h]
  · intro h
    rw [hk, if_neg (by omega)]
  · intro k2 h1 h2 ht
    rw [getAesKey_eq fuel k2 hf, hk]
    congr 1
    by_cases a : k.length > 32 <;> by_cases b : k2.length > 32
    · rw [if_pos a, if_pos b, ht]
    · have hb : k2.length = 32 := by omega
      rw [if_pos a, if_neg b, hpad k2 hb, ht, hfull k2 hb]
    · have ha : k.length = 32 := by omega
      rw [if_neg a, if_pos b, hpad k ha, ← ht, hfull k ha]
    · have ha : k.length = 32 := by omega
      have hb : k2.length = 32 := by omega
      rw [if_neg a, if_neg b, hpad k ha, hpad k2 hb, ← hfull k ha, ht, hfull k2 hb]
  · intro k2 h1 h2 hp
    rw [getAesKey_eq fuel k2 hf, hk, if_neg (by omega), if_neg (by omega), hp]

/-- C30 at the key texts `ab` and `abS`, which are equal after the padding. -/
theorem getAesKey_result_witness :
    32 < 33 ∧
    ∃ key, getAesKey 33 [97, 98] = some key ∧ key.length = 32 ∧
      (32 < [97, 98].length → key = [97, 98].take 32) ∧
      (([97, 98] : Bytes).length ≤ 32 →
        key = [97, 98] ++ List.replicate (32 - ([97, 98] : Bytes).length) 83) ∧
      (∀ k2 : Bytes, 32 ≤ ([97, 98] : Bytes).length → 32 ≤ k2.length →
        ([97, 98] : Bytes).take 32 = k2.take 32 → getAesKey 33 k2 = some key) ∧
      (∀ k2 : Bytes, ([97, 98] : Bytes).length ≤ 32 → k2.length ≤ 32 →
        [97, 98] ++ List.replicate (32 - ([97, 98] : Bytes).length) 83 =
          k2 ++ List.replicate (32 - k2.length) 83 →
        getAesKey 33 k2 = some key) :=
  ⟨by decide, getAesKey_result 33 [97, 98] (by decide)⟩

/-! ## C23: the stored password -/

theorem aesNewCipherErr_32 (key : Bytes) (h : key.length = 32) : aesNewCipherErr key = none := by
  unfold aesNewCipherErr
  rw [if_pos (Or.inr (Or.inr h))]

/-- C23 (amended): for every master key and every configuration with a non-empty
user id and password that `json.Unmarshal` reads back as `json.MarshalIndent` wrote
it (with a base64 text as password), when the file is written (the random IV is
read, the file steps succeed), `LoadFzcConfig` applied to the file `SaveFzcConfig`
wrote, with the same key, returns the configuration that was saved, password in
plain text included. The other library functions are parameters, taken with these
facts: the CFB decrypter undoes the CFB encrypter under one key and IV, and base64
decoding undoes encoding and decodes the empty text to nothing. -/
theorem stored_password_round_trip (lib : CryptoLib)
    (jsonMarshal : FzcConfig → Except String Bytes)
    (jsonUnmarshal : Bytes → Except String FzcConfig)
    (fuel : Nat) (config : FzcConfig) (key iv : Bytes)
    (hf : 32 < fuel) (huid : config.FzUID ≠ []) (hpw : config.FzPassword ≠ [])
    (hiv : iv.length = 16)
    (hcfb : ∀ k v p, lib.xorKeyStreamDec k v (lib.xorKeyStreamEnc k v p) = p)
    (hb64 : ∀ x, lib.base64Decode (lib.base64Encode x) = x)
    (hb64nil : lib.base64Decode [] = [])
    (hmarshal : ∀ x, ∃ d,
      jsonMarshal { config with FzPassword := (lib.base64Encode x) } = .ok d)
    (hjson : ∀ x d, jsonMarshal { config with FzPassword := (lib.base64Encode x) } = .ok d →
      jsonUnmarshal d = .ok { config with FzPassword := (lib.base64Encode x) }) :
    ∃ saved file,
      SaveFzcConfig lib jsonMarshal fuel ⟨.ok iv, none, none, none⟩ config key =
        some ⟨saved, some file, none⟩ ∧
      saved.FzUID = config.FzUID ∧
      LoadFzcConfig lib jsonUnmarshal fuel (.ok file) key = some (.ok config) := by
  obtain ⟨k32, hk32, hlen⟩ := getAesKey_length fuel (config.FzUID ++ key) hf
  have hnc := aesNewCipherErr_32 k32 hlen
  have henc : encrypt lib fuel (.ok iv) (config.FzUID ++ key) config.FzPassword =
      some (.ok (lib.base64Encode (iv ++ lib.xorKeyStreamEnc k32 iv config.FzPassword))) := by
    unfold encrypt
    rw [hk32]
    simp only [hnc]
  obtain ⟨d, hd⟩ := hmarshal (iv ++ lib.xorKeyStreamEnc k32 iv config.FzPassword)
  have hdec := hb64 (iv ++ lib.xorKeyStreamEnc k32 iv config.FzPassword)
  have hne : lib.base64Encode (iv ++ lib.xorKeyStreamEnc k32 iv config.FzPassword) ≠ [] := by
    intro h0
    rw [h0, hb64nil] at hdec
    have hl := congrArg List.length hdec
    simp at hl
    omega
  have hsave : SaveFzcConfig lib jsonMarshal fuel ⟨.ok iv, none, none, none⟩ config key =
      some ⟨{ config with
          FzPassword :=
            (lib.base64Encode (iv ++ lib.xorKeyStreamEnc k32 iv config.FzPassword)) },
        some d, none⟩ := by
    unfold SaveFzcConfig
    simp only [huid, hpw, ne_eq, not_false_eq_true, and_self, if_true, henc, hd]
  refine ⟨_, _, hsave, rfl, ?_⟩
  have hdecrypt : decrypt lib fuel (config.FzUID ++ key)
      (lib.base64Encode (iv ++ lib.xorKeyStreamEnc k32 iv config.FzPassword)) =
      some (.ok config.FzPassword) := by
    unfold decrypt
    rw [hk32]
    simp only [hnc, hdec]
    have hlt : ¬ (iv ++ lib.xorKeyStreamEnc k32 iv config.FzPassword).length < 16 := by
      simp
      omega
    rw [if_neg hlt]
    have ht : (iv ++ lib.xorKeyStreamEnc k32 iv config.FzPassword).take 16 = iv := by
      rw [← hiv]
      exact List.take_left' rfl
    have hdr : (iv ++ lib.xorKeyStreamEnc k32 iv config.FzPassword).drop 16 =
        lib.xorKeyStreamEnc k32 iv config.FzPassword := by
      rw [← hiv]
      exact List.drop_left' rfl
    rw [ht, hdr, hcfb]
  unfold LoadFzcConfig
  simp only [hjson _ _ hd, huid, hne, ne_eq, not_false_eq_true, and_self, if_true, hdecrypt]

theorem sampleReadField_field (l rest : Bytes) :
    sampleReadField (sampleField l ++ rest) = (l, rest) := by
  simp [sampleReadField, sampleField]

theorem sampleBase64DecodeFrom_letters (acc b : Nat) (rest : Bytes) :
    sampleBase64DecodeFrom acc (List.replicate b 65 ++ 66 :: rest) =
      (acc + b) :: sampleBase64DecodeFrom 0 rest := by
  induction b generalizing acc with
  | zero => simp [sampleBase64DecodeFrom]
  | succ b ih =>
    rw [List.replicate_succ, List.cons_append, sampleBase64DecodeFrom,
      if_neg (by decide), ih (acc + 1)]
    congr 1
    omega

theorem sampleBase64_round_trip (x : Bytes) :
    sampleBase64DecodeFrom 0 (sampleBase64Encode x) = x := by
  induction x with
  | nil => rfl
  | cons b rest ih =>
    rw [sampleBase64Encode, sampleBase64DecodeFrom_letters, ih]
    simp

theorem sampleBase64_ascii (x : Bytes) : ∀ b ∈ sampleBase64Encode x, b < 128 := by
  induction x with
  | nil =>
    intro b hb
    cases hb
  | cons a rest ih =>
    intro b hb
    rw [sampleBase64Encode] at hb
    rcases List.mem_append.mp hb with hb | hb
    · rw [List.eq_of_mem_replicate hb]
      decide
    · rcases List.mem_cons.mp hb with hb | hb
      · rw [hb]
        decide
      · exact ih b hb

theorem toValidUTF8From_ascii (s : Bytes) (h : ∀ b ∈ s, b < 128) :
    toValidUTF8From 0 s = s := by
  induction s with
  | nil => rfl
  | cons b rest ih =>
    have hb : b < 128 := h b (List.mem_cons_self _ _)
    have hw : utf8Width (b :: rest) = 1 := by
      simp [utf8Width, hb]
    rw [toValidUTF8From, hw]
    simp only
    rw [ih (fun x hx => h x (List.mem_cons_of_mem _ hx))]

theorem sampleJsonText_base64 (x : Bytes) :
    sampleJsonText (sampleBase64Encode x) = sampleBase64Encode x :=
  toValidUTF8From_ascii _ (sampleBase64_ascii x)

/-- The sample functions read back a configuration whose texts are left as they are
by `sampleJsonText`. -/
theorem sampleJson_round_trip (c : FzcConfig) (d : Bytes)
    (hc : sampleJsonText c.FzURL = c.FzURL ∧ sampleJsonText c.FzUID = c.FzUID ∧
      sampleJsonText c.FzPassword = c.FzPassword ∧
      sampleJsonText c.LocalFolder = c.LocalFolder ∧
      sampleJsonText c.FzDownFolder = c.FzDownFolder ∧
      sampleJsonText c.FzUpFolder = c.FzUpFolder ∧ sampleJsonText c.NotifyTo = c.NotifyTo ∧
      sampleJsonText c.NotifyMode = c.NotifyMode)
    (h : sampleJsonMarshal c = .ok d) : sampleJsonUnmarshal d = .ok c := by
  unfold sampleJsonMarshal at h
  cases h
  obtain ⟨h1, h2, h3, h4, h5, h6, h7, h8⟩ := hc
  unfold sampleJsonUnmarshal
  simp only [sampleReadField_field, h1, h2, h3, h4, h5, h6, h7, h8]

theorem sampleCryptoLib_cfb (k v p : Bytes) :
    sampleCryptoLib.xorKeyStreamDec k v (sampleCryptoLib.xorKeyStreamEnc k v p) = p := by
  simp only [sampleCryptoLib, List.map_map]
  have hid : ((fun b => b ^^^ k.headD 0) ∘ fun b => b ^^^ k.headD 0) = id := by
    funext b
    simp [Nat.xor_cancel_right]
  rw [hid, List.map_id]

/-- C23 (amended) at the sample library functions: user id `u`, password `pw`, master
key `m`. -/
theorem stored_password_round_trip_witness :
    (32 < 33 ∧ FzcConfig.FzUID { FzUID := [117], FzPassword := [112, 119] } ≠ [] ∧
      FzcConfig.FzPassword { FzUID := [117], FzPassword := [112, 119] } ≠ [] ∧
      (List.replicate 16 7 : Bytes).length = 16) ∧
    ∃ saved file,
      SaveFzcConfig sampleCryptoLib sampleJsonMarshal 33
        ⟨.ok (List.replicate 16 7), none, none, none⟩
        { FzUID := [117], FzPassword := [112, 119] } [109] =
        some ⟨saved, some file, none⟩ ∧
      saved.FzUID = FzcConfig.FzUID { FzUID := [117], FzPassword := [112, 119] } ∧
      LoadFzcConfig sampleCryptoLib sampleJsonUnmarshal 33 (.ok file) [109] =
        some (.ok { FzUID := [117], FzPassword := [112, 119] }) :=
  ⟨⟨by decide, by decide, by decide, by decide⟩,
    stored_password_round_trip sampleCryptoLib sampleJsonMarshal sampleJsonUnmarshal 33
      { FzUID := [117], FzPassword := [112, 119] } [109] (List.replicate 16 7)
      (by decide) (by decide) (by decide) (by decide)
      sampleCryptoLib_cfb sampleBase64_round_trip rfl (fun _ => ⟨_, rfl⟩)
      (fun x d h => sampleJson_round_trip _ d
        ⟨rfl, rfl, sampleJsonText_base64 x, rfl, rfl, rfl, rfl, rfl⟩ h)⟩

set_option maxRecDepth 100000 in
/-- C23 fails as stated: for the user id of the one byte 255, which is no valid
UTF-8, the file holds the user id U+FFFD (bytes 239, 191, 189), so `LoadFzcConfig`
decrypts under a key made from another text and returns a password other than the
one saved. -/
theorem stored_password_invalid_uid_counterexample :
    (∃ saved file,
      SaveFzcConfig sampleCryptoLib sampleJsonMarshal 33
        ⟨.ok (List.replicate 16 0), none, none, none⟩
        { FzUID := [255], FzPassword := [112, 119] } [109] =
        some ⟨saved, some file, none⟩ ∧
      LoadFzcConfig sampleCryptoLib sampleJsonUnmarshal 33 (.ok file) [109] =
        some (.ok { FzUID := [239, 191, 189], FzPassword := [96, 103] })) ∧
    ([96, 103] : Bytes) ≠ [112, 119] ∧
    getAesKey 33 ([255] ++ [109]) ≠ getAesKey 33 ([239, 191, 189] ++ [109]) :=
  ⟨⟨_, _, rfl, rfl⟩, by decide, by decide⟩

/-! ## C22: the size cap of `FzSendMB` -/

/-- C22: for every delivery configuration that passes the field checks (sender,
recipients, file, start date, days, limit) and whose file `os.Stat` finds, `FzSendMB`
returns the error `FzSendMB - File Size over 200MB` without any request when the
size is above 209715200 bytes; for a size of 209715200 bytes or less the outcome
does not depend on the size, and when the local steps succeed on a stored response
exactly one request is made. -/
theorem FzSendMB_size_cap (fz : FzAPI) (xmlUnmarshal : String → Except String XMLFileZen)
    (lib : MbLib) (base : String → String) (mbconf : List (String × String))
    (st : Int × Int × Int) (nDays nLimitCount size : Int)
    (openErr createFormFileErr closeErr : GoError) (net : Except String HttpResponse)
    (hfrom : getMbOpt mbconf "from" "" ≠ "") (hto : ¬ (mbToList lib mbconf).length < 1)
    (hfile : getMbOpt mbconf "file" "" ≠ "")
    (hstart : lib.parseDate (getMbOpt mbconf "start" "") = some st)
    (hdays : lib.atoi (getMbOpt mbconf "days" "HEHEH") = some nDays)
    (hlimit : lib.atoi (getMbOpt mbconf "limit" "HEHEH") = some nLimitCount) :
    (size > 209715200 →
      FzSendMB fz xmlUnmarshal lib base
        ⟨none, size, openErr, createFormFileErr, closeErr, net⟩ mbconf =
        .ok ⟨fz, [], some "FzSendMB - File Size over 200MB"⟩) ∧
    (size ≤ 209715200 →
      FzSendMB fz xmlUnmarshal lib base
        ⟨none, size, openErr, createFormFileErr, closeErr, net⟩ mbconf =
      FzSendMB fz xmlUnmarshal lib base
        ⟨none, 0, openErr, createFormFileErr, closeErr, net⟩ mbconf) ∧
    (size ≤ 209715200 → ∀ last, ∃ fz1 req err,
      FzSendMB { fz with LastResp := some last } xmlUnmarshal lib base
        ⟨none, size, none, none, none, net⟩ mbconf = .ok ⟨fz1, [req], err⟩) := by
  refine ⟨?_, ?_, ?_⟩
  · intro hs
    have hs2 : size > 1024 * 1024 * 200 := by omega
    simp only [FzSendMB, hfrom, hto, hfile, hstart, hdays, hlimit, hs2, if_true, if_false]
  · intro hs
    have hs2 : ¬ size > 1024 * 1024 * 200 := by omega
    have h0 : ¬ (0 : Int) > 1024 * 1024 * 200 := by omega
    simp only [FzSendMB, hfrom, hto, hfile, hstart, hdays, hlimit, hs2, h0, if_false]
  · intro hs last
    have hs2 : ¬ size > 1024 * 1024 * 200 := by omega
    cases net with
    | error e =>
      apply Exists.intro
      apply Exists.intro
      apply Exists.intro
      simp only [FzSendMB, hfrom, hto, hfile, hstart, hdays, hlimit, hs2, if_false]
      rfl
    | ok resp =>
      apply Exists.intro
      apply Exists.intro
      apply Exists.intro
      simp only [FzSendMB, hfrom, hto, hfile, hstart, hdays, hlimit, hs2, if_false]
      rfl

/-- C22 at the sample delivery configuration with a file of 209715201 bytes. -/
theorem FzSendMB_size_cap_witness :
    (getMbOpt sampleMbConf "from" "" ≠ "" ∧ ¬ (mbToList sampleMbLib sampleMbConf).length < 1 ∧
      getMbOpt sampleMbConf "file" "" ≠ "" ∧ (209715201 : Int) > 209715200) ∧
    FzSendMB tokenFz sampleUnmarshal sampleMbLib (fun _ => "test.txt")
      ⟨none, 209715201, none, none, none, .ok { body := "ok2" }⟩ sampleMbConf =
      .ok ⟨tokenFz, [], some "FzSendMB - File Size over 200MB"⟩ :=
  ⟨⟨by decide, by decide, by decide, by decide⟩,
    (FzSendMB_size_cap tokenFz sampleUnmarshal sampleMbLib (fun _ => "test.txt") sampleMbConf
      (2026, 1, 1) 1 1 209715201 none none none (.ok { body := "ok2" })
      (by decide) (by decide) (by decide) rfl rfl rfl).1 (by decide)⟩

/-! ## C25: the failure cases of `MbImportCSV` -/

/-- C25 is broken by the code: on a session whose client is set, when `fz.client.Do`
returns no response (a nil response, with or without an error) and the local steps
succeed, `MbImportCSV` does not return an error: it stops with a nil-dereference
panic at `resp.Header`. (On a session whose client is not set it panics before the
request, at `fz.client.CheckRedirect`.) With the client set and a response it never
panics, and it returns nil exactly when none of these holds: the transport error is
set and the status is not 302, the `Location` contains `/import`, or the body is
read to the end and contains one of the two failure texts. -/
theorem MbImportCSV_no_response (fz : FzAPI) (base : String → String)
    (path uid localFile fileKey : String) (replace : Bool) (err : GoError) :
    MbImportCSV fz true base ⟨none, none, none, none, err⟩ path uid localFile fileKey replace =
      .panic ∧
    (∀ resp : Option ImportResponse,
      MbImportCSV fz false base ⟨none, none, none, resp, err⟩ path uid localFile fileKey
        replace = .panic) ∧
    ∀ r : ImportResponse,
      MbImportCSV fz true base ⟨none, none, none, some r, err⟩ path uid localFile fileKey
        replace ≠ .panic ∧
      (MbImportCSV fz true base ⟨none, none, none, some r, err⟩ path uid localFile fileKey
          replace =
          .ok ⟨fz, [Request.multipart (fz.URL ++ "/mb/cgi-bin/index.cgi" ++ path) fileKey
            (base localFile) (MbImportCSVFields uid replace) (some fz.FzSession)], none⟩ ↔
        ¬ ((err ≠ none ∧ r.StatusCode ≠ 302) ∨ stringsContains r.Location "/import" = true ∨
          (r.readErr = none ∧
            (stringsContains r.body "アドレス帳ファイルが正しくありません" = true ∨
              stringsContains r.body "ユーザーIDの指定が正しくありません。" = true)))) := by
  refine ⟨?_, ?_, ?_⟩
  · cases err <;> simp [MbImportCSV]
  · intro resp
    simp [MbImportCSV]
  · intro r
    cases err <;> by_cases h0 : r.StatusCode = 302 <;>
      by_cases h1 : stringsContains r.Location "/import" = true <;>
      by_cases h2 : r.readErr = none <;>
      by_cases h3 : stringsContains r.body "アドレス帳ファイルが正しくありません" = true <;>
      by_cases h4 : stringsContains r.body "ユーザーIDの指定が正しくありません。" = true <;>
      simp [MbImportCSV, h0, h1, h2, h3, h4]

/-! ## C26: the archive search and the `UserID` of the search parameter -/

theorem prjEntKept_setupSearchParam_UserID (lib : ArcLib) (s : SearchFzArchiveEnt)
    (u : String) (e : FzArcPrjEnt) :
    prjEntKept (setupSearchParam lib { s with UserID := u }) e =
      prjEntKept (setupSearchParam lib s) e := rfl

theorem mbRfEntKept_setupSearchParam_UserID (lib : ArcLib) (s : SearchFzArchiveEnt)
    (u : String) (e : FzArcMbRfEnt) :
    mbRfEntKept (setupSearchParam lib { s with UserID := u }) e =
      mbRfEntKept (setupSearchParam lib s) e := rfl

/-- C26: the result of `SearchFzPrjArchiveFile` and of `SearchFzMbRfArchiveFile` does
not depend on the `UserID` of the search parameter: for every archive and parameter,
replacing `UserID` by any text `u` gives the same entries. In the sample archive,
whose entries are of user `guest`, the search for the user expression `admin` (which
does not match `guest`) returns both entries. -/
theorem SearchFzArchive_ignores_UserID (lib : ArcLib) (a : FzArchive)
    (s : SearchFzArchiveEnt) (u : String) :
    SearchFzPrjArchiveFile lib a { s with UserID := u } = SearchFzPrjArchiveFile lib a s ∧
    SearchFzMbRfArchiveFile lib a { s with UserID := u } = SearchFzMbRfArchiveFile lib a s ∧
    regexpRejects (sampleArcLib.compile "admin") "guest" = true ∧
    SearchFzPrjArchiveFile sampleArcLib sampleArchive { UserID := "admin" } =
      [{ UserID := "guest", ProjectName := "P", FolderName := "F", FileName := "a.txt",
         TimeStamp := 5 }] ∧
    SearchFzMbRfArchiveFile sampleArcLib sampleArchive { UserID := "admin" } =
      [{ UserID := "guest", JobID := "j1", FileName := "b.txt", TimeStamp := 5 }] := by
  refine ⟨?_, ?_, by decide, by decide, by decide⟩
  · unfold SearchFzPrjArchiveFile
    exact congrArg (fun f => a.FzPrjArcList.filter f)
      (funext (prjEntKept_setupSearchParam_UserID lib s u))
  · unfold SearchFzMbRfArchiveFile
    exact congrArg (fun f => a.FzMbRfArcList.filter f)
      (funext (mbRfEntKept_setupSearchParam_UserID lib s u))

/-! ## C27: the buffer of the multipart uploads -/

/-- C27 is broken by the code: the body `FzUpload` and `fzPlUploadPart` hand to
`fz.client.Do` is the content `gBody` had before the call followed by what the call
writes, and what the transport did not read stays in `gBody`; so the body holds what
an earlier call left: after an `FzUpload` of `a.txt` whose request fails before any
of the body is read, the body of the next `FzUpload`, of `b.txt`, starts with the
file part and the fields of `a.txt`. -/
theorem gBody_keeps_earlier_body (gBody : List BodyPiece) (fz : FzAPI) (last : XMLFileZen)
    (xmlUnmarshal : String → Except String XMLFileZen)
    (base : String → String) (net : Except String HttpResponse) (nRead : Nat)
    (localFile folderID regName comment notifyTo notifyMode : String) (c : PartCall)
    (resp : HttpResponse) (e : String) :
    (∃ fz1 err,
      FzUpload gBody { fz with LastResp := some last } xmlUnmarshal base
          ⟨none, none, none, net, nRead⟩
          localFile folderID regName comment notifyTo notifyMode =
        .ok ⟨fz1, [Request.buffered (fz.URL ++ "/cgi-bin/index.cgi")
          (gBody ++ FzUploadWritten last.ValidKey (base localFile) folderID regName comment
            notifyTo notifyMode ++ [BodyPiece.close]) (some fz.FzSession)], err,
          (gBody ++ FzUploadWritten last.ValidKey (base localFile) folderID regName comment
            notifyTo notifyMode ++ [BodyPiece.close]).drop nRead⟩) ∧
    fzPlUploadPart gBody { fz with LastResp := some last }
        { net := .ok resp, nRead := nRead } c =
      .ok ⟨[Request.buffered (fz.URL ++ "/cgi-bin/index.cgi")
          (gBody ++ partWritten { fz with LastResp := some last } last.ValidKey c ++
            [BodyPiece.close]) (some fz.FzSession)], true, none,
        (gBody ++ partWritten { fz with LastResp := some last } last.ValidKey c ++
          [BodyPiece.close]).drop nRead⟩ ∧
    fzPlUploadPart gBody { fz with LastResp := some last }
        { net := .error e, nRead := nRead } c =
      .ok ⟨[Request.buffered (fz.URL ++ "/cgi-bin/index.cgi")
          (gBody ++ partWritten { fz with LastResp := some last } last.ValidKey c ++
            [BodyPiece.close]) (some fz.FzSession)], false,
        some ("FzPlUploadPart - POST Error: " ++ e),
        (gBody ++ partWritten { fz with LastResp := some last } last.ValidKey c ++
          [BodyPiece.close]).drop nRead⟩ ∧
    FzUpload [] tokenFz sampleUnmarshal (fun x => x)
        ⟨none, none, none, .error "connection refused", 0⟩
        "a.txt" "12" "a.txt" "" "" "" =
      .ok ⟨tokenFz, [Request.buffered "https://fz/cgi-bin/index.cgi"
          (FzUploadWritten "T1" "a.txt" "12" "a.txt" "" "" "" ++ [BodyPiece.close])
          (some "sid")], some "FzUpload - POST Error: connection refused",
        FzUploadWritten "T1" "a.txt" "12" "a.txt" "" "" "" ++ [BodyPiece.close]⟩ ∧
    FzUpload (FzUploadWritten "T1" "a.txt" "12" "a.txt" "" "" "" ++ [BodyPiece.close])
        tokenFz sampleUnmarshal (fun x => x) ⟨none, none, none, .ok { body := "ok2" }, 100⟩
        "b.txt" "12" "b.txt" "" "" "" =
      .ok ⟨{ tokenFz with LastResp := some { Res := "OK", ValidKey := "T2" } },
        [Request.buffered "https://fz/cgi-bin/index.cgi"
          ((FzUploadWritten "T1" "a.txt" "12" "a.txt" "" "" "" ++ [BodyPiece.close]) ++
            FzUploadWritten "T1" "b.txt" "12" "b.txt" "" "" "" ++ [BodyPiece.close])
          (some "sid")], none, []⟩ := by
  refine ⟨?_, rfl, rfl, by decide, by decide⟩
  cases net with
  | error x => exact ⟨_, _, rfl⟩
  | ok rsp => exact ⟨_, _, rfl⟩

/-! ## C28: the values `loadMbConf` reads -/

/-- C28 is broken by the code: `loadMbConf` keeps of a value only the text between
the first and the second colon. On the line `file:C:/data/test.txt` the value read
for `file` is `C`, on `subject:Re: report` the value of `subject` is `Re`, and on the
line `comment:Re: see below` the body starts with `Re` alone. On a sample file whose
values hold no colon the rest is as the claim says: the key is lower-cased, the value
trimmed, and the `mailto` lines before the `comment` line are joined with ",". -/
theorem loadMbConf_value_cut :
    fieldOf (loadMbConf sampleConfLib none ["file:C:/data/test.txt"]).1 "file" = some "C" ∧
    fieldOf (loadMbConf sampleConfLib none ["subject:Re: report"]).1 "subject" = some "Re" ∧
    fieldOf (loadMbConf sampleConfLib none ["comment:Re: see below", "second line"]).1
      "comment" = some "Re\nsecond line\n" ∧
    fieldOf (loadMbConf sampleConfLib none
      ["Subject: Test ", "mailto:a@x", "MailTo: b@y", "comment:see below",
        "mailto:c@z"]).1 "subject" = some "Test" ∧
    fieldOf (loadMbConf sampleConfLib none
      ["Subject: Test ", "mailto:a@x", "MailTo: b@y", "comment:see below",
        "mailto:c@z"]).1 "mailto" = some "a@x,b@y" ∧
    fieldOf (loadMbConf sampleConfLib none
      ["Subject: Test ", "mailto:a@x", "MailTo: b@y", "comment:see below",
        "mailto:c@z"]).1 "comment" = some "see below\nmailto:c@z\n" :=
  ⟨by decide, by decide, by decide, by decide, by decide, by decide⟩

end Fzapi
